import Mathlib

/-!
# MazeRunner: a shallow embedding of `maze_runner_lib.h`

The C++ class `MazeRunner` is embedded as pure functions over explicit state.

* `int` coordinates are `Int`; no arithmetic in the embedded code leaves the range of a
  machine `int` for coordinates that come from a grid, so no wrap-around is modelled.
* `bool **_mazeWalls` is a function `y ↦ x ↦ Bool` (`mazeWalls y x`, as in `_mazeWalls[y][x]`);
  every read the code performs is guarded by `isInMazeBounds` or uses in-range indices.
* The global Arduino `random` is an explicit source: an arbitrary stream of naturals and a
  read position; `random n` yields the next value reduced modulo `n`.
* `std::stack`, `std::queue`, `std::deque` are lists; `std::unordered_set` is a list used
  only through membership; `std::unordered_map` is an association list whose newest entry wins.
* Loops that the source bounds by `maxCycles` recurse on that counter.  The remaining
  `while` loops recurse on an explicit `fuel`; `none` means the fuel ran out.
* The two sinks are recorded as an output trace.  The draw sink is a required constructor
  argument and is taken to hold a target.  An omitted status sink is an empty `std::function`;
  invoking it throws `std::bad_function_call`.
-/

namespace MazeRunner

/-! ## Coordinates -/

structure Coordinate where
  x : Int
  y : Int
deriving DecidableEq, Repr

abbrev Location := Coordinate
abbrev Direction := Coordinate

def NullLocation : Location := ⟨-1, -1⟩

def Left : Direction := ⟨-1, 0⟩
def Right : Direction := ⟨1, 0⟩
def Up : Direction := ⟨0, -1⟩
def Down : Direction := ⟨0, 1⟩
def Directions : List Direction := [Left, Right, Up, Down]

/-- The cell reached from `loc` by one `step`: `{loc.x + step.x, loc.y + step.y}`. -/
def stepFrom (loc : Location) (step : Direction) : Location :=
  ⟨loc.x + step.x, loc.y + step.y⟩

/-- Source: `isAdjacent(a, b)`, `abs(a.x - b.x) + abs(a.y - b.y) == 1`. -/
def isAdjacent (a b : Location) : Bool :=
  decide ((a.x - b.x).natAbs + (a.y - b.y).natAbs = 1)

/-! ## The random source -/

structure Rng where
  source : Nat → Nat
  pos : Nat

/-- The Arduino core's `random(howbig)` (the core is not part of the repository): `0` when
`howbig` is `0`, else the next value of the source reduced modulo `howbig`.  The code only
passes the grid's width and height and the constant 4; a non-positive argument is treated
like `0`. -/
def random (r : Rng) (howbig : Int) : Int × Rng :=
  if howbig ≤ 0 then (0, r)
  else (((r.source r.pos % howbig.toNat : Nat) : Int), { r with pos := r.pos + 1 })

/-- The Arduino core's `random(howsmall, howbig)`: `howsmall` when the range is empty, else
`random(howbig - howsmall) + howsmall`. -/
def randomRange (r : Rng) (howsmall howbig : Int) : Int × Rng :=
  if howsmall ≥ howbig then (howsmall, r)
  else ((random r (howbig - howsmall)).1 + howsmall, (random r (howbig - howsmall)).2)

/-- The body of the loop of `shuffleDirections`: swap `list[i]` and `list[index]`. -/
def swapEntries (list : List Direction) (i index : Nat) : List Direction :=
  (list.set i (list.getD index ⟨0, 0⟩)).set index (list.getD i ⟨0, 0⟩)

/-- Source: `shuffleDirections(list, size)`. -/
def shuffleDirections (list : List Direction) (size : Nat) (r : Rng) : List Direction × Rng :=
  (List.range size).foldl
    (fun (acc : List Direction × Rng) i =>
      (swapEntries acc.1 i (random acc.2 size).1.toNat, (random acc.2 size).2))
    (list, r)

/-! ## The grid -/

structure Grid where
  width : Int
  height : Int
  mazeWalls : Int → Int → Bool

/-- Source: `isWall(int x, int y)`. -/
def isWallAt (g : Grid) (x y : Int) : Bool := g.mazeWalls y x

/-- Source: `isWall(Location loc)`. -/
def isWall (g : Grid) (loc : Location) : Bool := isWallAt g loc.x loc.y

/-- Source: `isInMazeBounds(int x, int y)`. -/
def isInMazeBoundsAt (g : Grid) (x y : Int) : Bool :=
  decide (x ≥ 0) && decide (x < g.width) && decide (y ≥ 0) && decide (y < g.height)

/-- Source: `isInMazeBounds(Location loc)`. -/
def isInMazeBounds (g : Grid) (loc : Location) : Bool := isInMazeBoundsAt g loc.x loc.y

/-- Source: `getAdjacentWallAndBorderCount(int x, int y)`. -/
def getAdjacentWallAndBorderCountAt (g : Grid) (x y : Int) : Nat :=
  Directions.foldl
    (fun count d =>
      if x + d.x < 0 ∨ x + d.x ≥ g.width ∨ y + d.y < 0 ∨ y + d.y ≥ g.height
          ∨ g.mazeWalls (y + d.y) (x + d.x) = true then count + 1 else count)
    0

/-- Source: `getAdjacentWallAndBorderCount(Location loc)`. -/
def getAdjacentWallAndBorderCount (g : Grid) (loc : Location) : Nat :=
  getAdjacentWallAndBorderCountAt g loc.x loc.y

/-- The assignment `_mazeWalls[y][x] = v`. -/
def setWall (g : Grid) (x y : Int) (v : Bool) : Grid :=
  { g with mazeWalls := fun y' x' => if y' = y ∧ x' = x then v else g.mazeWalls y' x' }

/-- The first loop of `generateMaze`: every cell of the grid becomes a wall. -/
def fillWalls (g : Grid) : Grid :=
  { g with mazeWalls := fun y x => if isInMazeBoundsAt g x y then true else g.mazeWalls y x }

/-! ## Maze generation -/

/-- The test of the carving loop on a candidate `nextLoc`. -/
def canCarve (g : Grid) (nextLoc : Location) : Bool :=
  isInMazeBounds g nextLoc && isWall g nextLoc && decide (getAdjacentWallAndBorderCount g nextLoc ≥ 3)

/-- The carving loop of `generateMaze`, `while (!path.empty() && maxCycles-- > 0)`.
The traversal stack `path` has its top at the head. -/
def carveLoop : Nat → Grid → List Location → Rng → Grid × List Location × Rng
  | _, g, [], r => (g, [], r)
  | 0, g, path, r => (g, path, r)
  | maxCycles + 1, g, cur :: rest, r =>
    match (shuffleDirections [Left, Right, Up, Down] 4 r).1.find?
        (fun step => canCarve g (stepFrom cur step)) with
    | some step =>
      carveLoop maxCycles (setWall g (stepFrom cur step).x (stepFrom cur step).y false)
        (stepFrom cur step :: cur :: rest) (shuffleDirections [Left, Right, Up, Down] 4 r).2
    | none => carveLoop maxCycles g rest (shuffleDirections [Left, Right, Up, Down] 4 r).2

/-- The extra-wall loop of `generateMaze`,
`while (wallsRemoved < _mazeExtraWallsToRemove && maxCycles-- > 0)`. -/
def removeWallsLoop : Nat → Grid → Int → Int → Rng → Grid × Rng
  | 0, g, _, _, r => (g, r)
  | maxCycles + 1, g, wallsRemoved, extraWallsToRemove, r =>
    if wallsRemoved < extraWallsToRemove then
      if isWallAt g (random r g.width).1 (random (random r g.width).2 g.height).1
          && decide (getAdjacentWallAndBorderCountAt g (random r g.width).1
                (random (random r g.width).2 g.height).1 ≥ 2) then
        removeWallsLoop maxCycles
          (setWall g (random r g.width).1 (random (random r g.width).2 g.height).1 false)
          (wallsRemoved + 1) extraWallsToRemove (random (random r g.width).2 g.height).2
      else
        removeWallsLoop maxCycles g wallsRemoved extraWallsToRemove
          (random (random r g.width).2 g.height).2
    else (g, r)

/-! ## Path search -/

/-- The test both searches apply to a neighbour `nextLoc` before queueing it. -/
def canVisit (g : Grid) (sentryLoc : Location) (locsVisited : List Location)
    (nextLoc : Location) : Bool :=
  isInMazeBounds g nextLoc && !isWall g nextLoc
    && (decide (sentryLoc = NullLocation)
        || (decide (nextLoc ≠ sentryLoc) && !isAdjacent nextLoc sentryLoc))
    && !decide (nextLoc ∈ locsVisited)

/-- The inner loop `while (curPath.size() > distFromStart) curPath.pop()`;
the stack has its top at the head. -/
def unwindPath : List Location → Nat → List Location
  | [], _ => []
  | top :: below, distFromStart =>
    if (top :: below).length > distFromStart then unwindPath below distFromStart
    else top :: below

/-- The body of `for (Direction step : randSteps)` in `findPathDfs`. -/
def dfsPush (g : Grid) (sentryLoc : Location) (locsVisited : List Location) (curLoc : Location)
    (distFromStart : Nat) (locsToVisit : List (Location × Nat)) (step : Direction) :
    List (Location × Nat) :=
  if canVisit g sentryLoc locsVisited (stepFrom curLoc step) then
    (stepFrom curLoc step, distFromStart + 1) :: locsToVisit
  else locsToVisit

/-- The main loop of `findPathDfs`, `while (!locsToVisit.empty())`.  Both stacks have their
top at the head.  When the goal is popped the path stack is emptied into a deque by
`push_front` (which reverses it) and the start is dropped by `pop_front`. -/
def findPathDfsLoop (g : Grid) (sentryLoc endLoc : Location) (maxSearchDistance : Int) :
    Nat → List (Location × Nat) → List Location → List Location → Rng →
      Option (List Location × Rng)
  | _, [], _, _, r => some ([], r)
  | 0, _ :: _, _, _, _ => none
  | fuel + 1, (curLoc, distFromStart) :: rest, locsVisited, curPath, r =>
    if curLoc = endLoc then
      some ((curLoc :: unwindPath curPath distFromStart).reverse.tail, r)
    else if maxSearchDistance > 0 ∧ (distFromStart : Int) + 1 > maxSearchDistance then
      findPathDfsLoop g sentryLoc endLoc maxSearchDistance fuel rest (curLoc :: locsVisited)
        (curLoc :: unwindPath curPath distFromStart) r
    else
      findPathDfsLoop g sentryLoc endLoc maxSearchDistance fuel
        ((shuffleDirections [Left, Right, Up, Down] 4 r).1.foldl
          (dfsPush g sentryLoc (curLoc :: locsVisited) curLoc distFromStart) rest)
        (curLoc :: locsVisited) (curLoc :: unwindPath curPath distFromStart)
        (shuffleDirections [Left, Right, Up, Down] 4 r).2

/-- Source: `findPathDfs(startLoc, sentryLoc, endLoc, maxSearchDistance)`. -/
def findPathDfs (fuel : Nat) (g : Grid) (startLoc sentryLoc endLoc : Location)
    (maxSearchDistance : Int) (r : Rng) : Option (List Location × Rng) :=
  findPathDfsLoop g sentryLoc endLoc maxSearchDistance fuel [(startLoc, 0)] [] [] r

/-- The state the `for` loop of `findLongestPathBfs` updates: the queue (front at the head),
the predecessor map and the farthest location with its distance. -/
structure BfsAcc where
  locsToVisit : List (Location × Nat)
  visitedFrom : List (Location × Location)
  farthestLocAndDist : Location × Nat

/-- The body of `for (Direction step : randSteps)` in `findLongestPathBfs`. -/
def bfsPush (g : Grid) (sentryLoc : Location) (locsVisited : List Location) (curLoc : Location)
    (distFromStart : Nat) (acc : BfsAcc) (step : Direction) : BfsAcc :=
  if canVisit g sentryLoc locsVisited (stepFrom curLoc step) then
    { locsToVisit := acc.locsToVisit ++ [(stepFrom curLoc step, distFromStart + 1)]
      visitedFrom := (stepFrom curLoc step, curLoc) :: acc.visitedFrom
      farthestLocAndDist :=
        if distFromStart + 1 > acc.farthestLocAndDist.2 then
          (stepFrom curLoc step, distFromStart + 1)
        else acc.farthestLocAndDist }
  else acc

/-- The main loop of `findLongestPathBfs`, `while (!locsToVisit.empty())`. -/
def findLongestPathBfsLoop (g : Grid) (sentryLoc : Location) (maxSearchDistance : Int) :
    Nat → BfsAcc → List Location → Rng → Option (BfsAcc × Rng)
  | _, ⟨[], visitedFrom, farthest⟩, _, r => some (⟨[], visitedFrom, farthest⟩, r)
  | 0, ⟨_ :: _, _, _⟩, _, _ => none
  | fuel + 1, ⟨(curLoc, distFromStart) :: rest, visitedFrom, farthest⟩, locsVisited, r =>
    if maxSearchDistance > 0 ∧ (distFromStart : Int) + 1 > maxSearchDistance then
      findLongestPathBfsLoop g sentryLoc maxSearchDistance fuel ⟨rest, visitedFrom, farthest⟩
        (curLoc :: locsVisited) r
    else
      findLongestPathBfsLoop g sentryLoc maxSearchDistance fuel
        ((shuffleDirections [Left, Right, Up, Down] 4 r).1.foldl
          (bfsPush g sentryLoc (curLoc :: locsVisited) curLoc distFromStart)
          ⟨rest, visitedFrom, farthest⟩)
        (curLoc :: locsVisited) (shuffleDirections [Left, Right, Up, Down] 4 r).2

/-- The read `visitedFrom[curLoc]`; a missing key reads as the value-initialised `{0, 0}`. -/
def visitedFromAt (visitedFrom : List (Location × Location)) (curLoc : Location) : Location :=
  match visitedFrom.find? (fun entry => decide (entry.1 = curLoc)) with
  | some entry => entry.2
  | none => ⟨0, 0⟩

/-- The loop `while (curLoc != startLoc)` that walks the predecessors back to the start. -/
def buildPathLoop (startLoc : Location) (visitedFrom : List (Location × Location)) :
    Nat → Location → List Location → Option (List Location)
  | 0, curLoc, path => if curLoc = startLoc then some path else none
  | fuel + 1, curLoc, path =>
    if curLoc = startLoc then some path
    else buildPathLoop startLoc visitedFrom fuel (visitedFromAt visitedFrom curLoc) (curLoc :: path)

/-- Source: `findLongestPathBfs(startLoc, sentryLoc, maxSearchDistance)`. -/
def findLongestPathBfs (fuel : Nat) (g : Grid) (startLoc sentryLoc : Location)
    (maxSearchDistance : Int) (r : Rng) : Option (List Location × Rng) :=
  match findLongestPathBfsLoop g sentryLoc maxSearchDistance fuel
      ⟨[(startLoc, 0)], [(startLoc, startLoc)], (startLoc, 0)⟩ [] r with
  | none => none
  | some (acc, r') =>
    if acc.farthestLocAndDist.2 = 0 then some ([], r')
    else
      match buildPathLoop startLoc acc.visitedFrom fuel acc.farthestLocAndDist.1 [] with
      | none => none
      | some path => some (path, r')

/-! ## The simulation object -/

/-- One call to a sink. -/
inductive Event where
  | drawPixel (x y : Int) (color : Nat)
  | setStatus (color : Nat)
deriving DecidableEq, Repr

/-- The member variables of `MazeRunner`, the random source, whether the status callback
holds a target, and the trace of sink calls made so far. -/
structure State extends Grid where
  mazeExtraWallsToRemove : Int
  pathColor : Nat
  wallColor : Nat
  runnerLoc : Location
  runnerSentryKnownLoc : Location
  runnerPath : List Location
  runnerColor : Nat
  runnerCooldown : Nat
  resetDelay : Int
  sentryLoc : Location
  sentryExitKnownLoc : Location
  sentryPath : List Location
  sentryColor : Nat
  sentryCooldown : Nat
  exitColor : Nat
  exitLoc : Location
  hasSetStatus : Bool
  rng : Rng
  out : List Event

def RunnerFear : Nat := 10
def RunnerSense : Nat := 2
def RunnerSpeed : Nat := 3
def SentrySense : Nat := 2
def SentrySpeed : Nat := 5
def GoalDelay : Int := 10
def CatchDelay : Int := 30
def ErrorDelay : Int := 100

/-- Source: the constructor `MazeRunner(...)`.  The rows it allocates are not initialised:
`walls` stands for whatever they hold.  `setStatus` is `false` when the argument is omitted. -/
def construct (width height : Int) (pathColor wallColor runnerColor sentryColor exitColor : Nat)
    (setStatus : Bool) (walls : Int → Int → Bool) (rng : Rng) : State :=
  { width := width, height := height, mazeWalls := walls
    mazeExtraWallsToRemove := 1
    pathColor := pathColor, wallColor := wallColor
    runnerLoc := NullLocation, runnerSentryKnownLoc := NullLocation, runnerPath := []
    runnerColor := runnerColor, runnerCooldown := 0, resetDelay := -1
    sentryLoc := NullLocation, sentryExitKnownLoc := NullLocation, sentryPath := []
    sentryColor := sentryColor, sentryCooldown := 0
    exitColor := exitColor, exitLoc := NullLocation
    hasSetStatus := setStatus, rng := rng, out := [] }

/-- The call `_setStatus(color)`: `Except.error` carries the state at the moment
`std::bad_function_call` is thrown. -/
def setStatus (s : State) (color : Nat) : Except State State :=
  if s.hasSetStatus then Except.ok { s with out := s.out ++ [Event.setStatus color] }
  else Except.error s

/-- The seed cell `start` of `generateMaze` and the random source after choosing it. -/
def chooseStart (s : State) : Location × Rng :=
  if s.exitLoc = NullLocation then
    (⟨(randomRange (random s.rng 4).2 0 s.width).1,
      (random (randomRange (random s.rng 4).2 0 s.width).2 s.height).1⟩,
     (random (randomRange (random s.rng 4).2 0 s.width).2 s.height).2)
  else (s.runnerLoc, s.rng)

/-- The first half of `generateMaze`: fill with walls, open the seed cell, carve. -/
def generateMazeCarve (s : State) : Grid × List Location × Rng :=
  carveLoop 1000
    (setWall (fillWalls s.toGrid) (chooseStart s).1.x (chooseStart s).1.y false)
    [(chooseStart s).1] (chooseStart s).2

/-- Source: `generateMaze()`. -/
def generateMaze (s : State) : State :=
  { s with
    toGrid := (removeWallsLoop 1000 (generateMazeCarve s).1 0 s.mazeExtraWallsToRemove
      (generateMazeCarve s).2.2).1
    rng := (removeWallsLoop 1000 (generateMazeCarve s).1 0 s.mazeExtraWallsToRemove
      (generateMazeCarve s).2.2).2 }

/-- The loop `while (_runnerLoc.x < 0 || _runnerLoc.y < 0)` of `placeRunner`. -/
def placeRunnerLoop : Nat → State → Option State
  | 0, s => if s.runnerLoc.x < 0 ∨ s.runnerLoc.y < 0 then none else some s
  | fuel + 1, s =>
    if s.runnerLoc.x < 0 ∨ s.runnerLoc.y < 0 then
      if !isWallAt s.toGrid (random s.rng s.width).1 (random (random s.rng s.width).2 s.height).1 then
        placeRunnerLoop fuel
          { s with
            runnerLoc := ⟨(random s.rng s.width).1, (random (random s.rng s.width).2 s.height).1⟩
            rng := (random (random s.rng s.width).2 s.height).2 }
      else
        placeRunnerLoop fuel { s with rng := (random (random s.rng s.width).2 s.height).2 }
    else some s

/-- Source: `placeRunner()`. -/
def placeRunner (fuel : Nat) (s : State) : Option State :=
  if 0 < s.runnerLoc.x ∧ 0 < s.runnerLoc.y
      ∧ (s.runnerLoc = s.exitLoc ∨ s.runnerLoc = s.sentryLoc) then
    some { s with runnerPath := [], runnerSentryKnownLoc := NullLocation, runnerCooldown := 0 }
  else
    placeRunnerLoop fuel
      { s with runnerPath := [], runnerSentryKnownLoc := NullLocation, runnerCooldown := 0 }

/-- The loop `while (_sentryLoc.x == -1)` of `placeSentry`. -/
def placeSentryLoop : Nat → Nat → State → Option State
  | 0, _, s => if s.sentryLoc.x = -1 then none else some s
  | fuel + 1, attempts, s =>
    if s.sentryLoc.x = -1 then
      if !isWallAt s.toGrid (random s.rng s.width).1 (random (random s.rng s.width).2 s.height).1
          && decide ((((random s.rng s.width).1 - s.runnerLoc.x).natAbs
                + ((random (random s.rng s.width).2 s.height).1 - s.runnerLoc.y).natAbs : Nat)
              > max (0 : Int) (Int.tdiv (s.width + s.height) 2 - ((attempts / 10 : Nat) : Int))) then
        placeSentryLoop fuel (attempts + 1)
          { s with
            sentryLoc := ⟨(random s.rng s.width).1, (random (random s.rng s.width).2 s.height).1⟩
            rng := (random (random s.rng s.width).2 s.height).2 }
      else
        placeSentryLoop fuel (attempts + 1)
          { s with rng := (random (random s.rng s.width).2 s.height).2 }
    else some s

/-- Source: `placeSentry()`. -/
def placeSentry (fuel : Nat) (s : State) : Option State :=
  if s.sentryColor = s.pathColor then some s
  else
    placeSentryLoop fuel 0
      { s with sentryLoc := NullLocation, sentryPath := [], sentryCooldown := SentrySpeed }

/-- Source: `placeExit()`. -/
def placeExit (fuel : Nat) (s : State) : Option (Except State State) :=
  match findLongestPathBfs fuel s.toGrid s.runnerLoc NullLocation (-1) s.rng with
  | none => none
  | some (path, r) =>
    if path.length = 0 then
      match setStatus { s with exitLoc := NullLocation, rng := r } s.exitColor with
      | Except.ok s' => some (Except.ok { s' with resetDelay := ErrorDelay })
      | Except.error s' => some (Except.error s')
    else
      some (Except.ok { s with exitLoc := path.getLastD NullLocation, rng := r })

/-- Source: `init()`; the logging that follows the four calls has no effect on the state. -/
def init (fuel : Nat) (s : State) : Option (Except State State) :=
  match placeRunner fuel (generateMaze s) with
  | none => none
  | some s1 =>
    match placeSentry fuel s1 with
    | none => none
    | some s2 => placeExit fuel s2

/-- The calls `drawMaze()` makes for row `y`. -/
def drawRow (s : State) (y : Int) : List Event :=
  (List.range s.width.toNat).map
    (fun x => Event.drawPixel (Int.ofNat x) y
      (if s.mazeWalls y (Int.ofNat x) then s.wallColor else s.pathColor))

/-- Source: `drawMaze()`. -/
def drawMaze (s : State) : State :=
  { s with
    out := s.out ++ ((List.range s.height.toNat).map (fun y => drawRow s (Int.ofNat y))).flatten
      ++ [Event.drawPixel s.exitLoc.x s.exitLoc.y s.exitColor,
          Event.drawPixel s.runnerLoc.x s.runnerLoc.y s.runnerColor,
          Event.drawPixel s.sentryLoc.x s.sentryLoc.y s.sentryColor] }

/-- The final `// move` block of `moveRunner`. -/
def runnerAdvance (s : State) : Bool × State :=
  match s.runnerPath with
  | [] => (false, s)
  | front :: remaining =>
    (true, { s with runnerLoc := front, runnerPath := remaining, runnerCooldown := RunnerSpeed })

/-- Source: `moveRunner()`. -/
def moveRunner (fuel : Nat) (s : State) : Option (Bool × State) :=
  if s.runnerCooldown > 0 then some (false, { s with runnerCooldown := s.runnerCooldown - 1 })
  else
    match findPathDfs fuel s.toGrid s.runnerLoc NullLocation s.sentryLoc RunnerSense s.rng with
    | none => none
    | some (sensedPathToSentry, r1) =>
      if sensedPathToSentry.length > 0 then
        match findLongestPathBfs fuel s.toGrid s.runnerLoc s.sentryLoc
            ((RunnerSense : Int) + RunnerFear) r1 with
        | none => none
        | some (path, r2) =>
          some (runnerAdvance
            { s with runnerSentryKnownLoc := s.sentryLoc, runnerPath := path.take RunnerSense
                     rng := r2 })
      else if s.runnerPath.length = 0 then
        match findPathDfs fuel s.toGrid s.runnerLoc s.runnerSentryKnownLoc s.exitLoc (-1) r1 with
        | none => none
        | some (_, r2) =>
          match findPathDfs fuel s.toGrid s.runnerLoc NullLocation s.exitLoc (-1) r2 with
          | none => none
          | some (path, r3) =>
            some (runnerAdvance
              { s with runnerSentryKnownLoc := NullLocation, runnerPath := path, rng := r3 })
      else some (runnerAdvance { s with rng := r1 })

/-- The final `// move` block of `moveSentry`. -/
def sentryAdvance (s : State) : Bool × State :=
  match s.sentryPath with
  | [] => (false, s)
  | front :: remaining =>
    (true, { s with sentryLoc := front, sentryPath := remaining, sentryCooldown := SentrySpeed })

/-- Source: `moveSentry()`. -/
def moveSentry (fuel : Nat) (s : State) : Option (Bool × State) :=
  if s.sentryColor = s.pathColor then some (false, s)
  else if s.sentryCooldown > 0 then
    some (false, { s with sentryCooldown := s.sentryCooldown - 1 })
  else
    match findPathDfs fuel s.toGrid s.sentryLoc NullLocation s.runnerLoc SentrySense s.rng with
    | none => none
    | some (sensedPathToRunner, r1) =>
      if sensedPathToRunner.length > 0 then
        if sensedPathToRunner.length = 0 then
          some (false, { s with sentryPath := sensedPathToRunner
                                sentryCooldown := SentrySpeed / 2, rng := r1 })
        else sentryAdvance { s with sentryPath := sensedPathToRunner, rng := r1 }
      else sentryAdvance { s with rng := r1 }

/-- The handler `catch (const std::exception &e)` of `update`, entered with the state at
the throw. -/
def updateCatch (s : State) : Except State (Bool × State) :=
  match setStatus s s.exitColor with
  | Except.ok s' => Except.ok (false, { s' with resetDelay := ErrorDelay })
  | Except.error s' => Except.error s'

/-- Source: `update()`.  The result is `none` when a loop ran out of fuel,
`Except.error` when an exception leaves the call, `Except.ok (b, s)` when it returns `b`. -/
def update (fuel : Nat) (s : State) : Option (Except State (Bool × State)) :=
  if s.resetDelay > 0 then
    if s.resetDelay - 1 ≤ 0 then
      match init fuel { s with resetDelay := s.resetDelay - 1 } with
      | none => none
      | some (Except.error s') => some (Except.error s')
      | some (Except.ok s') => some (Except.ok (true, drawMaze s'))
    else some (Except.ok (false, { s with resetDelay := s.resetDelay - 1 }))
  else
    match moveRunner fuel s with
    | none => none
    | some (moved, s1) =>
      if s1.runnerLoc = s1.exitLoc then
        match setStatus s1 s1.runnerColor with
        | Except.ok s2 => some (Except.ok (true, { drawMaze s2 with resetDelay := GoalDelay }))
        | Except.error s2 => some (updateCatch s2)
      else
        match moveSentry fuel s1 with
        | none => none
        | some (moved', s2) =>
          if s2.sentryLoc = s2.runnerLoc then
            match setStatus s2 s2.sentryColor with
            | Except.ok s3 => some (Except.ok (true, { s3 with resetDelay := CatchDelay }))
            | Except.error s3 => some (updateCatch s3)
          else if moved || moved' then some (Except.ok (true, drawMaze s2))
          else some (Except.ok (false, s2))

/-- The outcome of `n` consecutive calls of `update`: the booleans returned and the final state,
or the state at the first exception that leaves a call. -/
def updateTimes (fuel : Nat) : Nat → State → Option (Except State (List Bool × State))
  | 0, s => some (Except.ok ([], s))
  | n + 1, s =>
    match update fuel s with
    | none => none
    | some (Except.error s') => some (Except.error s')
    | some (Except.ok (b, s')) =>
      match updateTimes fuel n s' with
      | none => none
      | some (Except.error s'') => some (Except.error s'')
      | some (Except.ok (bs, s'')) => some (Except.ok (b :: bs, s''))

/-- The booleans a run of `update` calls returned, when all of them returned. -/
def returned (res : Option (Except State (List Bool × State))) : Option (List Bool) :=
  match res with
  | some (Except.ok (bs, _)) => some bs
  | _ => none

/-- Whether an exception left the call. -/
def threw {α : Type} (res : Option (Except State α)) : Bool :=
  match res with
  | some (Except.error _) => true
  | _ => false

/-- The state after `n` consecutive calls of `update` that all returned (the argument itself
otherwise). -/
def stateAfter (fuel n : Nat) (s : State) : State :=
  match updateTimes fuel n s with
  | some (Except.ok (_, s')) => s'
  | _ => s

/-- The state `init()` leaves when it returns normally (the argument itself otherwise). -/
def afterInit (fuel : Nat) (s : State) : State :=
  match init fuel s with
  | some (Except.ok s') => s'
  | _ => s

/-- The `distance` of `placeSentry`: `abs(x - _runnerLoc.x) + abs(y - _runnerLoc.y)`. -/
def manhattanDistance (a b : Location) : Nat := (a.x - b.x).natAbs + (a.y - b.y).natAbs

/-- The `minDistance` of `placeSentry` when `attempts` attempts have failed. -/
def minDistance (g : Grid) (attempts : Nat) : Int :=
  max (0 : Int) (Int.tdiv (g.width + g.height) 2 - ((attempts / 10 : Nat) : Int))

/-- The carvings the loop of `generateMaze` makes, in order: for each one the grid just before
it, the cell on top of the traversal stack and the cell carved.  The recursion is that of
`carveLoop`. -/
def carveSteps : Nat → Grid → List Location → Rng → List (Grid × Location × Location)
  | _, _, [], _ => []
  | 0, _, _, _ => []
  | maxCycles + 1, g, cur :: rest, r =>
    match (shuffleDirections [Left, Right, Up, Down] 4 r).1.find?
        (fun step => canCarve g (stepFrom cur step)) with
    | some step =>
      (g, cur, stepFrom cur step) ::
        carveSteps maxCycles (setWall g (stepFrom cur step).x (stepFrom cur step).y false)
          (stepFrom cur step :: cur :: rest) (shuffleDirections [Left, Right, Up, Down] 4 r).2
    | none => carveSteps maxCycles g rest (shuffleDirections [Left, Right, Up, Down] 4 r).2

/-- The carvings `generateMaze` makes from the state `s`. -/
def generateMazeSteps (s : State) : List (Grid × Location × Location) :=
  carveSteps 1000
    (setWall (fillWalls s.toGrid) (chooseStart s).1.x (chooseStart s).1.y false)
    [(chooseStart s).1] (chooseStart s).2

/-- The state a call of `init` leaves, whether it returned or threw. -/
def initOutcome (res : Except State State) : State :=
  match res with
  | Except.ok s => s
  | Except.error s => s

/-- The state a call of `update` leaves, whether it returned or threw. -/
def updateOutcome (res : Except State (Bool × State)) : State :=
  match res with
  | Except.ok (_, s) => s
  | Except.error s => s

/-- The states reachable from construction by calls of `init()` and `update()`; a call that
throws leaves the state it had reached. -/
inductive Reachable : State → Prop where
  | constructed (width height : Int) (pathColor wallColor runnerColor sentryColor exitColor : Nat)
      (setStatus : Bool) (walls : Int → Int → Bool) (rng : Rng) :
      Reachable (construct width height pathColor wallColor runnerColor sentryColor exitColor
        setStatus walls rng)
  | initialised {s : State} (fuel : Nat) (res : Except State State) :
      Reachable s → init fuel s = some res → Reachable (initOutcome res)
  | updated {s : State} (fuel : Nat) (res : Except State (Bool × State)) :
      Reachable s → update fuel s = some res → Reachable (updateOutcome res)

/-- Whether a sink call stays inside the grid: a draw call needs `0 ≤ x < width` and
`0 ≤ y < height`; a status call has no coordinates. -/
def drawInGrid (g : Grid) : Event → Bool
  | Event.drawPixel x y _ => isInMazeBoundsAt g x y
  | Event.setStatus _ => true

/-! ## Routes and connectivity -/

/-- A cell inside the grid that is not a wall. -/
def isOpen (g : Grid) (c : Location) : Bool := isInMazeBounds g c && !isWall g c

/-- The cells a search avoiding `sentryLoc` may enter: open cells and, unless `sentryLoc` is
`NullLocation`, neither the sentry's cell nor orthogonally adjacent to it. -/
def isPassable (g : Grid) (sentryLoc : Location) (c : Location) : Bool :=
  isInMazeBounds g c && !isWall g c
    && (decide (sentryLoc = NullLocation) || (decide (c ≠ sentryLoc) && !isAdjacent c sentryLoc))

/-- The avoidance predicate in the words of the specification: the cell is inside the grid,
not a wall, different from `avoid` and not orthogonally adjacent to it. -/
def isClearOf (g : Grid) (avoid : Location) (c : Location) : Bool :=
  isOpen g c && decide (c ≠ avoid) && !isAdjacent c avoid

/-- The list `route` is a walk that leaves `a`: its first cell is orthogonally adjacent to `a`,
each later cell to the one before it, and every cell of it satisfies `ok`. -/
def IsRoute (ok : Location → Bool) : Location → List Location → Prop
  | _, [] => True
  | a, b :: rest => isAdjacent a b = true ∧ ok b = true ∧ IsRoute ok b rest

instance decidableIsRoute (ok : Location → Bool) :
    ∀ (a : Location) (route : List Location), Decidable (IsRoute ok a route)
  | _, [] => isTrue trivial
  | a, b :: rest =>
    match decEq (isAdjacent a b) true, decEq (ok b) true, decidableIsRoute ok b rest with
    | isTrue h1, isTrue h2, isTrue h3 => isTrue ⟨h1, h2, h3⟩
    | isFalse h1, _, _ => isFalse (fun h => h1 h.1)
    | _, isFalse h2, _ => isFalse (fun h => h2 h.2.1)
    | _, _, isFalse h3 => isFalse (fun h => h3 h.2.2)

/-- The cell a route from `a` ends in (`a` itself for the empty route). -/
def routeEnd : Location → List Location → Location
  | a, [] => a
  | _, b :: rest => routeEnd b rest

/-- All open cells of the grid lie in one component under orthogonal adjacency. -/
def Connected (g : Grid) : Prop :=
  ∀ a b, isOpen g a = true → isOpen g b = true →
    ∃ route, IsRoute (isOpen g) a route ∧ routeEnd a route = b

/-- Walks counted by their number of steps: `Reach ok a n c` when `c` is `n` steps from `a`
through cells satisfying `ok`. -/
inductive Reach (ok : Location → Bool) (a : Location) : Nat → Location → Prop where
  | here : Reach ok a 0 a
  | step {n : Nat} {b c : Location} :
      Reach ok a n b → isAdjacent b c = true → ok c = true → Reach ok a (n + 1) c

/-- The invariant of the carving loop for the seed cell `seed`. -/
def CarveInv (g : Grid) (seed : Location) (stack : List Location) : Prop :=
  isOpen g seed = true ∧ (∀ c, isOpen g c = true → ∃ n, Reach (isOpen g) seed n c)
    ∧ ∀ c ∈ stack, isOpen g c = true

/-- The bound test of both searches: an entry at `depth` may exist. -/
def withinBound (maxSearchDistance : Int) (depth : Nat) : Prop :=
  maxSearchDistance > 0 → (depth : Int) ≤ maxSearchDistance

/-- The list `l` starts at `startLoc` and continues as a route through cells satisfying `ok`. -/
def GoodPath (ok : Location → Bool) (startLoc : Location) (l : List Location) : Prop :=
  ∃ route, l = startLoc :: route ∧ IsRoute ok startLoc route

/-- The invariant of the loop of `findPathDfs`; `path` is the path stack read from its
bottom (the reverse of `curPath`). -/
def DfsInv (ok : Location → Bool) (startLoc : Location) (maxSearchDistance : Int)
    (locsToVisit : List (Location × Nat)) (path : List Location) : Prop :=
  (∀ e ∈ locsToVisit, e.2 ≤ path.length ∧ GoodPath ok startLoc (path.take e.2 ++ [e.1])
      ∧ withinBound maxSearchDistance e.2)
    ∧ locsToVisit.Pairwise (fun e e' => e'.2 ≤ e.2)

/-- The depth `d` has the parity of the offset of `x` from the start. -/
def sameParity (startLoc x : Location) (d : Nat) : Prop :=
  (x.x + x.y - startLoc.x - startLoc.y - (d : Int)) % 2 = 0

/-- The entry `(curLoc, d)` passes the bound test of the searches and is expanded. -/
def expands (maxSearchDistance : Int) (d : Nat) : Prop :=
  ¬(maxSearchDistance > 0 ∧ (d : Int) + 1 > maxSearchDistance)

/-- The second invariant of the loop of `findPathDfs`, used for completeness.  `popped` is
a ghost list of the entries popped so far. -/
def DfsSeen (g : Grid) (sentryLoc startLoc endLoc : Location) (maxSearchDistance : Int)
    (locsToVisit : List (Location × Nat)) (locsVisited : List Location)
    (popped : List (Location × Nat)) : Prop :=
  endLoc ∉ locsVisited
    ∧ (∀ e ∈ popped, e.1 ∈ locsVisited)
    ∧ (∀ x ∈ locsVisited, ∃ d, (x, d) ∈ popped)
    ∧ (∀ e ∈ popped, expands maxSearchDistance e.2 →
        ∀ n, isAdjacent e.1 n = true → isPassable g sentryLoc n = true →
          n ∈ locsVisited ∨ ∃ d, (n, d) ∈ locsToVisit)
    ∧ (∀ e, e ∈ popped ∨ e ∈ locsToVisit →
        sameParity startLoc e.1 e.2 ∧ withinBound maxSearchDistance e.2
          ∧ (e.2 = 0 → e.1 = startLoc))
    ∧ ((locsToVisit = [(startLoc, 0)] ∧ locsVisited = [] ∧ popped = [])
        ∨ ∀ n, isAdjacent startLoc n = true → isPassable g sentryLoc n = true →
            (n, 1) ∈ popped ∨ (n, 1) ∈ locsToVisit)

/-- The cell `c` lies exactly `d` steps from the start: some walk of `d` steps through cells
satisfying `ok` reaches it and no walk is shorter. -/
def IsDist (ok : Location → Bool) (startLoc c : Location) (d : Nat) : Prop :=
  Reach ok startLoc d c ∧ ∀ k, Reach ok startLoc k c → d ≤ k

/-- The predecessor map has an entry for `x`. -/
def isKey (visitedFrom : List (Location × Location)) (x : Location) : Prop :=
  ∃ e ∈ visitedFrom, e.1 = x

/-- Every recorded predecessor is one step closer to the start than its cell. -/
def PredOk (ok : Location → Bool) (startLoc : Location)
    (visitedFrom : List (Location × Location)) : Prop :=
  ∀ n, isKey visitedFrom n → n = startLoc ∨
    ∃ d, IsDist ok startLoc n (d + 1) ∧ IsDist ok startLoc (visitedFromAt visitedFrom n) d
      ∧ isAdjacent (visitedFromAt visitedFrom n) n = true ∧ ok n = true
      ∧ (visitedFromAt visitedFrom n = startLoc ∨ isKey visitedFrom (visitedFromAt visitedFrom n))

/-- What the loop of `findLongestPathBfs` maintains about the farthest location. -/
def FarOk (ok : Location → Bool) (startLoc : Location) (maxSearchDistance : Int)
    (visitedFrom : List (Location × Location)) (farthest : Location × Nat) : Prop :=
  IsDist ok startLoc farthest.1 farthest.2
    ∧ (farthest.1 = startLoc ∨ isKey visitedFrom farthest.1)
    ∧ withinBound maxSearchDistance farthest.2

/-- The invariant of the loop of `findLongestPathBfs` at the loop head. -/
structure BfsInv (ok : Location → Bool) (startLoc : Location) (maxSearchDistance : Int)
    (acc : BfsAcc) (locsVisited : List Location) : Prop where
  dist : ∀ e ∈ acc.locsToVisit, IsDist ok startLoc e.1 e.2 ∧ withinBound maxSearchDistance e.2
  sorted : acc.locsToVisit.Pairwise (fun e e' => e.2 ≤ e'.2)
  spread : ∀ e ∈ acc.locsToVisit, ∀ e' ∈ acc.locsToVisit, e'.2 ≤ e.2 + 1
  closed : ∀ v ∈ locsVisited, ∃ dv, IsDist ok startLoc v dv
    ∧ (∀ e ∈ acc.locsToVisit, dv ≤ e.2) ∧ dv ≤ acc.farthestLocAndDist.2
    ∧ (expands maxSearchDistance dv → ∀ n, isAdjacent v n = true → ok n = true →
        n ∈ locsVisited ∨ ∃ d, (n, d) ∈ acc.locsToVisit)
  hasStart : startLoc ∈ locsVisited ∨ (startLoc, 0) ∈ acc.locsToVisit
  keys : ∀ e ∈ acc.locsToVisit, e.1 = startLoc ∨ isKey acc.visitedFrom e.1
  pred : PredOk ok startLoc acc.visitedFrom
  farOk : FarOk ok startLoc maxSearchDistance acc.visitedFrom acc.farthestLocAndDist
  farMax : ∀ e ∈ acc.locsToVisit, e.2 ≤ acc.farthestLocAndDist.2

/-- The invariant of the `for` loop of `findLongestPathBfs` while the entry `(curLoc, d)`,
popped with `locsVisited` visited before it, is being expanded. -/
structure BfsPushInv (ok : Location → Bool) (startLoc : Location) (maxSearchDistance : Int)
    (locsVisited : List Location) (curLoc : Location) (d : Nat) (acc : BfsAcc) : Prop where
  dist : ∀ e ∈ acc.locsToVisit, IsDist ok startLoc e.1 e.2 ∧ withinBound maxSearchDistance e.2
    ∧ d ≤ e.2 ∧ e.2 ≤ d + 1
  sorted : acc.locsToVisit.Pairwise (fun e e' => e.2 ≤ e'.2)
  closed : ∀ v ∈ locsVisited, ∃ dv, IsDist ok startLoc v dv ∧ dv ≤ d
    ∧ dv ≤ acc.farthestLocAndDist.2
    ∧ (expands maxSearchDistance dv → ∀ n, isAdjacent v n = true → ok n = true →
        n ∈ curLoc :: locsVisited ∨ ∃ d', (n, d') ∈ acc.locsToVisit)
  keys : ∀ e ∈ acc.locsToVisit, e.1 = startLoc ∨ isKey acc.visitedFrom e.1
  curKey : curLoc = startLoc ∨ isKey acc.visitedFrom curLoc
  pred : PredOk ok startLoc acc.visitedFrom
  farOk : FarOk ok startLoc maxSearchDistance acc.visitedFrom acc.farthestLocAndDist
  farMax : (∀ e ∈ acc.locsToVisit, e.2 ≤ acc.farthestLocAndDist.2)
    ∧ d ≤ acc.farthestLocAndDist.2

/-- In the words of the specification: the shortest route from the start to `c` through cells
that are in bounds, not walls and neither equal nor adjacent to `avoid` has `k` steps. -/
def IsShortestDistance (g : Grid) (avoid startLoc c : Location) (k : Nat) : Prop :=
  (∃ route, IsRoute (isClearOf g avoid) startLoc route ∧ routeEnd startLoc route = c
      ∧ route.length = k)
    ∧ ∀ route, IsRoute (isClearOf g avoid) startLoc route → routeEnd startLoc route = c →
        k ≤ route.length

/-- A distance capped at `maxSearchDistance` when that bound is positive. -/
def cappedDepth (maxSearchDistance : Int) (k : Nat) : Nat :=
  if maxSearchDistance > 0 then min k maxSearchDistance.toNat else k

/-- The number `depth` is the maximum breadth-first depth reachable from the start: the
largest (capped) shortest-route distance of any reachable cell. -/
def IsMaxDepth (g : Grid) (avoid startLoc : Location) (maxSearchDistance : Int)
    (depth : Nat) : Prop :=
  (∃ c k, IsShortestDistance g avoid startLoc c k ∧ cappedDepth maxSearchDistance k = depth)
    ∧ ∀ c k, IsShortestDistance g avoid startLoc c k → cappedDepth maxSearchDistance k ≤ depth

/-- All cells of the grid, row by row. -/
def gridCells (g : Grid) : List Location :=
  (List.range g.height.toNat).flatMap
    (fun y => (List.range g.width.toNat).map (fun x => Coordinate.mk (Int.ofNat x) (Int.ofNat y)))

/-- The number of cells of the grid a search has not visited yet. -/
def unvisitedCount (g : Grid) (visited : List Location) : Nat :=
  ((gridCells g).filter (fun c => decide (c ∉ visited))).length

/-- The weight of a pending entry for cell `c` in the termination measure of the searches. -/
def entryWeight (g : Grid) (visited : List Location) (c : Location) : Nat :=
  if isInMazeBounds g c = true ∧ c ∉ visited then 5 ^ (2 * unvisitedCount g visited)
  else 5 ^ (2 * unvisitedCount g visited + 1)

/-- The termination measure of both searches: the total weight of the pending entries. -/
def searchMeasure (g : Grid) (visited : List Location) (entries : List (Location × Nat)) : Nat :=
  (entries.map (fun e => entryWeight g visited e.1)).sum

/-- Fuel that suffices for either search on grid `g`. -/
def searchFuel (g : Grid) : Nat := 5 ^ (2 * (gridCells g).length + 1)

/-- The list is a cycle of the maze: at least three distinct open cells, each orthogonally
adjacent to the next one and the last one to the first. -/
def IsCycle (g : Grid) : List Location → Prop
  | [] => False
  | a :: rest =>
    2 ≤ rest.length ∧ (a :: rest).Nodup ∧ isOpen g a = true ∧ IsRoute (isOpen g) a rest
      ∧ isAdjacent (routeEnd a rest) a = true

/-- No cycle runs through the open cells. -/
def Acyclic (g : Grid) : Prop := ∀ cycle, ¬ IsCycle g cycle

/-- The open cells form a tree under orthogonal adjacency: connected and without a cycle. -/
def IsTree (g : Grid) : Prop := Connected g ∧ Acyclic g

/-- The number of cells of the grid that are walls. -/
def wallCount (g : Grid) : Nat := ((gridCells g).filter (fun c => isWall g c)).length

/-- Every open cell is on the traversal stack or has no neighbour left to carve. -/
def GrownInv (g : Grid) (stack : List Location) : Prop :=
  ∀ c, isOpen g c = true →
    c ∈ stack ∨ ∀ d ∈ [Left, Right, Up, Down], canCarve g (stepFrom c d) = false

/-- A move of an agent from `a` to `b`: none, or one of the four orthogonal unit deltas onto
an open cell. -/
def IsLegalMove (g : Grid) (a b : Location) : Prop :=
  b = a ∨ ((∃ d ∈ [Left, Right, Up, Down], b = stepFrom a d) ∧ isOpen g b = true)

/-- The plans held are walkable: each starts next to its agent and continues through pairwise
adjacent open cells. -/
def PlansOk (s : State) : Prop :=
  IsRoute (isOpen s.toGrid) s.runnerLoc s.runnerPath
    ∧ IsRoute (isOpen s.toGrid) s.sentryLoc s.sentryPath

/-- The invariant of the reachable states: the plans are walkable; a disabled sentry is nowhere
and holds no plan; the runner has non-negative coordinates unless neither it nor the exit has
been placed. -/
def ReachInv (s : State) : Prop :=
  PlansOk s
    ∧ (s.sentryColor = s.pathColor → s.sentryLoc = NullLocation ∧ s.sentryPath = [])
    ∧ ((0 ≤ s.runnerLoc.x ∧ 0 ≤ s.runnerLoc.y)
        ∨ (s.runnerLoc = NullLocation ∧ s.exitLoc = NullLocation))

/-! ## Concrete inputs -/

/-- The random source that replays `values` and then yields `0` forever. -/
def rngOfList (values : List Nat) : Rng := ⟨fun i => values.getD i 0, 0⟩

/-- A freshly constructed 3x3 runner (colours 0..4, status sink supplied) whose random source
replays a fixed sequence. -/
def fresh3x3 : State :=
  construct 3 3 0 1 2 3 4 true (fun _ _ => false)
    (rngOfList [9, 12, 0, 5, 10, 7, 2, 15, 14, 4, 12, 2, 12, 13, 11, 10, 15, 10, 15, 15, 9, 6,
      13, 6, 14, 15, 10, 13, 12, 0, 2, 4, 11, 15, 11, 12, 8, 5, 13, 1, 1, 0, 14])

/-- A 4x2 grid whose only wall is the cell `(3, 1)`. -/
def grid4x2 : Grid := ⟨4, 2, fun y x => decide (y = 1 ∧ x = 3)⟩

/-- A 3x1 runner whose middle cell is a wall, with the runner on the left cell. -/
def islandState : State :=
  { construct 3 1 0 1 2 3 4 true (fun _ x => decide (x = 1)) (rngOfList []) with
    runnerLoc := ⟨0, 0⟩ }

/-- A runner standing on `(0, 0)` of `grid4x2`. -/
def runnerOn4x2 : State :=
  { islandState with toGrid := grid4x2 }

/-- The values the random source of the 2x2 scenarios replays. -/
def replay2x2 : List Nat :=
  [2, 13, 13, 15, 11, 7, 14, 15, 8, 2, 9, 7, 0, 4, 1, 15, 13, 15, 5, 14, 14, 2, 11, 3, 14, 8, 13,
    0, 13, 10, 7, 2, 0, 9, 10, 0, 9, 8, 3, 9, 2, 12, 10, 11, 13, 9, 8, 7, 15, 6, 4, 6, 15, 7, 7,
    0, 3, 1, 5, 3, 12, 12, 6, 6, 2, 1, 5, 7, 8, 4, 0, 12, 1, 2, 14, 15, 15, 10, 2, 6, 6, 7, 5, 2,
    7, 9, 3, 0, 14, 9, 8, 10, 10, 11, 14, 15, 4, 7, 14, 4, 4, 3, 13, 4, 8, 15, 14, 10, 9, 7, 5, 6,
    6, 14, 11, 4, 10, 5, 0, 6, 1, 5, 0, 13, 11, 10, 10, 13, 3, 5, 12, 0, 11, 7, 15, 13, 14, 0, 10,
    3]

/-- A freshly constructed 2x2 runner with the sentry disabled (sentry colour = path colour)
and a status sink supplied. -/
def fresh2x2 : State :=
  construct 2 2 0 1 2 0 4 true (fun _ _ => false) (rngOfList replay2x2)

/-- The same 2x2 runner constructed without a status sink. -/
def fresh2x2NoStatus : State :=
  construct 2 2 0 1 2 0 4 false (fun _ _ => false) (rngOfList replay2x2)

/-- A Running state on `grid4x2`: the runner rests on `(0, 0)` with cooldown 3, the exit is
`(3, 0)` and the sentry stands next to the runner on `(1, 0)`, ready to move. -/
def sentryNextToRunner : State :=
  { runnerOn4x2 with exitLoc := ⟨3, 0⟩, sentryLoc := ⟨1, 0⟩, runnerCooldown := 3 }

/-- The values the random source of the 7x7 scenario replays. -/
def replay7x7 : List Nat :=
  [0, 13, 14, 2, 10, 6, 6, 10, 1, 12, 10, 12, 2, 12, 10, 11, 0, 8, 4, 4, 8, 0, 11, 10, 12, 2,
    12, 10, 12, 1, 10, 6, 6, 10, 2, 14, 13, 0, 6, 0, 14, 0, 6, 15, 12, 12, 0, 8, 4, 4, 7, 14, 8,
    6, 8, 14, 8, 5, 6, 10, 2, 14, 14, 2, 9, 4, 2, 4, 10, 4, 2, 3, 8, 0, 12, 12, 0, 8, 3, 2, 4,
    10, 4, 2, 4, 9, 2, 14, 14, 2, 10, 6, 5, 8, 14, 8, 6, 8, 14, 7, 4, 4, 8, 0, 12, 12, 15, 6, 0,
    14, 0, 6, 0, 13, 14, 2, 10, 6, 6, 10, 1, 12, 10, 12, 2, 12, 10, 11, 0, 8, 4, 4, 8, 0, 11, 10,
    12, 2, 12, 10, 12, 1, 10, 6, 6, 10, 2, 14, 13, 0, 6, 0, 14, 0, 6, 15, 12, 12, 0, 8, 4, 4, 7,
    14, 8, 6, 8, 14, 8, 5, 6, 10, 2, 14, 14, 2, 9, 4, 2, 4, 10, 4, 2, 3, 8, 0, 12, 12, 0, 8, 3,
    2, 4, 10, 4, 2, 4, 9, 2, 14, 14, 2, 10, 6, 5, 8, 14, 8, 6, 8, 14, 7, 4, 4, 8, 0, 12, 12, 15,
    6, 0, 14, 0, 6, 0, 13, 14, 2, 10, 6, 6, 10, 1, 12, 10, 12, 2, 12, 10, 11, 0, 8, 4, 4, 8, 0,
    11, 10, 12, 2, 12, 10, 12, 1, 10, 6, 6, 10, 2, 14, 13, 0, 6, 0, 14, 0, 6, 2, 4]

/-- A freshly constructed 7x7 runner with the sentry enabled (colours 0..4, status sink
supplied). -/
def fresh7x7 : State :=
  construct 7 7 0 1 2 3 4 true (fun _ _ => false) (rngOfList replay7x7)

/-- The values the random source of the faulting 3x3 scenario replays: those of `fresh3x3`, then
the draws that place the runner on `(0, 2)`, then those of the second generation. -/
def replayFault3x3 : List Nat :=
  [9, 12, 0, 5, 10, 7, 2, 15, 14, 4, 12, 2, 12, 13, 11, 10, 15, 10, 15, 15, 9, 6, 13, 6, 14, 15,
    10, 13, 12, 0, 2, 4, 11, 15, 11, 12, 8, 5, 13, 1, 1, 0, 14, 0, 2, 0, 0, 0, 0, 15, 12, 13, 1,
    10, 6, 5, 9, 0, 11, 9, 12, 2, 11, 9, 10, 15, 7, 4, 4, 7, 15, 10, 9, 11, 2, 12, 9, 11, 0, 9,
    5, 6, 10, 1, 13, 12, 15, 5, 0, 14, 15, 5, 14, 11, 11, 0, 8, 3, 3, 6, 13, 7, 6, 8, 13, 7, 4,
    5, 9]

/-- A freshly constructed 3x3 runner with the sentry disabled (sentry colour = path colour) and
a status sink supplied. -/
def faulting3x3 : State :=
  construct 3 3 0 1 2 0 4 true (fun _ _ => false) (rngOfList replayFault3x3)

/-- A Running state on `grid4x2`: the runner stands on `(0, 0)` next to the exit `(1, 0)`; the
sentry stands out of sensing range on `(3, 0)`, ready to move, and holds the plan `[(2, 0)]`. -/
def sentryPatrolling : State :=
  { runnerOn4x2 with exitLoc := ⟨1, 0⟩, sentryLoc := ⟨3, 0⟩, sentryPath := [⟨2, 0⟩] }

/-- A Running state on `grid4x2`: the runner stands on `(2, 0)`, ready to move, and the sentry
two steps away on `(0, 0)`; the farthest cell it can reach clear of the sentry is `(1, 1)`. -/
def runnerSensesSentry : State :=
  { runnerOn4x2 with runnerLoc := ⟨2, 0⟩, sentryLoc := ⟨0, 0⟩, exitLoc := ⟨0, 1⟩ }

/-- A freshly constructed 3x3 runner like `fresh3x3` whose random source goes on to place the
runner on `(0, 0)` and the sentry on `(2, 2)`. -/
def chase3x3 : State :=
  construct 3 3 0 1 2 3 4 true (fun _ _ => false)
    (rngOfList [9, 12, 0, 5, 10, 7, 2, 15, 14, 4, 12, 2, 12, 13, 11, 10, 15, 10, 15, 15, 9, 6,
      13, 6, 14, 15, 10, 13, 12, 0, 2, 4, 11, 15, 11, 12, 8, 5, 13, 1, 1, 0, 14, 0, 0, 2, 2])

/-- The state of the 3x3 runner `chase3x3` after its first `init()`. -/
def chased3x3 : State := afterInit 200 chase3x3

/-! ## Proofs -/

section Basics

theorem random_lt (r : Rng) (n : Int) (h : 0 < n) :
    0 ≤ (random r n).1 ∧ (random r n).1 < n := by
  unfold random
  rw [if_neg (by omega)]
  simp only
  have h1 : r.source r.pos % n.toNat < n.toNat := Nat.mod_lt _ (by omega)
  omega

theorem random_toNat_lt_four (r : Rng) : (random r 4).1.toNat < 4 := by
  have := random_lt r 4 (by norm_num)
  omega

/-- The list `shuffleDirections` produces from the four directions, given the four indices
it draws. -/
theorem shuffle_indices_perm :
    ∀ i0 i1 i2 i3 : Fin 4,
      List.Perm
        (swapEntries (swapEntries (swapEntries (swapEntries [Left, Right, Up, Down] 0 i0.val)
          1 i1.val) 2 i2.val) 3 i3.val)
        [Left, Right, Up, Down] := by
  decide

theorem shuffleDirections_perm (r : Rng) :
    List.Perm (shuffleDirections [Left, Right, Up, Down] 4 r).1 [Left, Right, Up, Down] := by
  have h := shuffle_indices_perm
    ⟨_, random_toNat_lt_four r⟩
    ⟨_, random_toNat_lt_four (random r 4).2⟩
    ⟨_, random_toNat_lt_four (random (random r 4).2 4).2⟩
    ⟨_, random_toNat_lt_four (random (random (random r 4).2 4).2 4).2⟩
  simpa [shuffleDirections, List.range_succ] using h

theorem mem_shuffleDirections (r : Rng) (d : Direction) :
    d ∈ (shuffleDirections [Left, Right, Up, Down] 4 r).1 ↔ d ∈ [Left, Right, Up, Down] :=
  (shuffleDirections_perm r).mem_iff

theorem isAdjacent_stepFrom (c : Location) (d : Direction)
    (hd : d ∈ [Left, Right, Up, Down]) : isAdjacent c (stepFrom c d) = true := by
  simp only [List.mem_cons, List.mem_singleton, List.not_mem_nil, or_false] at hd
  rcases hd with rfl | rfl | rfl | rfl <;>
    simp [isAdjacent, stepFrom, Left, Right, Up, Down]

theorem isAdjacent_comm (a b : Location) : isAdjacent a b = isAdjacent b a := by
  simp only [isAdjacent]
  congr 1
  apply propext
  constructor <;> intro h <;> omega

theorem exists_step_of_isAdjacent (a b : Location) (h : isAdjacent a b = true) :
    ∃ d ∈ [Left, Right, Up, Down], b = stepFrom a d := by
  simp only [isAdjacent, decide_eq_true_eq] at h
  obtain ⟨ax, ay⟩ := a
  obtain ⟨bx, by_⟩ := b
  simp only at h
  have h1 : (bx - ax = -1 ∧ by_ = ay) ∨ (bx - ax = 1 ∧ by_ = ay)
      ∨ (bx = ax ∧ by_ - ay = -1) ∨ (bx = ax ∧ by_ - ay = 1) := by omega
  rcases h1 with ⟨h1, h2⟩ | ⟨h1, h2⟩ | ⟨h1, h2⟩ | ⟨h1, h2⟩
  · exact ⟨Left, by simp, by simp [stepFrom, Left]; constructor <;> omega⟩
  · exact ⟨Right, by simp, by simp [stepFrom, Right]; constructor <;> omega⟩
  · exact ⟨Up, by simp, by simp [stepFrom, Up]; constructor <;> omega⟩
  · exact ⟨Down, by simp, by simp [stepFrom, Down]; constructor <;> omega⟩

end Basics

section Routes

variable {ok ok' : Location → Bool} {a b c : Location} {n m : Nat}

theorem Reach.mono (h : ∀ c, ok c = true → ok' c = true) (hr : Reach ok a n c) :
    Reach ok' a n c := by
  induction hr with
  | here => exact Reach.here
  | step _ hadj hok ih => exact Reach.step ih hadj (h _ hok)

theorem Reach.prepend (hadj : isAdjacent a b = true) (hok : ok b = true) (hr : Reach ok b n c) :
    Reach ok a (n + 1) c := by
  induction hr with
  | here => exact Reach.step Reach.here hadj hok
  | step _ hadj' hok' ih => exact Reach.step ih hadj' hok'

theorem Reach.trans (h1 : Reach ok a n b) (h2 : Reach ok b m c) : Reach ok a (n + m) c := by
  induction h2 with
  | here => exact h1
  | step _ hadj hok ih => exact Reach.step ih hadj hok

theorem Reach.ok_end (ha : ok a = true) (hr : Reach ok a n c) : ok c = true := by
  cases hr with
  | here => exact ha
  | step _ _ hok => exact hok

theorem Reach.symm (ha : ok a = true) (hr : Reach ok a n c) : Reach ok c n a := by
  induction hr with
  | here => exact Reach.here
  | step hprev hadj _ ih =>
    exact Reach.prepend (by rw [isAdjacent_comm]; exact hadj) (hprev.ok_end ha) ih

theorem routeEnd_append (a : Location) (p q : List Location) :
    routeEnd a (p ++ q) = routeEnd (routeEnd a p) q := by
  induction p generalizing a with
  | nil => rfl
  | cons x p ih => simpa [routeEnd] using ih x

theorem isRoute_nil : IsRoute ok a [] := trivial

theorem isRoute_cons {p : List Location} :
    IsRoute ok a (b :: p) ↔ isAdjacent a b = true ∧ ok b = true ∧ IsRoute ok b p := Iff.rfl

theorem IsRoute.forall_ok {p : List Location} (h : IsRoute ok a p) : ∀ c ∈ p, ok c = true := by
  induction p generalizing a with
  | nil => simp
  | cons x p ih =>
    rw [isRoute_cons] at h
    intro c hc
    rcases List.mem_cons.1 hc with rfl | hc
    · exact h.2.1
    · exact ih h.2.2 c hc

theorem IsRoute.imp {p : List Location} (h : ∀ c, ok c = true → ok' c = true)
    (hr : IsRoute ok a p) : IsRoute ok' a p := by
  induction p generalizing a with
  | nil => trivial
  | cons x p ih =>
    rw [isRoute_cons] at hr ⊢
    exact ⟨hr.1, h _ hr.2.1, ih hr.2.2⟩

theorem isRoute_append {p q : List Location} :
    IsRoute ok a (p ++ q) ↔ IsRoute ok a p ∧ IsRoute ok (routeEnd a p) q := by
  induction p generalizing a with
  | nil => simp [routeEnd, isRoute_nil]
  | cons x p ih => simp [isRoute_cons, routeEnd, ih, and_assoc]

theorem reach_of_isRoute {p : List Location} (h : IsRoute ok a p) :
    Reach ok a p.length (routeEnd a p) := by
  induction p generalizing a with
  | nil => exact Reach.here
  | cons x p ih =>
    rw [isRoute_cons] at h
    exact Reach.prepend h.1 h.2.1 (ih h.2.2)

theorem exists_isRoute_of_reach (h : Reach ok a n c) :
    ∃ p, IsRoute ok a p ∧ p.length = n ∧ routeEnd a p = c := by
  induction h with
  | here => exact ⟨[], isRoute_nil, rfl, rfl⟩
  | @step k b' c' _ hadj hok ih =>
    obtain ⟨p, hp, hlen, hend⟩ := ih
    refine ⟨p ++ [c'], ?_, by simp [hlen], by simp [routeEnd_append, routeEnd]⟩
    rw [isRoute_append, hend, isRoute_cons]
    exact ⟨hp, hadj, hok, isRoute_nil⟩

end Routes

section Carving

theorem setWall_width (g : Grid) (x y : Int) (v : Bool) : (setWall g x y v).width = g.width := rfl

theorem setWall_height (g : Grid) (x y : Int) (v : Bool) :
    (setWall g x y v).height = g.height := rfl

theorem isInMazeBounds_setWall (g : Grid) (x y : Int) (v : Bool) (c : Location) :
    isInMazeBounds (setWall g x y v) c = isInMazeBounds g c := rfl

theorem isOpen_setWall_of_isOpen (g : Grid) (n c : Location) (h : isOpen g c = true) :
    isOpen (setWall g n.x n.y false) c = true := by
  simp only [isOpen, isInMazeBounds_setWall, isWall, isWallAt, setWall, Bool.and_eq_true,
    Bool.not_eq_true'] at h ⊢
  refine ⟨h.1, ?_⟩
  split
  · rfl
  · exact h.2

theorem isOpen_setWall_self (g : Grid) (n : Location) (h : isInMazeBounds g n = true) :
    isOpen (setWall g n.x n.y false) n = true := by
  have h' : isInMazeBounds (setWall g n.x n.y false) n = true := h
  simp only [isOpen, h', Bool.true_and, Bool.not_eq_true']
  simp [isWall, isWallAt, setWall]

theorem isOpen_of_isOpen_setWall (g : Grid) (n c : Location)
    (h : isOpen (setWall g n.x n.y false) c = true) : isOpen g c = true ∨ c = n := by
  by_cases hc : c = n
  · exact Or.inr hc
  · left
    have hne : ¬(c.y = n.y ∧ c.x = n.x) := by
      intro h'
      apply hc
      cases c
      cases n
      simp_all
    simpa [isOpen, isInMazeBounds_setWall, isWall, isWallAt, setWall, hne] using h

theorem CarveInv.carve {g : Grid} {seed cur : Location} {rest : List Location} {step : Direction}
    (h : CarveInv g seed (cur :: rest)) (hstep : step ∈ [Left, Right, Up, Down])
    (hcan : canCarve g (stepFrom cur step) = true) :
    CarveInv (setWall g (stepFrom cur step).x (stepFrom cur step).y false) seed
      (stepFrom cur step :: cur :: rest) := by
  obtain ⟨hseed, hreach, hstack⟩ := h
  have hin : isInMazeBounds g (stepFrom cur step) = true := by
    simp only [canCarve, Bool.and_eq_true] at hcan
    exact hcan.1.1
  have hmono : ∀ c, isOpen g c = true →
      isOpen (setWall g (stepFrom cur step).x (stepFrom cur step).y false) c = true :=
    fun c hc => isOpen_setWall_of_isOpen g _ c hc
  have hnew := isOpen_setWall_self g _ hin
  refine ⟨hmono _ hseed, ?_, ?_⟩
  · intro c hc
    rcases isOpen_of_isOpen_setWall g _ c hc with hc' | rfl
    · obtain ⟨n, hn⟩ := hreach c hc'
      exact ⟨n, hn.mono hmono⟩
    · obtain ⟨n, hn⟩ := hreach cur (hstack cur (by simp))
      exact ⟨n + 1, Reach.step (hn.mono hmono) (isAdjacent_stepFrom cur step hstep) hnew⟩
  · intro c hc
    rcases List.mem_cons.1 hc with rfl | hc
    · exact hnew
    · exact hmono c (hstack c hc)

theorem carveLoop_inv (seed : Location) :
    ∀ (n : Nat) (g : Grid) (stack : List Location) (r : Rng), CarveInv g seed stack →
      CarveInv (carveLoop n g stack r).1 seed (carveLoop n g stack r).2.1 := by
  intro n
  induction n with
  | zero =>
    intro g stack r h
    cases stack <;> simpa [carveLoop] using h
  | succ n ih =>
    intro g stack r h
    cases stack with
    | nil => simpa [carveLoop] using h
    | cons cur rest =>
      simp only [carveLoop]
      split
      · rename_i step hfind
        have hmem := List.mem_of_find?_eq_some hfind
        have hcan := List.find?_some hfind
        exact ih _ _ _ (h.carve ((mem_shuffleDirections r step).1 hmem) hcan)
      · exact ih _ _ _ ⟨h.1, h.2.1, fun c hc => h.2.2 c (List.mem_cons_of_mem _ hc)⟩

theorem CarveInv.connected {g : Grid} {seed : Location} {stack : List Location}
    (h : CarveInv g seed stack) : Connected g := by
  intro a b ha hb
  obtain ⟨n, hn⟩ := h.2.1 a ha
  obtain ⟨m, hm⟩ := h.2.1 b hb
  obtain ⟨p, hp, _, hend⟩ := exists_isRoute_of_reach ((hn.symm h.1).trans hm)
  exact ⟨p, hp, hend⟩

theorem chooseStart_inBounds (s : State) (hw : 1 ≤ s.width) (hh : 1 ≤ s.height)
    (hrunner : s.exitLoc ≠ NullLocation → isInMazeBounds s.toGrid s.runnerLoc = true) :
    isInMazeBounds s.toGrid (chooseStart s).1 = true := by
  unfold chooseStart
  split
  · have h1 := random_lt (random s.rng 4).2 (s.width - 0) (by omega)
    have h2 := random_lt (randomRange (random s.rng 4).2 0 s.width).2 s.height (by omega)
    have h3 : (randomRange (random s.rng 4).2 0 s.width).1
        = (random (random s.rng 4).2 (s.width - 0)).1 + 0 := by
      unfold randomRange
      rw [if_neg (by omega)]
    simp only [isInMazeBounds, isInMazeBoundsAt, Bool.and_eq_true, decide_eq_true_eq]
    rw [h3]
    omega
  · rename_i h
    exact hrunner h

theorem carveInv_initial (g : Grid) (seed : Location) (hin : isInMazeBounds g seed = true) :
    CarveInv (setWall (fillWalls g) seed.x seed.y false) seed [seed] := by
  have hin' : isInMazeBounds (fillWalls g) seed = true := hin
  have hself := isOpen_setWall_self (fillWalls g) seed hin'
  refine ⟨hself, ?_, ?_⟩
  · intro c hc
    rcases isOpen_of_isOpen_setWall (fillWalls g) seed c hc with hc' | rfl
    · exfalso
      simp only [isOpen, isInMazeBounds, isWall, isWallAt, fillWalls, Bool.and_eq_true,
        Bool.not_eq_true'] at hc'
      obtain ⟨h1, h2⟩ := hc'
      have h1' : isInMazeBoundsAt g c.x c.y = true := h1
      rw [if_pos h1'] at h2
      exact Bool.noConfusion h2
    · exact ⟨0, Reach.here⟩
  · intro c hc
    rw [List.mem_singleton] at hc
    rw [hc]
    exact hself

end Carving

section Generation

theorem generateMazeCarve_inv (s : State) (hw : 1 ≤ s.width) (hh : 1 ≤ s.height)
    (hrunner : s.exitLoc ≠ NullLocation → isInMazeBounds s.toGrid s.runnerLoc = true) :
    CarveInv (generateMazeCarve s).1 (chooseStart s).1 (generateMazeCarve s).2.1 :=
  carveLoop_inv _ 1000 _ _ _
    (carveInv_initial s.toGrid _ (chooseStart_inBounds s hw hh hrunner))

theorem not_connected_of_isolated (g : Grid) (a b : Location) (ha : isOpen g a = true)
    (hb : isOpen g b = true) (hne : a ≠ b)
    (hiso : ∀ d ∈ [Left, Right, Up, Down], isOpen g (stepFrom a d) = false) :
    ¬ Connected g := by
  intro hconn
  obtain ⟨route, hroute, hend⟩ := hconn a b ha hb
  cases route with
  | nil => exact hne hend
  | cons c rest =>
    rw [isRoute_cons] at hroute
    obtain ⟨d, hd, rfl⟩ := exists_step_of_isAdjacent a c hroute.1
    rw [hiso d hd] at hroute
    exact Bool.noConfusion hroute.2.1

/-- Claim C1. Immediately after the carving phase of `generateMaze` (before any extra wall is
removed) the seed cell is open and the open cells form one connected component under
orthogonal adjacency.  This holds for every width and height of at least 1, every random
source and every prior state in which the seed lies inside the grid (the seed is drawn at
random when no exit is set and is the runner's cell otherwise). -/
theorem generateMaze_carving_connected (s : State) (hw : 1 ≤ s.width) (hh : 1 ≤ s.height)
    (hrunner : s.exitLoc ≠ NullLocation → isInMazeBounds s.toGrid s.runnerLoc = true) :
    isOpen (generateMazeCarve s).1 (chooseStart s).1 = true
      ∧ Connected (generateMazeCarve s).1 :=
  ⟨(generateMazeCarve_inv s hw hh hrunner).1, (generateMazeCarve_inv s hw hh hrunner).connected⟩

/-- Witness for C1: the freshly constructed 3x3 runner. -/
theorem generateMaze_carving_connected_witness :
    (1 ≤ fresh3x3.width ∧ 1 ≤ fresh3x3.height)
      ∧ isOpen (generateMazeCarve fresh3x3).1 (chooseStart fresh3x3).1 = true
      ∧ Connected (generateMazeCarve fresh3x3).1 :=
  ⟨⟨by decide, by decide⟩,
    generateMaze_carving_connected fresh3x3 (by decide) (by decide) (fun h => absurd rfl h)⟩

set_option maxRecDepth 100000 in
/-- Claim C2, evaluated at the failing input. On the 3x3 runner `fresh3x3` the carving phase
leaves a connected maze, but the extra-wall phase then removes the wall at `(0, 2)`, all four
neighbours of which are walls or border: after `generateMaze` the cell `(0, 2)` is open, none of
its neighbours is, `(0, 0)` is open too, and the maze is no longer connected. -/
theorem generateMaze_extra_wall_isolates_cell :
    Connected (generateMazeCarve fresh3x3).1
      ∧ isWall (generateMazeCarve fresh3x3).1 ⟨0, 2⟩ = true
      ∧ getAdjacentWallAndBorderCount (generateMazeCarve fresh3x3).1 ⟨0, 2⟩ = 4
      ∧ isOpen (generateMaze fresh3x3).toGrid ⟨0, 2⟩ = true
      ∧ isOpen (generateMaze fresh3x3).toGrid ⟨0, 0⟩ = true
      ∧ ¬ Connected (generateMaze fresh3x3).toGrid := by
  refine ⟨(generateMazeCarve_inv fresh3x3 (by decide) (by decide)
    (fun h => absurd rfl h)).connected, by decide, by decide, by decide, by decide, ?_⟩
  exact not_connected_of_isolated _ ⟨0, 2⟩ ⟨0, 0⟩ (by decide) (by decide) (by decide) (by decide)

end Generation

section DepthFirst

theorem canVisit_eq (g : Grid) (sentryLoc : Location) (visited : List Location) (n : Location) :
    canVisit g sentryLoc visited n = (isPassable g sentryLoc n && !decide (n ∈ visited)) := rfl

theorem isPassable_isOpen {g : Grid} {sentryLoc c : Location}
    (h : isPassable g sentryLoc c = true) : isOpen g c = true := by
  simp only [isPassable, Bool.and_eq_true] at h
  simp only [isOpen, Bool.and_eq_true]
  exact h.1

theorem unwindPath_reverse (curPath : List Location) (d : Nat) :
    (unwindPath curPath d).reverse = curPath.reverse.take d := by
  induction curPath with
  | nil => simp [unwindPath]
  | cons top below ih =>
    simp only [unwindPath]
    split
    · rename_i h
      rw [ih, List.reverse_cons, List.take_append_of_le_length]
      simp only [List.length_cons] at h
      simp only [List.length_reverse]
      omega
    · rename_i h
      simp only [List.length_cons] at h
      rw [List.take_of_length_le]
      simp only [List.length_reverse, List.length_cons]
      omega

theorem dfsPush_foldl (g : Grid) (sentryLoc : Location) (visited : List Location)
    (c : Location) (d : Nat) (steps : List Direction) (rest : List (Location × Nat)) :
    steps.foldl (dfsPush g sentryLoc visited c d) rest
      = ((steps.filter (fun st => canVisit g sentryLoc visited (stepFrom c st))).map
          (fun st => (stepFrom c st, d + 1))).reverse ++ rest := by
  induction steps generalizing rest with
  | nil => rfl
  | cons st steps ih =>
    simp only [List.foldl_cons, ih, dfsPush, List.filter_cons]
    split <;> simp

theorem mem_dfsPush_foldl {g : Grid} {sentryLoc : Location} {visited : List Location}
    {c : Location} {d : Nat} {steps : List Direction} {rest : List (Location × Nat)}
    {e : Location × Nat} :
    e ∈ steps.foldl (dfsPush g sentryLoc visited c d) rest ↔
      (∃ st ∈ steps, canVisit g sentryLoc visited (stepFrom c st) = true
          ∧ e = (stepFrom c st, d + 1)) ∨ e ∈ rest := by
  rw [dfsPush_foldl]
  simp only [List.mem_append, List.mem_reverse, List.mem_map, List.mem_filter]
  constructor
  · rintro (⟨st, ⟨h1, h2⟩, rfl⟩ | h)
    · exact Or.inl ⟨st, h1, h2, rfl⟩
    · exact Or.inr h
  · rintro (⟨st, h1, h2, rfl⟩ | h)
    · exact Or.inl ⟨st, ⟨h1, h2⟩, rfl⟩
    · exact Or.inr h

theorem goodPath_snoc {ok : Location → Bool} {startLoc : Location} {l : List Location}
    {c n : Location} (h : GoodPath ok startLoc (l ++ [c])) (hadj : isAdjacent c n = true)
    (hok : ok n = true) : GoodPath ok startLoc (l ++ [c] ++ [n]) := by
  obtain ⟨route, hl, hroute⟩ := h
  refine ⟨route ++ [n], by rw [hl]; rfl, ?_⟩
  rw [isRoute_append, isRoute_cons]
  refine ⟨hroute, ?_, hok, isRoute_nil⟩
  have hend : routeEnd startLoc route = c := by
    have h1 : routeEnd startLoc (l ++ [c]) = routeEnd startLoc (startLoc :: route) := by rw [hl]
    rw [routeEnd_append] at h1
    simpa [routeEnd] using h1.symm
  rw [hend]
  exact hadj

theorem DfsInv.atStart (ok : Location → Bool) (startLoc : Location) (maxSearchDistance : Int) :
    DfsInv ok startLoc maxSearchDistance [(startLoc, 0)] [] := by
  refine ⟨?_, List.pairwise_singleton _ _⟩
  intro e he
  rw [List.mem_singleton] at he
  subst he
  refine ⟨Nat.le_refl _, ⟨[], rfl, isRoute_nil⟩, ?_⟩
  intro h
  simp only [Nat.cast_zero]
  omega

theorem DfsInv.pop {ok : Location → Bool} {startLoc : Location} {maxSearchDistance : Int}
    {c : Location} {d : Nat} {rest : List (Location × Nat)} {path : List Location}
    (h : DfsInv ok startLoc maxSearchDistance ((c, d) :: rest) path) :
    DfsInv ok startLoc maxSearchDistance rest (path.take d ++ [c]) := by
  obtain ⟨hall, hsorted⟩ := h
  rw [List.pairwise_cons] at hsorted
  have hd := (hall (c, d) (List.mem_cons_self _ _)).1
  refine ⟨?_, hsorted.2⟩
  intro e he
  have hle : e.2 ≤ d := hsorted.1 e he
  obtain ⟨h1, h2, h3⟩ := hall e (List.mem_cons_of_mem _ he)
  have hlen : (path.take d).length = d := by
    rw [List.length_take]
    exact Nat.min_eq_left hd
  refine ⟨by simp [hlen]; omega, ?_, h3⟩
  rw [List.take_append_of_le_length (by omega), List.take_take, Nat.min_eq_left hle]
  exact h2

theorem DfsInv.afterExpand {g : Grid} {sentryLoc startLoc : Location} {maxSearchDistance : Int}
    {c : Location} {d : Nat} {rest : List (Location × Nat)} {path : List Location}
    {visited : List Location} {steps : List Direction}
    (h : DfsInv (isPassable g sentryLoc) startLoc maxSearchDistance ((c, d) :: rest) path)
    (hsteps : ∀ st ∈ steps, st ∈ [Left, Right, Up, Down])
    (hbound : ¬(maxSearchDistance > 0 ∧ (d : Int) + 1 > maxSearchDistance)) :
    DfsInv (isPassable g sentryLoc) startLoc maxSearchDistance
      (steps.foldl (dfsPush g sentryLoc visited c d) rest) (path.take d ++ [c]) := by
  have hpop := h.pop
  obtain ⟨hall, hsorted⟩ := h
  rw [List.pairwise_cons] at hsorted
  obtain ⟨hd, hgood, _⟩ := hall (c, d) (List.mem_cons_self _ _)
  have hlen : (path.take d ++ [c]).length = d + 1 := by
    rw [List.length_append, List.length_take, Nat.min_eq_left hd]
    rfl
  constructor
  · intro e he
    rcases mem_dfsPush_foldl.1 he with ⟨st, hst, hcan, rfl⟩ | he
    · refine ⟨by rw [hlen], ?_, ?_⟩
      · rw [List.take_of_length_le (by rw [hlen])]
        rw [canVisit_eq, Bool.and_eq_true] at hcan
        exact goodPath_snoc hgood (isAdjacent_stepFrom c st (hsteps st hst)) hcan.1
      · intro hpos
        simp only [Nat.cast_add, Nat.cast_one]
        by_contra hcon
        exact hbound ⟨hpos, by omega⟩
    · exact hpop.1 e he
  · rw [dfsPush_foldl, List.pairwise_append]
    refine ⟨?_, hsorted.2, ?_⟩
    · rw [List.pairwise_reverse, List.pairwise_map]
      exact List.pairwise_of_forall (fun _ _ => Nat.le_refl _)
    · intro e he e' he'
      simp only [List.mem_reverse, List.mem_map] at he
      obtain ⟨st, _, rfl⟩ := he
      have := hsorted.1 e' he'
      simp only
      omega

/-- Partial correctness of the loop of `findPathDfs`: a non-empty result is a route from the
start to the goal through passable cells, within the bound. -/
theorem findPathDfsLoop_sound (g : Grid) (sentryLoc endLoc startLoc : Location)
    (maxSearchDistance : Int) :
    ∀ (fuel : Nat) (stack : List (Location × Nat)) (visited curPath : List Location) (r : Rng)
      (p : List Location) (r' : Rng),
      DfsInv (isPassable g sentryLoc) startLoc maxSearchDistance stack curPath.reverse →
      findPathDfsLoop g sentryLoc endLoc maxSearchDistance fuel stack visited curPath r
        = some (p, r') →
      p ≠ [] →
      IsRoute (isPassable g sentryLoc) startLoc p ∧ routeEnd startLoc p = endLoc
        ∧ withinBound maxSearchDistance p.length := by
  intro fuel
  induction fuel with
  | zero =>
    intro stack visited curPath r p r' _ hres hne
    cases stack with
    | nil =>
      simp only [findPathDfsLoop, Option.some.injEq, Prod.mk.injEq] at hres
      exact absurd hres.1.symm hne
    | cons e rest => simp [findPathDfsLoop] at hres
  | succ fuel ih =>
    intro stack visited curPath r p r' hinv hres hne
    cases stack with
    | nil =>
      simp only [findPathDfsLoop, Option.some.injEq, Prod.mk.injEq] at hres
      exact absurd hres.1.symm hne
    | cons e rest =>
      obtain ⟨c, d⟩ := e
      have hrev : (c :: unwindPath curPath d).reverse = curPath.reverse.take d ++ [c] := by
        rw [List.reverse_cons, unwindPath_reverse]
      simp only [findPathDfsLoop] at hres
      split at hres
      · rename_i hgoal
        simp only [Option.some.injEq, Prod.mk.injEq] at hres
        obtain ⟨hd, ⟨route, hroute, hisroute⟩, hb⟩ := hinv.1 (c, d) (List.mem_cons_self _ _)
        rw [hrev] at hres
        simp only at hroute
        rw [hroute, List.tail_cons] at hres
        have hp : route = p := hres.1
        subst hp
        have hlen : route.length = d := by
          have h1 : (curPath.reverse.take d ++ [c]).length = (startLoc :: route).length := by
            rw [hroute]
          rw [List.length_append, List.length_take, Nat.min_eq_left hd] at h1
          simpa using h1.symm
        have hend : routeEnd startLoc route = c := by
          have h1 : routeEnd startLoc (curPath.reverse.take d ++ [c])
              = routeEnd startLoc (startLoc :: route) := by rw [hroute]
          rw [routeEnd_append] at h1
          simpa [routeEnd] using h1.symm
        refine ⟨hisroute, by rw [hend, hgoal], ?_⟩
        rw [hlen]
        exact hb
      · split at hres
        · exact ih _ _ _ _ _ _ (by rw [hrev]; exact hinv.pop) hres hne
        · rename_i hbound
          refine ih _ _ _ _ _ _ ?_ hres hne
          rw [hrev]
          exact hinv.afterExpand (fun st hst => (mem_shuffleDirections r st).1 hst) hbound

theorem findPathDfs_sound {fuel : Nat} {g : Grid} {startLoc sentryLoc endLoc : Location}
    {maxSearchDistance : Int} {r r' : Rng} {p : List Location}
    (h : findPathDfs fuel g startLoc sentryLoc endLoc maxSearchDistance r = some (p, r'))
    (hne : p ≠ []) :
    IsRoute (isPassable g sentryLoc) startLoc p ∧ routeEnd startLoc p = endLoc
      ∧ withinBound maxSearchDistance p.length :=
  findPathDfsLoop_sound g sentryLoc endLoc startLoc maxSearchDistance fuel _ [] [] r p r'
    (DfsInv.atStart _ _ _) h hne

end DepthFirst

section Termination

theorem mem_gridCells {g : Grid} {c : Location} :
    c ∈ gridCells g ↔ isInMazeBounds g c = true := by
  simp only [gridCells, List.mem_flatMap, List.mem_range, List.mem_map, isInMazeBounds,
    isInMazeBoundsAt, Bool.and_eq_true, decide_eq_true_eq]
  constructor
  · rintro ⟨y, hy, x, hx, rfl⟩
    simp only [Int.ofNat_eq_coe]
    omega
  · rintro ⟨⟨⟨h1, h2⟩, h3⟩, h4⟩
    obtain ⟨cx, cy⟩ := c
    simp only at h1 h2 h3 h4
    refine ⟨cy.toNat, by omega, cx.toNat, by omega, ?_⟩
    simp only [Int.ofNat_eq_coe, Coordinate.mk.injEq]
    constructor <;> omega

theorem filter_length_cons_le (l visited : List Location) (c : Location) :
    (l.filter (fun x => decide (x ∉ c :: visited))).length
      ≤ (l.filter (fun x => decide (x ∉ visited))).length := by
  induction l with
  | nil => simp
  | cons x l ih =>
    rw [List.filter_cons, List.filter_cons]
    by_cases h1 : x ∈ visited
    · have h2 : x ∈ c :: visited := List.mem_cons_of_mem _ h1
      rw [if_neg (by simp [h2]), if_neg (by simp [h1])]
      exact ih
    · by_cases h2 : x ∈ c :: visited
      · rw [if_neg (by simp [h2]), if_pos (by simp [h1]), List.length_cons]
        omega
      · rw [if_pos (by simp [h2]), if_pos (by simp [h1]), List.length_cons,
          List.length_cons]
        omega

theorem filter_length_cons_lt (l visited : List Location) (c : Location) (hc : c ∈ l)
    (hv : c ∉ visited) :
    (l.filter (fun x => decide (x ∉ c :: visited))).length
      < (l.filter (fun x => decide (x ∉ visited))).length := by
  induction l with
  | nil => simp at hc
  | cons x l ih =>
    rw [List.filter_cons, List.filter_cons]
    by_cases hx : x = c
    · subst hx
      have := filter_length_cons_le l visited x
      rw [if_neg (by simp), if_pos (by simp [hv]), List.length_cons]
      omega
    · have hc' : c ∈ l := by
        rcases List.mem_cons.1 hc with h | h
        · exact absurd h.symm hx
        · exact h
      have ih' := ih hc'
      by_cases h1 : x ∈ visited
      · have h2 : x ∈ c :: visited := List.mem_cons_of_mem _ h1
        rw [if_neg (by simp [h2]), if_neg (by simp [h1])]
        exact ih'
      · have h2 : x ∉ c :: visited := by
          simp only [List.mem_cons, not_or]
          exact ⟨hx, h1⟩
        rw [if_pos (by simp [h2]), if_pos (by simp [h1]), List.length_cons,
          List.length_cons]
        omega

theorem unvisitedCount_cons_le (g : Grid) (visited : List Location) (c : Location) :
    unvisitedCount g (c :: visited) ≤ unvisitedCount g visited :=
  filter_length_cons_le _ _ _

theorem unvisitedCount_cons_lt (g : Grid) (visited : List Location) (c : Location)
    (hc : isInMazeBounds g c = true) (hv : c ∉ visited) :
    unvisitedCount g (c :: visited) < unvisitedCount g visited :=
  filter_length_cons_lt _ _ _ (mem_gridCells.2 hc) hv

theorem unvisitedCount_le (g : Grid) (visited : List Location) :
    unvisitedCount g visited ≤ (gridCells g).length :=
  List.length_filter_le _ _

theorem entryWeight_pos (g : Grid) (visited : List Location) (c : Location) :
    0 < entryWeight g visited c := by
  unfold entryWeight
  split <;> positivity

theorem entryWeight_le (g : Grid) (visited : List Location) (c : Location) :
    entryWeight g visited c ≤ 5 ^ (2 * unvisitedCount g visited + 1) := by
  unfold entryWeight
  split
  · exact Nat.pow_le_pow_right (by norm_num) (by omega)
  · exact Nat.le_refl _

theorem entryWeight_cons_le (g : Grid) (visited : List Location) (c x : Location) :
    entryWeight g (c :: visited) x ≤ entryWeight g visited x := by
  have hle := unvisitedCount_cons_le g visited c
  by_cases hx : isInMazeBounds g x = true ∧ x ∉ visited
  · by_cases hx' : isInMazeBounds g x = true ∧ x ∉ c :: visited
    · rw [entryWeight, if_pos hx', entryWeight, if_pos hx]
      exact Nat.pow_le_pow_right (by norm_num) (by omega)
    · have hxc : x = c := by
        by_contra hne
        exact hx' ⟨hx.1, by simp only [List.mem_cons, not_or]; exact ⟨hne, hx.2⟩⟩
      subst hxc
      have hlt := unvisitedCount_cons_lt g visited x hx.1 hx.2
      rw [entryWeight, if_neg hx', entryWeight, if_pos hx]
      exact Nat.pow_le_pow_right (by norm_num) (by omega)
  · have hx' : ¬(isInMazeBounds g x = true ∧ x ∉ c :: visited) := by
      intro h
      exact hx ⟨h.1, fun hm => h.2 (List.mem_cons_of_mem _ hm)⟩
    rw [entryWeight, if_neg hx', entryWeight, if_neg hx]
    exact Nat.pow_le_pow_right (by norm_num) (by omega)

theorem searchMeasure_cons_le (g : Grid) (visited : List Location) (c : Location)
    (entries : List (Location × Nat)) :
    searchMeasure g (c :: visited) entries ≤ searchMeasure g visited entries := by
  induction entries with
  | nil => simp [searchMeasure]
  | cons e entries ih =>
    simp only [searchMeasure, List.map_cons, List.sum_cons] at ih ⊢
    have := entryWeight_cons_le g visited c e.1
    omega

theorem searchMeasure_append (g : Grid) (visited : List Location)
    (l1 l2 : List (Location × Nat)) :
    searchMeasure g visited (l1 ++ l2) = searchMeasure g visited l1 + searchMeasure g visited l2 := by
  simp [searchMeasure, List.sum_append]

theorem searchMeasure_pushed (g : Grid) (visited : List Location)
    (pushed : List (Location × Nat))
    (h : ∀ e ∈ pushed, isInMazeBounds g e.1 = true ∧ e.1 ∉ visited) :
    searchMeasure g visited pushed = pushed.length * 5 ^ (2 * unvisitedCount g visited) := by
  induction pushed with
  | nil => simp [searchMeasure]
  | cons e pushed ih =>
    have ih' := ih (fun e' he' => h e' (List.mem_cons_of_mem _ he'))
    simp only [searchMeasure, List.map_cons, List.sum_cons, List.length_cons] at ih' ⊢
    rw [ih', entryWeight, if_pos (h e (List.mem_cons_self _ _))]
    ring

/-- One iteration of either search lowers the measure: the popped entry weighs more than the
at most four entries pushed in its place. -/
theorem searchMeasure_step (g : Grid) (visited : List Location) (c : Location) (d : Nat)
    (rest pushed : List (Location × Nat)) (hlen : pushed.length ≤ 4)
    (h : ∀ e ∈ pushed, isInMazeBounds g e.1 = true ∧ e.1 ∉ c :: visited) :
    searchMeasure g (c :: visited) pushed + searchMeasure g (c :: visited) rest
      < searchMeasure g visited ((c, d) :: rest) := by
  have h1 := searchMeasure_cons_le g visited c rest
  have h2 := searchMeasure_pushed g (c :: visited) pushed h
  have h3 : pushed.length * 5 ^ (2 * unvisitedCount g (c :: visited))
      ≤ 4 * 5 ^ (2 * unvisitedCount g (c :: visited)) := Nat.mul_le_mul_right _ hlen
  have h4 : 4 * 5 ^ (2 * unvisitedCount g (c :: visited)) < entryWeight g visited c := by
    have hle := unvisitedCount_cons_le g visited c
    by_cases hc : isInMazeBounds g c = true ∧ c ∉ visited
    · have hlt := unvisitedCount_cons_lt g visited c hc.1 hc.2
      rw [entryWeight, if_pos hc]
      calc 4 * 5 ^ (2 * unvisitedCount g (c :: visited))
          < 5 * 5 ^ (2 * unvisitedCount g (c :: visited)) := by
            have : 0 < 5 ^ (2 * unvisitedCount g (c :: visited)) := by positivity
            omega
        _ = 5 ^ (2 * unvisitedCount g (c :: visited) + 1) := by ring
        _ ≤ 5 ^ (2 * unvisitedCount g visited) :=
            Nat.pow_le_pow_right (by norm_num) (by omega)
    · rw [entryWeight, if_neg hc]
      calc 4 * 5 ^ (2 * unvisitedCount g (c :: visited))
          < 5 * 5 ^ (2 * unvisitedCount g (c :: visited)) := by
            have : 0 < 5 ^ (2 * unvisitedCount g (c :: visited)) := by positivity
            omega
        _ = 5 ^ (2 * unvisitedCount g (c :: visited) + 1) := by ring
        _ ≤ 5 ^ (2 * unvisitedCount g visited + 1) :=
            Nat.pow_le_pow_right (by norm_num) (by omega)
  simp only [searchMeasure, List.map_cons, List.sum_cons] at h1 h2 ⊢
  omega

theorem searchMeasure_initial (g : Grid) (startLoc : Location) :
    searchMeasure g [] [(startLoc, 0)] ≤ searchFuel g := by
  simp only [searchMeasure, List.map_cons, List.map_nil, List.sum_cons, List.sum_nil,
    Nat.add_zero, searchFuel]
  exact Nat.le_trans (entryWeight_le g [] startLoc)
    (Nat.pow_le_pow_right (by norm_num) (by have := unvisitedCount_le g []; omega))

theorem shuffleDirections_length (r : Rng) :
    (shuffleDirections [Left, Right, Up, Down] 4 r).1.length = 4 :=
  (shuffleDirections_perm r).length_eq

theorem canVisit_inBounds {g : Grid} {sentryLoc : Location} {visited : List Location}
    {n : Location} (h : canVisit g sentryLoc visited n = true) :
    isInMazeBounds g n = true ∧ n ∉ visited := by
  simp only [canVisit, Bool.and_eq_true, Bool.not_eq_true', decide_eq_false_iff_not] at h
  exact ⟨h.1.1.1, h.2⟩

/-- The loop of `findPathDfs` returns once the fuel reaches the measure of its state. -/
theorem findPathDfsLoop_terminates (g : Grid) (sentryLoc endLoc : Location)
    (maxSearchDistance : Int) :
    ∀ (fuel : Nat) (stack : List (Location × Nat)) (visited curPath : List Location) (r : Rng),
      searchMeasure g visited stack ≤ fuel →
      ∃ res, findPathDfsLoop g sentryLoc endLoc maxSearchDistance fuel stack visited curPath r
        = some res := by
  intro fuel
  induction fuel with
  | zero =>
    intro stack visited curPath r h
    cases stack with
    | nil => exact ⟨_, rfl⟩
    | cons e rest =>
      exfalso
      have := entryWeight_pos g visited e.1
      simp only [searchMeasure, List.map_cons, List.sum_cons] at h
      omega
  | succ fuel ih =>
    intro stack visited curPath r h
    cases stack with
    | nil => exact ⟨_, rfl⟩
    | cons e rest =>
      obtain ⟨c, d⟩ := e
      simp only [findPathDfsLoop]
      split
      · exact ⟨_, rfl⟩
      · split
        · apply ih
          have := searchMeasure_step g visited c d rest [] (by simp) (by simp)
          simp only [searchMeasure, List.map_nil, List.sum_nil, Nat.zero_add] at this h ⊢
          omega
        · apply ih
          rw [dfsPush_foldl, searchMeasure_append]
          have := searchMeasure_step g visited c d rest
            (((shuffleDirections [Left, Right, Up, Down] 4 r).1.filter
              (fun st => canVisit g sentryLoc (c :: visited) (stepFrom c st))).map
                (fun st => (stepFrom c st, d + 1))).reverse
            (by
              rw [List.length_reverse, List.length_map]
              exact Nat.le_trans (List.length_filter_le _ _)
                (Nat.le_of_eq (shuffleDirections_length r)))
            (by
              intro e he
              simp only [List.mem_reverse, List.mem_map, List.mem_filter] at he
              obtain ⟨st, ⟨_, hcan⟩, rfl⟩ := he
              exact canVisit_inBounds hcan)
          omega

theorem findPathDfs_terminates (g : Grid) (startLoc sentryLoc endLoc : Location)
    (maxSearchDistance : Int) (r : Rng) (fuel : Nat) (hfuel : searchFuel g ≤ fuel) :
    ∃ res, findPathDfs fuel g startLoc sentryLoc endLoc maxSearchDistance r = some res :=
  findPathDfsLoop_terminates g sentryLoc endLoc maxSearchDistance fuel _ _ _ _
    (Nat.le_trans (searchMeasure_initial g startLoc) hfuel)

end Termination

section DepthFirstClaims

theorem isPassable_eq_isClearOf (g : Grid) (avoid c : Location) :
    isPassable g avoid c = isClearOf g avoid c := by
  by_cases hnull : avoid = NullLocation
  · subst hnull
    by_cases hopen : isOpen g c = true
    · have hb : isInMazeBounds g c = true := by
        simp only [isOpen, Bool.and_eq_true] at hopen
        exact hopen.1
      have hc : c ≠ NullLocation ∧ isAdjacent c NullLocation = false := by
        simp only [isInMazeBounds, isInMazeBoundsAt, Bool.and_eq_true, decide_eq_true_eq] at hb
        obtain ⟨cx, cy⟩ := c
        simp only at hb
        simp only [NullLocation, ne_eq, Coordinate.mk.injEq, isAdjacent, decide_eq_false_iff_not]
        constructor
        · intro h
          omega
        · omega
      have hopen' : (isInMazeBounds g c && !isWall g c) = true := hopen
      simp [isPassable, isClearOf, hopen, hopen', hc.1, hc.2]
    · have hopen' : (isInMazeBounds g c && !isWall g c) = false := by
        simpa [isOpen] using hopen
      have hopen'' : isOpen g c = false := by simpa using hopen
      simp [isPassable, isClearOf, hopen', hopen'']
  · simp [isPassable, isClearOf, isOpen, hnull, Bool.and_assoc]

theorem isClearOf_isOpen {g : Grid} {avoid c : Location} (h : isClearOf g avoid c = true) :
    isOpen g c = true := by
  simp only [isClearOf, Bool.and_eq_true] at h
  exact h.1.1

/-- Claim C4. `findPathDfs` returns for every grid and every random source, and whenever it
returns a non-empty path, the path is a forward-ordered route from the start (exclusive) to the
goal (inclusive): its first cell is orthogonally adjacent to the start, every later cell to the
cell before it, its last cell is the goal, every cell is in bounds and not a wall, and when
`maxSearchDistance > 0` its length is at most `maxSearchDistance`. -/
theorem findPathDfs_returns_route (g : Grid) (startLoc sentryLoc endLoc : Location)
    (maxSearchDistance : Int) (r : Rng) :
    (∀ fuel, searchFuel g ≤ fuel →
        ∃ res, findPathDfs fuel g startLoc sentryLoc endLoc maxSearchDistance r = some res)
      ∧ ∀ fuel p r',
          findPathDfs fuel g startLoc sentryLoc endLoc maxSearchDistance r = some (p, r') →
          p ≠ [] →
          IsRoute (isOpen g) startLoc p ∧ routeEnd startLoc p = endLoc
            ∧ (maxSearchDistance > 0 → (p.length : Int) ≤ maxSearchDistance) := by
  refine ⟨fun fuel hfuel => findPathDfs_terminates g _ _ _ _ r fuel hfuel, ?_⟩
  intro fuel p r' h hne
  have hsound := findPathDfs_sound h hne
  have hroute : IsRoute (isOpen g) startLoc p :=
    hsound.1.imp (fun _ hc => isPassable_isOpen hc)
  exact ⟨hroute, hsound.2.1, hsound.2.2⟩

/-- Witness for C4: a search on `grid4x2` from `(0, 0)` to `(3, 0)` bounded by 4. -/
theorem findPathDfs_returns_route_witness :
    findPathDfs 50 grid4x2 ⟨0, 0⟩ NullLocation ⟨3, 0⟩ 4 (rngOfList [])
        = some ([⟨1, 0⟩, ⟨2, 0⟩, ⟨3, 0⟩], ⟨fun i => ([] : List Nat).getD i 0, 12⟩)
      ∧ IsRoute (isOpen grid4x2) ⟨0, 0⟩ [⟨1, 0⟩, ⟨2, 0⟩, ⟨3, 0⟩]
      ∧ routeEnd ⟨0, 0⟩ [⟨1, 0⟩, ⟨2, 0⟩, ⟨3, 0⟩] = ⟨3, 0⟩
      ∧ ((4 : Int) > 0 → (([⟨1, 0⟩, ⟨2, 0⟩, ⟨3, 0⟩] : List Location).length : Int) ≤ 4) :=
  ⟨rfl,
    (findPathDfs_returns_route grid4x2 ⟨0, 0⟩ NullLocation ⟨3, 0⟩ 4 (rngOfList [])).2 50
      [⟨1, 0⟩, ⟨2, 0⟩, ⟨3, 0⟩] ⟨fun i => ([] : List Nat).getD i 0, 12⟩ rfl (by decide)⟩

/-- Claim C5. For every grid, start, goal, bound, random source and every avoided location
other than `NullLocation`, `findPathDfs` returns and every cell of the path it returns is
different from the avoided location and not orthogonally adjacent to it. -/
theorem findPathDfs_path_avoids (g : Grid) (startLoc sentryLoc endLoc : Location)
    (maxSearchDistance : Int) (r : Rng) (havoid : sentryLoc ≠ NullLocation) :
    (∀ fuel, searchFuel g ≤ fuel →
        ∃ res, findPathDfs fuel g startLoc sentryLoc endLoc maxSearchDistance r = some res)
      ∧ ∀ fuel p r',
          findPathDfs fuel g startLoc sentryLoc endLoc maxSearchDistance r = some (p, r') →
          ∀ c ∈ p, c ≠ sentryLoc ∧ isAdjacent c sentryLoc = false := by
  refine ⟨fun fuel hfuel => findPathDfs_terminates g _ _ _ _ r fuel hfuel, ?_⟩
  intro fuel p r' h c hc
  have hne : p ≠ [] := List.ne_nil_of_mem hc
  have hpass := (findPathDfs_sound h hne).1.forall_ok c hc
  simp only [isPassable, Bool.and_eq_true, Bool.or_eq_true, decide_eq_true_eq,
    Bool.not_eq_true'] at hpass
  rcases hpass.2 with hnull | hclear
  · exact absurd hnull havoid
  · exact hclear

/-- Witness for C5: a search on `grid4x2` from `(0, 0)` to `(3, 0)` that avoids `(0, 1)`. -/
theorem findPathDfs_path_avoids_witness :
    (⟨0, 1⟩ : Location) ≠ NullLocation
      ∧ findPathDfs 50 grid4x2 ⟨0, 0⟩ ⟨0, 1⟩ ⟨3, 0⟩ 4 (rngOfList [])
          = some ([⟨1, 0⟩, ⟨2, 0⟩, ⟨3, 0⟩], ⟨fun i => ([] : List Nat).getD i 0, 12⟩)
      ∧ ∀ c ∈ ([⟨1, 0⟩, ⟨2, 0⟩, ⟨3, 0⟩] : List Location),
          c ≠ (⟨0, 1⟩ : Location) ∧ isAdjacent c ⟨0, 1⟩ = false :=
  ⟨by decide, rfl,
    (findPathDfs_path_avoids grid4x2 ⟨0, 0⟩ ⟨0, 1⟩ ⟨3, 0⟩ 4 (rngOfList []) (by decide)).2 50
      [⟨1, 0⟩, ⟨2, 0⟩, ⟨3, 0⟩] ⟨fun i => ([] : List Nat).getD i 0, 12⟩ rfl⟩

end DepthFirstClaims

section DepthFirstComplete

variable {g : Grid} {sentryLoc startLoc endLoc : Location} {maxSearchDistance : Int}

theorem sameParity_step {c : Location} {d : Nat} {n : Location}
    (h : sameParity startLoc c d) (hadj : isAdjacent c n = true) :
    sameParity startLoc n (d + 1) := by
  simp only [isAdjacent, decide_eq_true_eq] at hadj
  simp only [sameParity, Nat.cast_add, Nat.cast_one] at h ⊢
  omega

theorem DfsSeen.seenAtStart :
    DfsSeen g sentryLoc startLoc endLoc maxSearchDistance [(startLoc, 0)] [] [] := by
  refine ⟨by simp, by simp, by simp, by simp, ?_, Or.inl ⟨rfl, rfl, rfl⟩⟩
  intro e he
  simp only [List.not_mem_nil, List.mem_singleton, false_or] at he
  subst he
  refine ⟨by simp [sameParity], ?_, fun _ => rfl⟩
  intro h
  simp only [Nat.cast_zero]
  omega

theorem DfsSeen.skip {c : Location} {d : Nat} {rest : List (Location × Nat)}
    {visited : List Location} {popped : List (Location × Nat)}
    (h : DfsSeen g sentryLoc startLoc endLoc maxSearchDistance ((c, d) :: rest) visited popped)
    (hgoal : c ≠ endLoc) (hbound : ¬expands maxSearchDistance d) (hmax : 0 < maxSearchDistance) :
    DfsSeen g sentryLoc startLoc endLoc maxSearchDistance rest (c :: visited)
      ((c, d) :: popped) := by
  obtain ⟨h1, h2, h3, h4, h5, h6⟩ := h
  refine ⟨?_, ?_, ?_, ?_, ?_, ?_⟩
  · simp only [List.mem_cons, not_or]
    exact ⟨fun h => hgoal h.symm, h1⟩
  · intro e he
    rcases List.mem_cons.1 he with rfl | he
    · exact List.mem_cons_self _ _
    · exact List.mem_cons_of_mem _ (h2 e he)
  · intro x hx
    rcases List.mem_cons.1 hx with rfl | hx
    · exact ⟨d, List.mem_cons_self _ _⟩
    · obtain ⟨d', hd'⟩ := h3 x hx
      exact ⟨d', List.mem_cons_of_mem _ hd'⟩
  · intro e he hexp n hadj hok
    rcases List.mem_cons.1 he with rfl | he
    · exact absurd hexp hbound
    · rcases h4 e he hexp n hadj hok with hv | ⟨d', hd'⟩
      · exact Or.inl (List.mem_cons_of_mem _ hv)
      · rcases List.mem_cons.1 hd' with heq | hd'
        · left
          simp only [Prod.mk.injEq] at heq
          rw [heq.1]
          exact List.mem_cons_self _ _
        · exact Or.inr ⟨d', hd'⟩
  · intro e he
    apply h5
    rcases he with he | he
    · rcases List.mem_cons.1 he with rfl | he
      · exact Or.inr (List.mem_cons_self _ _)
      · exact Or.inl he
    · exact Or.inr (List.mem_cons_of_mem _ he)
  · right
    rcases h6 with ⟨hs, _, _⟩ | h6
    · exfalso
      simp only [List.cons.injEq, Prod.mk.injEq] at hs
      apply hbound
      simp only [expands, not_and, not_lt]
      intro _
      rw [hs.1.2]
      simp only [Nat.cast_zero]
      omega
    · intro n hadj hok
      rcases h6 n hadj hok with hp | hs
      · exact Or.inl (List.mem_cons_of_mem _ hp)
      · rcases List.mem_cons.1 hs with heq | hs
        · left
          rw [heq]
          exact List.mem_cons_self _ _
        · exact Or.inr hs

theorem DfsSeen.seenExpand {c : Location} {d : Nat} {rest : List (Location × Nat)}
    {visited : List Location} {popped : List (Location × Nat)} {steps : List Direction}
    (h : DfsSeen g sentryLoc startLoc endLoc maxSearchDistance ((c, d) :: rest) visited popped)
    (hgoal : c ≠ endLoc) (hbound : expands maxSearchDistance d)
    (hsteps : ∀ st, st ∈ steps ↔ st ∈ [Left, Right, Up, Down]) :
    DfsSeen g sentryLoc startLoc endLoc maxSearchDistance
      (steps.foldl (dfsPush g sentryLoc (c :: visited) c d) rest) (c :: visited)
      ((c, d) :: popped) := by
  obtain ⟨h1, h2, h3, h4, h5, h6⟩ := h
  have hpush : ∀ n, isAdjacent c n = true → isPassable g sentryLoc n = true →
      n ∈ c :: visited
        ∨ (n, d + 1) ∈ steps.foldl (dfsPush g sentryLoc (c :: visited) c d) rest := by
    intro n hadj hok
    by_cases hv : n ∈ c :: visited
    · exact Or.inl hv
    · right
      obtain ⟨st, hst, rfl⟩ := exists_step_of_isAdjacent c n hadj
      rw [mem_dfsPush_foldl]
      left
      refine ⟨st, (hsteps st).2 hst, ?_, rfl⟩
      rw [canVisit_eq, hok]
      simpa using hv
  refine ⟨?_, ?_, ?_, ?_, ?_, ?_⟩
  · simp only [List.mem_cons, not_or]
    exact ⟨fun h => hgoal h.symm, h1⟩
  · intro e he
    rcases List.mem_cons.1 he with rfl | he
    · exact List.mem_cons_self _ _
    · exact List.mem_cons_of_mem _ (h2 e he)
  · intro x hx
    rcases List.mem_cons.1 hx with rfl | hx
    · exact ⟨d, List.mem_cons_self _ _⟩
    · obtain ⟨d', hd'⟩ := h3 x hx
      exact ⟨d', List.mem_cons_of_mem _ hd'⟩
  · intro e he hexp n hadj hok
    rcases List.mem_cons.1 he with rfl | he
    · rcases hpush n hadj hok with hv | hs
      · exact Or.inl hv
      · exact Or.inr ⟨_, hs⟩
    · rcases h4 e he hexp n hadj hok with hv | ⟨d', hd'⟩
      · exact Or.inl (List.mem_cons_of_mem _ hv)
      · rcases List.mem_cons.1 hd' with heq | hd'
        · left
          simp only [Prod.mk.injEq] at heq
          rw [heq.1]
          exact List.mem_cons_self _ _
        · exact Or.inr ⟨d', mem_dfsPush_foldl.2 (Or.inr hd')⟩
  · intro e he
    have hcd := h5 (c, d) (Or.inr (List.mem_cons_self _ _))
    rcases he with he | he
    · rcases List.mem_cons.1 he with rfl | he
      · exact hcd
      · exact h5 e (Or.inl he)
    · rcases mem_dfsPush_foldl.1 he with ⟨st, hst, _, rfl⟩ | he
      · refine ⟨sameParity_step hcd.1
          (isAdjacent_stepFrom c st ((hsteps st).1 hst)), ?_, ?_⟩
        · intro hpos
          simp only [Nat.cast_add, Nat.cast_one]
          by_contra hcon
          exact hbound ⟨hpos, by omega⟩
        · intro h0
          simp at h0
      · exact h5 e (Or.inr (List.mem_cons_of_mem _ he))
  · right
    rcases h6 with ⟨hs, hv, _⟩ | h6
    · simp only [List.cons.injEq, Prod.mk.injEq] at hs
      obtain ⟨⟨rfl, rfl⟩, rfl⟩ := hs
      subst hv
      intro n hadj hok
      right
      rcases hpush n hadj hok with hv | hs
      · exfalso
        simp only [List.mem_cons, List.not_mem_nil, or_false] at hv
        subst hv
        simp [isAdjacent] at hadj
      · exact hs
    · intro n hadj hok
      rcases h6 n hadj hok with hp | hs
      · exact Or.inl (List.mem_cons_of_mem _ hp)
      · rcases List.mem_cons.1 hs with heq | hs
        · left
          rw [heq]
          exact List.mem_cons_self _ _
        · exact Or.inr (mem_dfsPush_foldl.2 (Or.inr hs))

/-- When the loop of `findPathDfs` gives up, the closure invariant holds with nothing left
to visit. -/
theorem findPathDfsLoop_empty_seen (hne : startLoc ≠ endLoc) (hmax : 0 < maxSearchDistance) :
    ∀ (fuel : Nat) (stack : List (Location × Nat)) (visited curPath : List Location) (r r' : Rng)
      (popped : List (Location × Nat)),
      DfsInv (isPassable g sentryLoc) startLoc maxSearchDistance stack curPath.reverse →
      DfsSeen g sentryLoc startLoc endLoc maxSearchDistance stack visited popped →
      findPathDfsLoop g sentryLoc endLoc maxSearchDistance fuel stack visited curPath r
        = some ([], r') →
      ∃ visited' popped',
        DfsSeen g sentryLoc startLoc endLoc maxSearchDistance [] visited' popped' := by
  intro fuel
  induction fuel with
  | zero =>
    intro stack visited curPath r r' popped _ hseen hres
    cases stack with
    | nil => exact ⟨_, _, hseen⟩
    | cons e rest => simp [findPathDfsLoop] at hres
  | succ fuel ih =>
    intro stack visited curPath r r' popped hinv hseen hres
    cases stack with
    | nil => exact ⟨_, _, hseen⟩
    | cons e rest =>
      obtain ⟨c, d⟩ := e
      have hrev : (c :: unwindPath curPath d).reverse = curPath.reverse.take d ++ [c] := by
        rw [List.reverse_cons, unwindPath_reverse]
      simp only [findPathDfsLoop] at hres
      split at hres
      · rename_i hgoal
        exfalso
        simp only [Option.some.injEq, Prod.mk.injEq] at hres
        obtain ⟨hd, ⟨route, hroute, _⟩, _⟩ := hinv.1 (c, d) (List.mem_cons_self _ _)
        rw [hrev] at hres
        simp only at hroute
        rw [hroute, List.tail_cons] at hres
        have hlen : (curPath.reverse.take d ++ [c]).length = (startLoc :: route).length := by
          rw [hroute]
        rw [List.length_append, List.length_take, Nat.min_eq_left hd, hres.1] at hlen
        have hd0 : d = 0 := by simpa using hlen
        have := (hseen.2.2.2.2.1 (c, d) (Or.inr (List.mem_cons_self _ _))).2.2 hd0
        simp only at this
        exact hne (this.symm.trans hgoal)
      · rename_i hgoal
        split at hres
        · rename_i hb
          exact ih _ _ _ _ _ _ (by rw [hrev]; exact hinv.pop)
            (hseen.skip hgoal (fun h => h hb) hmax) hres
        · rename_i hb
          refine ih _ _ _ _ _ _ ?_ (hseen.seenExpand hgoal hb (mem_shuffleDirections r)) hres
          rw [hrev]
          exact hinv.afterExpand (fun st hst => (mem_shuffleDirections r st).1 hst) hb

/-- Completeness of `findPathDfs` for bounds up to 3: if some route of at most
`maxSearchDistance` steps leads from the start to the goal, the search does not give up. -/
theorem findPathDfs_complete_small {fuel : Nat} {r r' : Rng} {p : List Location}
    (hne : startLoc ≠ endLoc) (hmax : 0 < maxSearchDistance) (hsmall : maxSearchDistance ≤ 3)
    (h : findPathDfs fuel g startLoc sentryLoc endLoc maxSearchDistance r = some (p, r'))
    {k : Nat} (hk : (k : Int) ≤ maxSearchDistance)
    (hreach : Reach (isPassable g sentryLoc) startLoc k endLoc) : p ≠ [] := by
  intro hp
  subst hp
  obtain ⟨vf, ef, f1, f2, f3, f4, f5, f6⟩ :=
    findPathDfsLoop_empty_seen hne hmax fuel _ [] [] r r' []
      (DfsInv.atStart _ _ _) DfsSeen.seenAtStart h
  have f6' : ∀ n, isAdjacent startLoc n = true → isPassable g sentryLoc n = true →
      (n, 1) ∈ ef := by
    intro n hadj hok
    rcases f6 with ⟨hs, _, _⟩ | f6
    · simp at hs
    · rcases f6 n hadj hok with h | h
      · exact h
      · simp at h
  have f4' : ∀ e ∈ ef, expands maxSearchDistance e.2 →
      ∀ n, isAdjacent e.1 n = true → isPassable g sentryLoc n = true → n ∈ vf := by
    intro e he hexp n hadj hok
    rcases f4 e he hexp n hadj hok with h | ⟨d, h⟩
    · exact h
    · simp at h
  have one : ∀ n, isAdjacent startLoc n = true → isPassable g sentryLoc n = true →
      n ≠ endLoc := by
    intro n hadj hok hn
    exact f1 (hn ▸ f2 _ (f6' n hadj hok))
  have two : ∀ n m, isAdjacent startLoc n = true → isPassable g sentryLoc n = true →
      isAdjacent n m = true → isPassable g sentryLoc m = true → 2 ≤ maxSearchDistance →
      m ∈ vf := by
    intro n m hadj hok hadj' hok' h2
    refine f4' _ (f6' n hadj hok) ?_ m hadj' hok'
    simp only [expands, not_and, not_lt, Nat.cast_one]
    intro _
    omega
  cases hreach with
  | here => exact hne rfl
  | @step k1 b1 _ hreach1 hadj1 hok1 =>
    cases hreach1 with
    | here => exact one _ hadj1 hok1 rfl
    | @step k2 b2 _ hreach2 hadj2 hok2 =>
      cases hreach2 with
      | here =>
        simp only [Nat.cast_add, Nat.cast_one, Nat.cast_zero] at hk
        exact f1 (two _ _ hadj2 hok2 hadj1 hok1 (by omega))
      | @step k3 b3 _ hreach3 hadj3 hok3 =>
        cases hreach3 with
        | here =>
          simp only [Nat.cast_add, Nat.cast_one, Nat.cast_zero] at hk
          have hb1 := two _ _ hadj3 hok3 hadj2 hok2 (by omega)
          obtain ⟨d2, hd2⟩ := f3 _ hb1
          obtain ⟨hpar, hwb, hzero⟩ := f5 _ (Or.inl hd2)
          simp only at hpar hwb hzero
          have hwb' := hwb hmax
          have hd2cases : d2 = 0 ∨ d2 = 2 := by
            simp only [isAdjacent, decide_eq_true_eq] at hadj3 hadj2
            simp only [sameParity] at hpar
            omega
          rcases hd2cases with h0 | h2
          · have := hzero h0
            subst this
            exact one _ hadj1 hok1 rfl
          · subst h2
            refine f1 (f4' _ hd2 ?_ _ hadj1 hok1)
            simp only [expands, not_and, not_lt]
            intro _
            simp only [Nat.cast_ofNat]
            omega
        | step _ _ _ =>
          simp only [Nat.cast_add, Nat.cast_one] at hk
          omega

end DepthFirstComplete

section BoundedSense

/-- Claim C3, counterexample. On `grid4x2` the route `(1,0), (2,0), (3,0)` leads from the
in-bounds start `(0, 0)` to the goal `(3, 0)` in 3 steps, yet `findPathDfs` with bound 4
returns the empty path for this random source: the search pops `(0,0)`, `(0,1)`, `(1,1)`,
`(1,0)` at depth 3 and `(2,0)` at depth 4, where it marks `(2, 0)` visited without expanding it;
the entries left, `(2,1)` at depth 3 and `(1,0)` at depth 1, have only visited or wall
neighbours, so `(2, 0)` is never entered again and the goal is never queued. -/
theorem findPathDfs_misses_route_at_bound_four :
    ∃ p r', findPathDfs 50 grid4x2 ⟨0, 0⟩ NullLocation ⟨3, 0⟩ 4
        (rngOfList [2, 2, 1, 3, 3, 3, 2, 3, 0, 2, 1, 3, 0, 0, 1, 3, 1, 3, 1, 2, 2, 2, 3, 3])
          = some (p, r')
      ∧ ¬(p ≠ [] ↔ ∃ route, IsRoute (isClearOf grid4x2 NullLocation) ⟨0, 0⟩ route
            ∧ (route.length : Int) ≤ 4 ∧ routeEnd ⟨0, 0⟩ route = ⟨3, 0⟩) := by
  refine ⟨[], ⟨_, 24⟩, rfl, ?_⟩
  intro h
  exact h.2 ⟨[⟨1, 0⟩, ⟨2, 0⟩, ⟨3, 0⟩], by decide, by decide, rfl⟩ rfl

/-- Claim C3, amended. For every grid, start, goal different from the start, avoided location,
bound `maxSearchDistance > 0` and random source, `findPathDfs` returns, and
* a non-empty result implies that a route of at most `maxSearchDistance` steps leads from the
  start to the goal through cells that are in bounds, not walls and neither equal nor adjacent to
  the avoided location (so without such a route the result is empty);
* when such a route exists and `maxSearchDistance ≤ 3`, the result is non-empty. -/
theorem findPathDfs_nonempty_iff_route_small_bound (g : Grid)
    (startLoc sentryLoc endLoc : Location) (maxSearchDistance : Int) (r : Rng)
    (hne : startLoc ≠ endLoc) (hmax : 0 < maxSearchDistance) :
    (∀ fuel, searchFuel g ≤ fuel →
        ∃ res, findPathDfs fuel g startLoc sentryLoc endLoc maxSearchDistance r = some res)
      ∧ ∀ fuel p r',
          findPathDfs fuel g startLoc sentryLoc endLoc maxSearchDistance r = some (p, r') →
          (p ≠ [] →
              ∃ route, IsRoute (isClearOf g sentryLoc) startLoc route
                ∧ (route.length : Int) ≤ maxSearchDistance ∧ routeEnd startLoc route = endLoc)
            ∧ (maxSearchDistance ≤ 3 →
                (∃ route, IsRoute (isClearOf g sentryLoc) startLoc route
                  ∧ (route.length : Int) ≤ maxSearchDistance
                  ∧ routeEnd startLoc route = endLoc) →
                p ≠ []) := by
  refine ⟨fun fuel hfuel => findPathDfs_terminates g _ _ _ _ r fuel hfuel, ?_⟩
  intro fuel p r' h
  constructor
  · intro hp
    obtain ⟨h1, h2, h3⟩ := findPathDfs_sound h hp
    have h1' : IsRoute (isClearOf g sentryLoc) startLoc p :=
      h1.imp (fun c hc => by rw [← isPassable_eq_isClearOf]; exact hc)
    exact ⟨p, h1', h3 hmax, h2⟩
  · rintro hsmall ⟨route, hroute, hlen, hend⟩
    have hroute' : IsRoute (isPassable g sentryLoc) startLoc route :=
      hroute.imp (fun c hc => by rw [isPassable_eq_isClearOf]; exact hc)
    have hreach := reach_of_isRoute hroute'
    rw [hend] at hreach
    exact findPathDfs_complete_small hne hmax hsmall h hlen hreach

set_option maxRecDepth 100000 in
/-- Witness for the amended C3: `grid4x2`, from `(0, 0)` to `(3, 0)` with bound 3. -/
theorem findPathDfs_nonempty_iff_route_small_bound_witness :
    (∀ fuel, searchFuel grid4x2 ≤ fuel →
        ∃ res, findPathDfs fuel grid4x2 ⟨0, 0⟩ NullLocation ⟨3, 0⟩ 3 (rngOfList [2]) = some res)
      ∧ ∀ fuel p r',
          findPathDfs fuel grid4x2 ⟨0, 0⟩ NullLocation ⟨3, 0⟩ 3 (rngOfList [2]) = some (p, r') →
          (p ≠ [] →
              ∃ route, IsRoute (isClearOf grid4x2 NullLocation) ⟨0, 0⟩ route
                ∧ (route.length : Int) ≤ 3 ∧ routeEnd ⟨0, 0⟩ route = ⟨3, 0⟩)
            ∧ ((3 : Int) ≤ 3 →
                (∃ route, IsRoute (isClearOf grid4x2 NullLocation) ⟨0, 0⟩ route
                  ∧ (route.length : Int) ≤ 3 ∧ routeEnd ⟨0, 0⟩ route = ⟨3, 0⟩) →
                p ≠ []) :=
  findPathDfs_nonempty_iff_route_small_bound grid4x2 ⟨0, 0⟩ NullLocation ⟨3, 0⟩ 3
    (rngOfList [2]) (by decide) (by decide)

end BoundedSense

section BreadthFirst

variable {ok : Location → Bool} {startLoc : Location} {maxSearchDistance : Int}

theorem Reach.sameParity {n : Nat} {c : Location} (h : Reach ok startLoc n c) :
    sameParity startLoc c n := by
  induction h with
  | here => simp [MazeRunner.sameParity]
  | step _ hadj _ ih => exact sameParity_step ih hadj

theorem reach_zero {c : Location} (h : Reach ok startLoc 0 c) : c = startLoc := by
  cases h
  rfl

theorem IsDist.dist_unique {c : Location} {d d' : Nat} (h : IsDist ok startLoc c d)
    (h' : IsDist ok startLoc c d') : d = d' :=
  Nat.le_antisymm (h.2 _ h'.1) (h'.2 _ h.1)

theorem isDist_start : IsDist ok startLoc startLoc 0 :=
  ⟨Reach.here, fun _ _ => Nat.zero_le _⟩

theorem IsDist.eq_start {c : Location} (h : IsDist ok startLoc c 0) : c = startLoc :=
  reach_zero h.1

theorem IsDist.ne_start {c : Location} {d : Nat} (h : IsDist ok startLoc c (d + 1)) :
    c ≠ startLoc := by
  intro hc
  subst hc
  have := h.dist_unique isDist_start
  omega

theorem withinBound_of_le {d d' : Nat} (h : withinBound maxSearchDistance d) (hle : d' ≤ d) :
    withinBound maxSearchDistance d' := by
  intro hpos
  have := h hpos
  omega

theorem withinBound_succ {d : Nat} (h : expands maxSearchDistance d) :
    withinBound maxSearchDistance (d + 1) := by
  intro hpos
  simp only [Nat.cast_add, Nat.cast_one]
  by_contra hcon
  exact h ⟨hpos, by omega⟩

theorem expands_of_withinBound_succ {d : Nat} (h : withinBound maxSearchDistance (d + 1)) :
    expands maxSearchDistance d := by
  rintro ⟨hpos, hgt⟩
  have := h hpos
  simp only [Nat.cast_add, Nat.cast_one] at this
  omega

theorem expands_of_le {d d' : Nat} (h : expands maxSearchDistance d) (hle : d' ≤ d) :
    expands maxSearchDistance d' := by
  rintro ⟨hpos, hgt⟩
  exact h ⟨hpos, by omega⟩

theorem visitedFromAt_cons (n c x : Location) (visitedFrom : List (Location × Location)) :
    visitedFromAt ((n, c) :: visitedFrom) x
      = if n = x then c else visitedFromAt visitedFrom x := by
  unfold visitedFromAt
  by_cases h : n = x
  · simp [List.find?_cons, h]
  · simp [List.find?_cons, h]

theorem isKey_cons_self (n c : Location) (visitedFrom : List (Location × Location)) :
    isKey ((n, c) :: visitedFrom) n := ⟨(n, c), List.mem_cons_self _ _, rfl⟩

theorem isKey_cons_of_isKey {n c x : Location} {visitedFrom : List (Location × Location)}
    (h : isKey visitedFrom x) : isKey ((n, c) :: visitedFrom) x := by
  obtain ⟨e, he, hx⟩ := h
  exact ⟨e, List.mem_cons_of_mem _ he, hx⟩

theorem isKey_of_isKey_cons {n c x : Location} {visitedFrom : List (Location × Location)}
    (h : isKey ((n, c) :: visitedFrom) x) (hne : n ≠ x) : isKey visitedFrom x := by
  obtain ⟨e, he, hx⟩ := h
  rcases List.mem_cons.1 he with rfl | he
  · exact absurd hx hne
  · exact ⟨e, he, hx⟩

/-- Every cell within reach is visited or has an ancestor still waiting in the queue. -/
theorem BfsInv.frontier {acc : BfsAcc} {visited : List Location}
    (h : BfsInv ok startLoc maxSearchDistance acc visited) {k : Nat} {n : Location}
    (hreach : Reach ok startLoc k n) (hk : withinBound maxSearchDistance k) :
    n ∈ visited ∨ ∃ e ∈ acc.locsToVisit, e.2 ≤ k := by
  induction hreach with
  | here =>
    rcases h.hasStart with hs | hs
    · exact Or.inl hs
    · exact Or.inr ⟨_, hs, Nat.le_refl _⟩
  | @step k b n hprev hadj hokn ih =>
    rcases ih (withinBound_of_le hk (Nat.le_succ _)) with hb | ⟨e, he, hle⟩
    · obtain ⟨dv, hdist, _, _, hclosed⟩ := h.closed b hb
      have hdv : dv ≤ k := hdist.2 _ hprev
      have hexp : expands maxSearchDistance dv :=
        expands_of_le (expands_of_withinBound_succ hk) hdv
      rcases hclosed hexp n hadj hokn with hn | ⟨d, hd⟩
      · exact Or.inl hn
      · exact Or.inr ⟨_, hd, (h.dist _ hd).1.2 _ (Reach.step hprev hadj hokn)⟩
    · exact Or.inr ⟨e, he, Nat.le_succ_of_le hle⟩

/-- A neighbour of the popped cell that is not visited yet lies exactly one step further. -/
theorem BfsInv.push_dist {c : Location} {d : Nat} {rest : List (Location × Nat)}
    {visitedFrom : List (Location × Location)} {farthest : Location × Nat}
    {visited : List Location}
    (h : BfsInv ok startLoc maxSearchDistance ⟨(c, d) :: rest, visitedFrom, farthest⟩ visited)
    {n : Location} (hadj : isAdjacent c n = true) (hokn : ok n = true)
    (hv : n ∉ c :: visited) : IsDist ok startLoc n (d + 1) := by
  obtain ⟨hcd, hwb⟩ := h.dist (c, d) (List.mem_cons_self _ _)
  have hreach : Reach ok startLoc (d + 1) n := Reach.step hcd.1 hadj hokn
  refine ⟨hreach, ?_⟩
  intro k hk
  by_contra hlt
  have hpar1 := hk.sameParity
  have hpar2 := hreach.sameParity
  have hkd : k < d := by
    simp only [sameParity, Nat.cast_add, Nat.cast_one] at hpar1 hpar2
    omega
  rcases h.frontier hk (withinBound_of_le hwb (Nat.le_of_lt hkd)) with hn | ⟨e, he, hle⟩
  · exact hv (List.mem_cons_of_mem _ hn)
  · have hsorted := h.sorted
    simp only [List.pairwise_cons] at hsorted
    rcases List.mem_cons.1 he with rfl | he
    · simp only at hle
      omega
    · have := hsorted.1 e he
      simp only at this
      omega

end BreadthFirst

section BreadthFirstLoop

variable {g : Grid} {sentryLoc startLoc : Location} {maxSearchDistance : Int}

theorem BfsInv.start_mem {c : Location} {d : Nat} {rest : List (Location × Nat)}
    {visitedFrom : List (Location × Location)} {farthest : Location × Nat}
    {visited : List Location} {ok : Location → Bool}
    (h : BfsInv ok startLoc maxSearchDistance ⟨(c, d) :: rest, visitedFrom, farthest⟩ visited) :
    startLoc ∈ c :: visited := by
  rcases h.hasStart with hs | hs
  · exact List.mem_cons_of_mem _ hs
  · have hsorted := h.sorted
    simp only [List.pairwise_cons] at hsorted
    rcases List.mem_cons.1 hs with heq | hs
    · simp only [Prod.mk.injEq] at heq
      rw [heq.1]
      exact List.mem_cons_self _ _
    · have hd : d = 0 := by
        have := hsorted.1 _ hs
        simp only at this
        omega
      subst hd
      have := (h.dist (c, 0) (List.mem_cons_self _ _)).1.eq_start
      simp only at this
      rw [this]
      exact List.mem_cons_self _ _

theorem BfsInv.toPushInv {c : Location} {d : Nat} {rest : List (Location × Nat)}
    {visitedFrom : List (Location × Location)} {farthest : Location × Nat}
    {visited : List Location} {ok : Location → Bool}
    (h : BfsInv ok startLoc maxSearchDistance ⟨(c, d) :: rest, visitedFrom, farthest⟩ visited) :
    BfsPushInv ok startLoc maxSearchDistance visited c d ⟨rest, visitedFrom, farthest⟩ := by
  have hsorted := h.sorted
  simp only [List.pairwise_cons] at hsorted
  have hhead : (c, d) ∈ (c, d) :: rest := List.mem_cons_self _ _
  refine ⟨?_, hsorted.2, ?_, ?_, ?_, h.pred, h.farOk, ?_⟩
  · intro e he
    have h1 := h.dist e (List.mem_cons_of_mem _ he)
    have h2 := hsorted.1 e he
    have h3 := h.spread (c, d) hhead e (List.mem_cons_of_mem _ he)
    exact ⟨h1.1, h1.2, h2, h3⟩
  · intro v hv
    obtain ⟨dv, h1, h2, h3, h4⟩ := h.closed v hv
    refine ⟨dv, h1, h2 (c, d) hhead, h3, ?_⟩
    intro hexp n hadj hokn
    rcases h4 hexp n hadj hokn with hn | ⟨d', hd'⟩
    · exact Or.inl (List.mem_cons_of_mem _ hn)
    · rcases List.mem_cons.1 hd' with heq | hd'
      · left
        simp only [Prod.mk.injEq] at heq
        rw [heq.1]
        exact List.mem_cons_self _ _
      · exact Or.inr ⟨d', hd'⟩
  · intro e he
    exact h.keys e (List.mem_cons_of_mem _ he)
  · exact h.keys (c, d) hhead
  · exact ⟨fun e he => h.farMax e (List.mem_cons_of_mem _ he), h.farMax (c, d) hhead⟩

theorem PredOk.insert {ok : Location → Bool} {visitedFrom : List (Location × Location)}
    {n c : Location} {d : Nat} (h : PredOk ok startLoc visitedFrom)
    (hn : IsDist ok startLoc n (d + 1)) (hc : IsDist ok startLoc c d)
    (hadj : isAdjacent c n = true) (hokn : ok n = true)
    (hkey : c = startLoc ∨ isKey visitedFrom c) :
    PredOk ok startLoc ((n, c) :: visitedFrom) := by
  intro x hx
  by_cases hnx : n = x
  · subst hnx
    right
    refine ⟨d, hn, ?_, ?_, hokn, ?_⟩
    · rw [visitedFromAt_cons, if_pos rfl]
      exact hc
    · rw [visitedFromAt_cons, if_pos rfl]
      exact hadj
    · rw [visitedFromAt_cons, if_pos rfl]
      rcases hkey with hk | hk
      · exact Or.inl hk
      · exact Or.inr (isKey_cons_of_isKey hk)
  · rcases h x (isKey_of_isKey_cons hx hnx) with hs | ⟨d', h1, h2, h3, h4, h5⟩
    · exact Or.inl hs
    · right
      rw [visitedFromAt_cons, if_neg hnx]
      refine ⟨d', h1, h2, h3, h4, ?_⟩
      rcases h5 with hk | hk
      · exact Or.inl hk
      · exact Or.inr (isKey_cons_of_isKey hk)

theorem BfsPushInv.push {visited : List Location} {c : Location} {d : Nat} {acc : BfsAcc}
    (h : BfsPushInv (isPassable g sentryLoc) startLoc maxSearchDistance visited c d acc)
    (hcd : IsDist (isPassable g sentryLoc) startLoc c d)
    (hexp : expands maxSearchDistance d)
    (hmin : ∀ n, isAdjacent c n = true → isPassable g sentryLoc n = true → n ∉ c :: visited →
      IsDist (isPassable g sentryLoc) startLoc n (d + 1))
    {st : Direction} (hst : st ∈ [Left, Right, Up, Down]) :
    BfsPushInv (isPassable g sentryLoc) startLoc maxSearchDistance visited c d
      (bfsPush g sentryLoc (c :: visited) c d acc st) := by
  unfold bfsPush
  split
  · rename_i hcan
    rw [canVisit_eq, Bool.and_eq_true] at hcan
    have hokn := hcan.1
    have hnv : stepFrom c st ∉ c :: visited := by simpa using hcan.2
    have hadj := isAdjacent_stepFrom c st hst
    have hn := hmin _ hadj hokn hnv
    refine ⟨?_, ?_, ?_, ?_, ?_, ?_, ?_, ?_⟩
    · intro e he
      simp only [List.mem_append, List.mem_singleton] at he
      rcases he with he | rfl
      · exact h.dist e he
      · exact ⟨hn, withinBound_succ hexp, Nat.le_succ _, Nat.le_refl _⟩
    · simp only
      rw [List.pairwise_append]
      refine ⟨h.sorted, List.pairwise_singleton _ _, ?_⟩
      intro e he e' he'
      rw [List.mem_singleton] at he'
      subst he'
      exact (h.dist e he).2.2.2
    · intro v hv
      obtain ⟨dv, h1, h2, h3, h4⟩ := h.closed v hv
      refine ⟨dv, h1, h2, ?_, ?_⟩
      · simp only
        split <;> omega
      · intro hexp' n hadj' hokn'
        rcases h4 hexp' n hadj' hokn' with hn' | ⟨d', hd'⟩
        · exact Or.inl hn'
        · exact Or.inr ⟨d', List.mem_append_left _ hd'⟩
    · intro e he
      simp only [List.mem_append, List.mem_singleton] at he
      rcases he with he | rfl
      · rcases h.keys e he with hk | hk
        · exact Or.inl hk
        · exact Or.inr (isKey_cons_of_isKey hk)
      · exact Or.inr (isKey_cons_self _ _ _)
    · rcases h.curKey with hk | hk
      · exact Or.inl hk
      · exact Or.inr (isKey_cons_of_isKey hk)
    · exact h.pred.insert hn hcd hadj hokn h.curKey
    · simp only
      split
      · exact ⟨hn, Or.inr (isKey_cons_self _ _ _), withinBound_succ hexp⟩
      · obtain ⟨f1, f2, f3⟩ := h.farOk
        refine ⟨f1, ?_, f3⟩
        rcases f2 with hk | hk
        · exact Or.inl hk
        · exact Or.inr (isKey_cons_of_isKey hk)
    · simp only
      constructor
      · intro e he
        simp only [List.mem_append, List.mem_singleton] at he
        rcases he with he | rfl
        · have := h.farMax.1 e he
          split <;> omega
        · simp only
          split <;> omega
      · have := h.farMax.2
        split <;> omega
  · exact h

theorem BfsPushInv.foldl {visited : List Location} {c : Location} {d : Nat}
    (hcd : IsDist (isPassable g sentryLoc) startLoc c d)
    (hexp : expands maxSearchDistance d)
    (hmin : ∀ n, isAdjacent c n = true → isPassable g sentryLoc n = true → n ∉ c :: visited →
      IsDist (isPassable g sentryLoc) startLoc n (d + 1))
    (steps : List Direction) (hsteps : ∀ st ∈ steps, st ∈ [Left, Right, Up, Down]) :
    ∀ acc : BfsAcc,
      BfsPushInv (isPassable g sentryLoc) startLoc maxSearchDistance visited c d acc →
      BfsPushInv (isPassable g sentryLoc) startLoc maxSearchDistance visited c d
        (steps.foldl (bfsPush g sentryLoc (c :: visited) c d) acc) := by
  induction steps with
  | nil => exact fun _ h => h
  | cons st steps ih =>
    intro acc h
    rw [List.foldl_cons]
    exact ih (fun st' hst' => hsteps st' (List.mem_cons_of_mem _ hst')) _
      (h.push hcd hexp hmin (hsteps st (List.mem_cons_self _ _)))

theorem bfsPush_foldl_queue (visited : List Location) (c : Location) (d : Nat)
    (steps : List Direction) (acc : BfsAcc) :
    (steps.foldl (bfsPush g sentryLoc visited c d) acc).locsToVisit
      = acc.locsToVisit ++ (steps.filter
          (fun st => canVisit g sentryLoc visited (stepFrom c st))).map
            (fun st => (stepFrom c st, d + 1)) := by
  induction steps generalizing acc with
  | nil => simp
  | cons st steps ih =>
    rw [List.foldl_cons, ih, List.filter_cons]
    unfold bfsPush
    split <;> simp

theorem BfsPushInv.toInv {ok : Location → Bool} {visited : List Location} {c : Location}
    {d : Nat} {acc : BfsAcc}
    (h : BfsPushInv ok startLoc maxSearchDistance visited c d acc)
    (hcd : IsDist ok startLoc c d) (hstart : startLoc ∈ c :: visited)
    (hclosed : expands maxSearchDistance d → ∀ n, isAdjacent c n = true → ok n = true →
      n ∈ c :: visited ∨ ∃ d', (n, d') ∈ acc.locsToVisit) :
    BfsInv ok startLoc maxSearchDistance acc (c :: visited) := by
  refine ⟨?_, h.sorted, ?_, ?_, Or.inl hstart, h.keys, h.pred, h.farOk, h.farMax.1⟩
  · intro e he
    exact ⟨(h.dist e he).1, (h.dist e he).2.1⟩
  · intro e he e' he'
    have h1 := (h.dist e he).2.2.1
    have h2 := (h.dist e' he').2.2.2
    omega
  · intro v hv
    rcases List.mem_cons.1 hv with rfl | hv
    · exact ⟨d, hcd, fun e he => (h.dist e he).2.2.1, h.farMax.2, hclosed⟩
    · obtain ⟨dv, h1, h2, h3, h4⟩ := h.closed v hv
      refine ⟨dv, h1, ?_, h3, h4⟩
      intro e he
      have := (h.dist e he).2.2.1
      omega

/-- The loop of `findLongestPathBfs` keeps its invariant and ends with an empty queue. -/
theorem findLongestPathBfsLoop_inv :
    ∀ (fuel : Nat) (acc : BfsAcc) (visited : List Location) (r : Rng) (acc' : BfsAcc) (r' : Rng),
      BfsInv (isPassable g sentryLoc) startLoc maxSearchDistance acc visited →
      findLongestPathBfsLoop g sentryLoc maxSearchDistance fuel acc visited r = some (acc', r') →
      acc'.locsToVisit = []
        ∧ ∃ visited', BfsInv (isPassable g sentryLoc) startLoc maxSearchDistance acc' visited' := by
  intro fuel
  induction fuel with
  | zero =>
    intro acc visited r acc' r' hinv hres
    obtain ⟨queue, visitedFrom, farthest⟩ := acc
    cases queue with
    | nil =>
      simp only [findLongestPathBfsLoop, Option.some.injEq, Prod.mk.injEq] at hres
      rw [← hres.1]
      exact ⟨rfl, visited, hinv⟩
    | cons e rest => simp [findLongestPathBfsLoop] at hres
  | succ fuel ih =>
    intro acc visited r acc' r' hinv hres
    obtain ⟨queue, visitedFrom, farthest⟩ := acc
    cases queue with
    | nil =>
      simp only [findLongestPathBfsLoop, Option.some.injEq, Prod.mk.injEq] at hres
      rw [← hres.1]
      exact ⟨rfl, visited, hinv⟩
    | cons e rest =>
      obtain ⟨c, d⟩ := e
      have hcd := (hinv.dist (c, d) (List.mem_cons_self _ _)).1
      simp only [findLongestPathBfsLoop] at hres
      split at hres
      · rename_i hb
        refine ih _ _ _ _ _ ?_ hres
        exact hinv.toPushInv.toInv hcd hinv.start_mem (fun hexp => absurd hb hexp)
      · rename_i hb
        refine ih _ _ _ _ _ ?_ hres
        have hpush := BfsPushInv.foldl hcd hb
          (fun n hadj hokn hv => hinv.push_dist hadj hokn hv)
          (shuffleDirections [Left, Right, Up, Down] 4 r).1
          (fun st hst => (mem_shuffleDirections r st).1 hst) _ hinv.toPushInv
        refine hpush.toInv hcd hinv.start_mem ?_
        intro _ n hadj hokn
        by_cases hv : n ∈ c :: visited
        · exact Or.inl hv
        · right
          refine ⟨d + 1, ?_⟩
          obtain ⟨st, hst, rfl⟩ := exists_step_of_isAdjacent c n hadj
          rw [bfsPush_foldl_queue]
          apply List.mem_append_right
          rw [List.mem_map]
          refine ⟨st, ?_, rfl⟩
          rw [List.mem_filter]
          refine ⟨(mem_shuffleDirections r st).2 hst, ?_⟩
          rw [canVisit_eq, hokn]
          simpa using hv

end BreadthFirstLoop

section BreadthFirstResult

variable {g : Grid} {sentryLoc startLoc : Location} {maxSearchDistance : Int}

theorem findLongestPathBfsLoop_terminates :
    ∀ (fuel : Nat) (acc : BfsAcc) (visited : List Location) (r : Rng),
      searchMeasure g visited acc.locsToVisit ≤ fuel →
      ∃ res, findLongestPathBfsLoop g sentryLoc maxSearchDistance fuel acc visited r
        = some res := by
  intro fuel
  induction fuel with
  | zero =>
    intro acc visited r h
    obtain ⟨queue, visitedFrom, farthest⟩ := acc
    cases queue with
    | nil => exact ⟨_, rfl⟩
    | cons e rest =>
      exfalso
      have := entryWeight_pos g visited e.1
      simp only [searchMeasure, List.map_cons, List.sum_cons] at h
      omega
  | succ fuel ih =>
    intro acc visited r h
    obtain ⟨queue, visitedFrom, farthest⟩ := acc
    cases queue with
    | nil => exact ⟨_, rfl⟩
    | cons e rest =>
      obtain ⟨c, d⟩ := e
      simp only [findLongestPathBfsLoop]
      split
      · apply ih
        have := searchMeasure_step g visited c d rest [] (by simp) (by simp)
        simp only [searchMeasure, List.map_nil, List.sum_nil, Nat.zero_add] at this h ⊢
        omega
      · apply ih
        rw [bfsPush_foldl_queue, searchMeasure_append]
        have := searchMeasure_step g visited c d rest
          (((shuffleDirections [Left, Right, Up, Down] 4 r).1.filter
            (fun st => canVisit g sentryLoc (c :: visited) (stepFrom c st))).map
              (fun st => (stepFrom c st, d + 1)))
          (by
            rw [List.length_map]
            exact Nat.le_trans (List.length_filter_le _ _)
              (Nat.le_of_eq (shuffleDirections_length r)))
          (by
            intro e he
            simp only [List.mem_map, List.mem_filter] at he
            obtain ⟨st, ⟨_, hcan⟩, rfl⟩ := he
            exact canVisit_inBounds hcan)
        simp only at h ⊢
        omega

theorem bfsPush_foldl_far_le (visited : List Location) (c : Location) (d : Nat)
    (steps : List Direction) (acc : BfsAcc) (i : Nat)
    (h : acc.farthestLocAndDist.2 ≤ i) (hd : d + 1 ≤ i) :
    (steps.foldl (bfsPush g sentryLoc visited c d) acc).farthestLocAndDist.2 ≤ i := by
  induction steps generalizing acc with
  | nil => exact h
  | cons st steps ih =>
    rw [List.foldl_cons]
    apply ih
    unfold bfsPush
    split
    · simp only
      split
      · exact hd
      · exact h
    · exact h

/-- The farthest distance the loop records is at most the number of iterations it ran. -/
theorem findLongestPathBfsLoop_far_le :
    ∀ (fuel : Nat) (acc : BfsAcc) (visited : List Location) (r : Rng) (acc' : BfsAcc) (r' : Rng)
      (i : Nat),
      (∀ e ∈ acc.locsToVisit, e.2 ≤ i) → acc.farthestLocAndDist.2 ≤ i →
      findLongestPathBfsLoop g sentryLoc maxSearchDistance fuel acc visited r = some (acc', r') →
      acc'.farthestLocAndDist.2 ≤ i + fuel := by
  intro fuel
  induction fuel with
  | zero =>
    intro acc visited r acc' r' i _ hfar hres
    obtain ⟨queue, visitedFrom, farthest⟩ := acc
    cases queue with
    | nil =>
      simp only [findLongestPathBfsLoop, Option.some.injEq, Prod.mk.injEq] at hres
      rw [← hres.1]
      exact hfar
    | cons e rest => simp [findLongestPathBfsLoop] at hres
  | succ fuel ih =>
    intro acc visited r acc' r' i hq hfar hres
    obtain ⟨queue, visitedFrom, farthest⟩ := acc
    cases queue with
    | nil =>
      simp only [findLongestPathBfsLoop, Option.some.injEq, Prod.mk.injEq] at hres
      rw [← hres.1]
      exact Nat.le_trans hfar (Nat.le_add_right _ _)
    | cons e rest =>
      obtain ⟨c, d⟩ := e
      have hd : d ≤ i := hq (c, d) (List.mem_cons_self _ _)
      simp only [findLongestPathBfsLoop] at hres
      split at hres
      · have := ih ⟨rest, visitedFrom, farthest⟩ _ _ _ _ (i + 1)
          (fun e he => Nat.le_succ_of_le (hq e (List.mem_cons_of_mem _ he)))
          (Nat.le_succ_of_le hfar) hres
        omega
      · have := ih _ _ _ _ _ (i + 1) ?_ ?_ hres
        · omega
        · intro e he
          rw [bfsPush_foldl_queue] at he
          simp only [List.mem_append, List.mem_map, List.mem_filter] at he
          rcases he with he | ⟨st, _, rfl⟩
          · exact Nat.le_succ_of_le (hq e (List.mem_cons_of_mem _ he))
          · simp only
            omega
        · exact bfsPush_foldl_far_le _ _ _ _ _ _ (Nat.le_succ_of_le hfar) (by omega)

/-- Walking the predecessors from a cell at distance `d` yields a route of `d` steps. -/
theorem buildPathLoop_spec {ok : Location → Bool} {visitedFrom : List (Location × Location)}
    (hpred : PredOk ok startLoc visitedFrom) :
    ∀ (d : Nat) (x : Location), IsDist ok startLoc x d →
      (x = startLoc ∨ isKey visitedFrom x) →
      ∀ (fuel : Nat) (path : List Location),
        (d ≤ fuel → ∃ res, buildPathLoop startLoc visitedFrom fuel x path = some res)
          ∧ ∀ res, buildPathLoop startLoc visitedFrom fuel x path = some res →
              ∃ route, res = route ++ path ∧ IsRoute ok startLoc route ∧ route.length = d
                ∧ routeEnd startLoc route = x := by
  intro d
  induction d with
  | zero =>
    intro x hx _ fuel path
    have hxs : x = startLoc := hx.eq_start
    subst hxs
    have hres : buildPathLoop x visitedFrom fuel x path = some path := by
      cases fuel <;> simp [buildPathLoop]
    refine ⟨fun _ => ⟨_, hres⟩, ?_⟩
    intro res h
    rw [hres] at h
    simp only [Option.some.injEq] at h
    exact ⟨[], by simp [h], isRoute_nil, rfl, rfl⟩
  | succ d ih =>
    intro x hx hkey fuel path
    have hne : x ≠ startLoc := hx.ne_start
    have hkey' : isKey visitedFrom x := by
      rcases hkey with h | h
      · exact absurd h hne
      · exact h
    rcases hpred x hkey' with h | ⟨d', h1, h2, h3, h4, h5⟩
    · exact absurd h hne
    · have hdd : d' = d := by
        have := h1.dist_unique hx
        omega
      subst hdd
      cases fuel with
      | zero =>
        refine ⟨fun h => by omega, ?_⟩
        intro res h
        simp [buildPathLoop, hne] at h
      | succ fuel =>
        have hstep : buildPathLoop startLoc visitedFrom (fuel + 1) x path
            = buildPathLoop startLoc visitedFrom fuel (visitedFromAt visitedFrom x)
                (x :: path) := by
          simp [buildPathLoop, hne]
        obtain ⟨ih1, ih2⟩ := ih (visitedFromAt visitedFrom x) h2 h5 fuel (x :: path)
        rw [hstep]
        refine ⟨fun h => ih1 (by omega), ?_⟩
        intro res h
        obtain ⟨route, hres, hroute, hlen, hend⟩ := ih2 res h
        refine ⟨route ++ [x], by simp [hres], ?_, by simp [hlen], ?_⟩
        · rw [isRoute_append, hend, isRoute_cons]
          exact ⟨hroute, h3, h4, isRoute_nil⟩
        · simp [routeEnd_append, routeEnd]

theorem BfsInv.bfsAtStart {ok : Location → Bool} :
    BfsInv ok startLoc maxSearchDistance
      ⟨[(startLoc, 0)], [(startLoc, startLoc)], (startLoc, 0)⟩ [] := by
  have hwb : withinBound maxSearchDistance 0 := by
    intro h
    simp only [Nat.cast_zero]
    omega
  refine ⟨?_, List.pairwise_singleton _ _, ?_, by simp, Or.inr (by simp), ?_, ?_,
    ⟨isDist_start, Or.inl rfl, hwb⟩, ?_⟩
  · intro e he
    simp only [List.mem_singleton] at he
    subst he
    exact ⟨isDist_start, hwb⟩
  · intro e he e' he'
    simp only [List.mem_singleton] at he he'
    subst he he'
    exact Nat.le_succ _
  · intro e he
    simp only [List.mem_singleton] at he
    subst he
    exact Or.inl rfl
  · intro n hn
    obtain ⟨e, he, hn'⟩ := hn
    simp only [List.mem_singleton] at he
    subst he
    exact Or.inl hn'.symm
  · intro e he
    simp only [List.mem_singleton] at he
    subst he
    exact Nat.le_refl _

/-- What `findLongestPathBfs` returns: a shortest route from the start to a cell at the largest
distance any cell within the bound has. -/
theorem findLongestPathBfs_spec {fuel : Nat} {r r' : Rng} {p : List Location}
    (h : findLongestPathBfs fuel g startLoc sentryLoc maxSearchDistance r = some (p, r')) :
    IsRoute (isPassable g sentryLoc) startLoc p
      ∧ IsDist (isPassable g sentryLoc) startLoc (routeEnd startLoc p) p.length
      ∧ withinBound maxSearchDistance p.length
      ∧ ∀ n k, IsDist (isPassable g sentryLoc) startLoc n k →
          withinBound maxSearchDistance k → k ≤ p.length := by
  unfold findLongestPathBfs at h
  split at h
  · exact absurd h (by simp)
  · rename_i acc r1 hloop
    obtain ⟨hq, visited, hinv⟩ :=
      findLongestPathBfsLoop_inv fuel _ [] r acc r1 BfsInv.bfsAtStart hloop
    have hmaxi : ∀ n k, IsDist (isPassable g sentryLoc) startLoc n k →
        withinBound maxSearchDistance k → k ≤ acc.farthestLocAndDist.2 := by
      intro n k hnk hk
      rcases hinv.frontier hnk.1 hk with hn | ⟨e, he, _⟩
      · obtain ⟨dv, h1, _, h3, _⟩ := hinv.closed n hn
        have := h1.dist_unique hnk
        omega
      · rw [hq] at he
        simp at he
    obtain ⟨f1, f2, f3⟩ := hinv.farOk
    split at h
    · rename_i h0
      simp only [Option.some.injEq, Prod.mk.injEq] at h
      rw [← h.1]
      refine ⟨isRoute_nil, isDist_start, ?_, ?_⟩
      · exact withinBound_of_le f3 (Nat.zero_le _)
      · intro n k hnk hk
        have := hmaxi n k hnk hk
        simp only [List.length_nil]
        omega
    · split at h
      · exact absurd h (by simp)
      · rename_i path hbuild
        simp only [Option.some.injEq, Prod.mk.injEq] at h
        obtain ⟨route, hres, hroute, hlen, hend⟩ :=
          (buildPathLoop_spec hinv.pred _ _ f1 f2 fuel []).2 path hbuild
        rw [List.append_nil] at hres
        rw [← h.1, hres, hlen, hend]
        exact ⟨hroute, f1, f3, hmaxi⟩

theorem findLongestPathBfs_terminates (g : Grid) (startLoc sentryLoc : Location)
    (maxSearchDistance : Int) (r : Rng) (fuel : Nat) (hfuel : searchFuel g ≤ fuel) :
    ∃ res, findLongestPathBfs fuel g startLoc sentryLoc maxSearchDistance r = some res := by
  obtain ⟨⟨acc, r1⟩, hloop⟩ :=
    @findLongestPathBfsLoop_terminates g sentryLoc maxSearchDistance fuel
      ⟨[(startLoc, 0)], [(startLoc, startLoc)], (startLoc, 0)⟩ [] r
      (Nat.le_trans (searchMeasure_initial g startLoc) hfuel)
  obtain ⟨_, visited, hinv⟩ :=
    findLongestPathBfsLoop_inv fuel _ [] r acc r1 BfsInv.bfsAtStart hloop
  have hfar := findLongestPathBfsLoop_far_le fuel _ [] r acc r1 0 (by simp) (by simp) hloop
  unfold findLongestPathBfs
  rw [hloop]
  simp only
  split
  · exact ⟨_, rfl⟩
  · obtain ⟨f1, f2, _⟩ := hinv.farOk
    obtain ⟨path, hpath⟩ :=
      (buildPathLoop_spec hinv.pred _ _ f1 f2 fuel []).1 (by omega)
    rw [hpath]
    exact ⟨_, rfl⟩

end BreadthFirstResult

section FarthestPath

theorem isDist_iff_shortest (g : Grid) (avoid startLoc c : Location) (k : Nat) :
    IsDist (isPassable g avoid) startLoc c k ↔ IsShortestDistance g avoid startLoc c k := by
  have hfun : isPassable g avoid = isClearOf g avoid :=
    funext (isPassable_eq_isClearOf g avoid)
  rw [hfun]
  constructor
  · rintro ⟨h1, h2⟩
    obtain ⟨route, hroute, hlen, hend⟩ := exists_isRoute_of_reach h1
    refine ⟨⟨route, hroute, hend, hlen⟩, ?_⟩
    intro route' hroute' hend'
    have := reach_of_isRoute hroute'
    rw [hend'] at this
    exact h2 _ this
  · rintro ⟨⟨route, hroute, hend, hlen⟩, h2⟩
    have h1 := reach_of_isRoute hroute
    rw [hend, hlen] at h1
    refine ⟨h1, ?_⟩
    intro k' hk'
    obtain ⟨route', hroute', hlen', hend'⟩ := exists_isRoute_of_reach hk'
    have := h2 route' hroute' hend'
    omega

theorem IsDist.exists_le {ok : Location → Bool} {startLoc : Location} :
    ∀ (k : Nat) (c : Location), IsDist ok startLoc c k →
      ∀ j, j ≤ k → ∃ b, IsDist ok startLoc b j := by
  intro k
  induction k with
  | zero =>
    intro c h j hj
    have : j = 0 := by omega
    subst this
    exact ⟨c, h⟩
  | succ k ih =>
    intro c h j hj
    by_cases hjk : j = k + 1
    · subst hjk
      exact ⟨c, h⟩
    · obtain ⟨h1, h2⟩ := h
      cases h1 with
      | @step _ b _ hprev hadj hokc =>
        refine ih b ⟨hprev, ?_⟩ j (by omega)
        intro k' hk'
        have := h2 _ (Reach.step hk' hadj hokc)
        omega

theorem isMaxDepth_of_spec {g : Grid} {avoid startLoc : Location} {maxSearchDistance : Int}
    {p : List Location}
    (h1 : IsDist (isPassable g avoid) startLoc (routeEnd startLoc p) p.length)
    (h2 : withinBound maxSearchDistance p.length)
    (h3 : ∀ n k, IsDist (isPassable g avoid) startLoc n k →
      withinBound maxSearchDistance k → k ≤ p.length) :
    IsMaxDepth g avoid startLoc maxSearchDistance p.length := by
  constructor
  · refine ⟨_, _, (isDist_iff_shortest g avoid startLoc _ _).1 h1, ?_⟩
    unfold cappedDepth
    split
    · rename_i hpos
      have := h2 hpos
      omega
    · rfl
  · intro c k hck
    rw [← isDist_iff_shortest] at hck
    unfold cappedDepth
    split
    · rename_i hpos
      by_cases hk : (k : Int) ≤ maxSearchDistance
      · have := h3 c k hck (fun _ => hk)
        omega
      · obtain ⟨b, hb⟩ := hck.exists_le k c maxSearchDistance.toNat (by omega)
        have := h3 b _ hb (fun _ => by omega)
        omega
    · rename_i hpos
      exact h3 c k hck (fun h => absurd h hpos)

theorem IsMaxDepth.depth_unique {g : Grid} {avoid startLoc : Location} {maxSearchDistance : Int}
    {a b : Nat} (ha : IsMaxDepth g avoid startLoc maxSearchDistance a)
    (hb : IsMaxDepth g avoid startLoc maxSearchDistance b) : a = b := by
  obtain ⟨⟨c1, k1, h1, e1⟩, m1⟩ := ha
  obtain ⟨⟨c2, k2, h2, e2⟩, m2⟩ := hb
  have := m1 c2 k2 h2
  have := m2 c1 k1 h1
  omega

theorem findLongestPathBfs_isMaxDepth {fuel : Nat} {g : Grid} {startLoc sentryLoc : Location}
    {maxSearchDistance : Int} {r r' : Rng} {p : List Location}
    (h : findLongestPathBfs fuel g startLoc sentryLoc maxSearchDistance r = some (p, r')) :
    IsMaxDepth g sentryLoc startLoc maxSearchDistance p.length :=
  isMaxDepth_of_spec (findLongestPathBfs_spec h).2.1 (findLongestPathBfs_spec h).2.2.1
    (findLongestPathBfs_spec h).2.2.2

/-- Claim C6. For every grid, start, avoided location, bound and random source,
`findLongestPathBfs` returns, and the length of the returned path is the maximum breadth-first
depth reachable from the start: the largest shortest-route distance from the start to any cell
reachable through cells that are in bounds, not walls and neither equal nor adjacent to the
avoided location, capped at `maxSearchDistance` when that is positive.  The result is empty
exactly when that maximum is 0, and the length is the same for every random source. -/
theorem findLongestPathBfs_length_is_max_depth (g : Grid) (startLoc sentryLoc : Location)
    (maxSearchDistance : Int) (r : Rng) :
    (∀ fuel, searchFuel g ≤ fuel →
        ∃ res, findLongestPathBfs fuel g startLoc sentryLoc maxSearchDistance r = some res)
      ∧ ∀ fuel p r',
          findLongestPathBfs fuel g startLoc sentryLoc maxSearchDistance r = some (p, r') →
          IsMaxDepth g sentryLoc startLoc maxSearchDistance p.length
            ∧ (p = [] ↔ IsMaxDepth g sentryLoc startLoc maxSearchDistance 0)
            ∧ ∀ fuel2 r2 p2 r2',
                findLongestPathBfs fuel2 g startLoc sentryLoc maxSearchDistance r2
                  = some (p2, r2') →
                p2.length = p.length := by
  refine ⟨fun fuel hfuel => findLongestPathBfs_terminates g _ _ _ r fuel hfuel, ?_⟩
  intro fuel p r' h
  have hmax := findLongestPathBfs_isMaxDepth h
  refine ⟨hmax, ?_, ?_⟩
  · constructor
    · intro hp
      rw [hp] at hmax
      exact hmax
    · intro h0
      exact List.length_eq_zero.1 (hmax.depth_unique h0)
  · intro fuel2 r2 p2 r2' h2
    exact (findLongestPathBfs_isMaxDepth h2).depth_unique hmax

/-- Witness for C6: on `grid4x2` the farthest cells from `(0, 0)` are 3 steps away. -/
theorem findLongestPathBfs_length_is_max_depth_witness :
    findLongestPathBfs 50 grid4x2 ⟨0, 0⟩ NullLocation (-1) (rngOfList [3])
        = some ([⟨1, 0⟩, ⟨2, 0⟩, ⟨2, 1⟩], ⟨fun i => ([3] : List Nat).getD i 0, 40⟩)
      ∧ IsMaxDepth grid4x2 NullLocation ⟨0, 0⟩ (-1)
          ([⟨1, 0⟩, ⟨2, 0⟩, ⟨2, 1⟩] : List Location).length
      ∧ (([⟨1, 0⟩, ⟨2, 0⟩, ⟨2, 1⟩] : List Location) = []
          ↔ IsMaxDepth grid4x2 NullLocation ⟨0, 0⟩ (-1) 0)
      ∧ ∀ fuel2 r2 p2 r2',
          findLongestPathBfs fuel2 grid4x2 ⟨0, 0⟩ NullLocation (-1) r2 = some (p2, r2') →
          p2.length = ([⟨1, 0⟩, ⟨2, 0⟩, ⟨2, 1⟩] : List Location).length :=
  ⟨rfl,
    (findLongestPathBfs_length_is_max_depth grid4x2 ⟨0, 0⟩ NullLocation (-1) (rngOfList [3])).2
      50 [⟨1, 0⟩, ⟨2, 0⟩, ⟨2, 1⟩] ⟨fun i => ([3] : List Nat).getD i 0, 40⟩ rfl⟩

end FarthestPath

section ExitPlacement

theorem routeEnd_mem {a : Location} {p : List Location} (h : p ≠ []) : routeEnd a p ∈ p := by
  induction p generalizing a with
  | nil => exact absurd rfl h
  | cons b rest ih =>
    cases rest with
    | nil => simp [routeEnd]
    | cons c rest' =>
      rw [routeEnd]
      exact List.mem_cons_of_mem _ (ih (by simp))

end ExitPlacement

section Orchestrator

/-- The runner's move touches only the runner's own fields and the random source. -/
theorem moveRunner_frame {fuel : Nat} {s s1 : State} {moved : Bool}
    (h : moveRunner fuel s = some (moved, s1)) :
    s1 = { s with runnerLoc := s1.runnerLoc, runnerSentryKnownLoc := s1.runnerSentryKnownLoc
                  runnerPath := s1.runnerPath, runnerCooldown := s1.runnerCooldown
                  rng := s1.rng } := by
  unfold moveRunner at h
  split at h
  · simp only [Option.some.injEq, Prod.mk.injEq] at h
    rw [← h.2]
  · split at h
    · exact absurd h (by simp)
    · split at h
      · split at h
        · exact absurd h (by simp)
        · simp only [Option.some.injEq] at h
          have hs := congrArg Prod.snd h
          subst hs
          unfold runnerAdvance
          split <;> rfl
      · split at h
        · split at h
          · exact absurd h (by simp)
          · split at h
            · exact absurd h (by simp)
            · simp only [Option.some.injEq] at h
              have hs := congrArg Prod.snd h
              subst hs
              unfold runnerAdvance
              split <;> rfl
        · simp only [Option.some.injEq] at h
          have hs := congrArg Prod.snd h
          subst hs
          unfold runnerAdvance
          split <;> rfl

/-- The sentry's move touches only the sentry's own fields and the random source. -/
theorem moveSentry_frame {fuel : Nat} {s s2 : State} {moved : Bool}
    (h : moveSentry fuel s = some (moved, s2)) :
    s2 = { s with sentryLoc := s2.sentryLoc, sentryPath := s2.sentryPath
                  sentryCooldown := s2.sentryCooldown, rng := s2.rng } := by
  unfold moveSentry at h
  split at h
  · simp only [Option.some.injEq, Prod.mk.injEq] at h
    rw [← h.2]
  · split at h
    · simp only [Option.some.injEq, Prod.mk.injEq] at h
      rw [← h.2]
    · split at h
      · exact absurd h (by simp)
      · split at h
        · split at h
          · simp only [Option.some.injEq, Prod.mk.injEq] at h
            rw [← h.2]
          · simp only [Option.some.injEq] at h
            have hs := congrArg Prod.snd h
            subst hs
            unfold sentryAdvance
            split <;> rfl
        · simp only [Option.some.injEq] at h
          have hs := congrArg Prod.snd h
          subst hs
          unfold sentryAdvance
          split <;> rfl

/-- With fuel for the searches (`searchFuel`), `moveRunner` returns. -/
theorem moveRunner_terminates (fuel : Nat) (s : State) (hfuel : searchFuel s.toGrid ≤ fuel) :
    ∃ res, moveRunner fuel s = some res := by
  unfold moveRunner
  split
  · exact ⟨_, rfl⟩
  · obtain ⟨⟨p1, r1⟩, h1⟩ := findPathDfs_terminates s.toGrid s.runnerLoc NullLocation
      s.sentryLoc RunnerSense s.rng fuel hfuel
    rw [h1]
    simp only
    split
    · obtain ⟨⟨p2, r2⟩, h2⟩ := findLongestPathBfs_terminates s.toGrid s.runnerLoc s.sentryLoc
        ((RunnerSense : Int) + RunnerFear) r1 fuel hfuel
      rw [h2]
      exact ⟨_, rfl⟩
    · split
      · obtain ⟨⟨p2, r2⟩, h2⟩ := findPathDfs_terminates s.toGrid s.runnerLoc
          s.runnerSentryKnownLoc s.exitLoc (-1) r1 fuel hfuel
        obtain ⟨⟨p3, r3⟩, h3⟩ := findPathDfs_terminates s.toGrid s.runnerLoc NullLocation
          s.exitLoc (-1) r2 fuel hfuel
        rw [h2]
        simp only
        rw [h3]
        exact ⟨_, rfl⟩
      · exact ⟨_, rfl⟩

/-- With fuel for the searches (`searchFuel`), `moveSentry` returns. -/
theorem moveSentry_terminates (fuel : Nat) (s : State) (hfuel : searchFuel s.toGrid ≤ fuel) :
    ∃ res, moveSentry fuel s = some res := by
  unfold moveSentry
  split
  · exact ⟨_, rfl⟩
  · split
    · exact ⟨_, rfl⟩
    · obtain ⟨⟨p1, r1⟩, h1⟩ := findPathDfs_terminates s.toGrid s.sentryLoc NullLocation
        s.runnerLoc SentrySense s.rng fuel hfuel
      rw [h1]
      simp only
      split
      · split <;> exact ⟨_, rfl⟩
      · exact ⟨_, rfl⟩

/-- While the reset countdown is above 1, `update` only decrements it and returns `false`. -/
theorem update_countdown (fuel : Nat) (s : State) (h : 1 < s.resetDelay) :
    update fuel s = some (Except.ok (false, { s with resetDelay := s.resetDelay - 1 })) := by
  unfold update
  rw [if_pos (by omega), if_neg (by omega)]

theorem updateTimes_countdown (fuel : Nat) :
    ∀ (n : Nat) (s : State), (n : Int) < s.resetDelay →
      updateTimes fuel n s
        = some (Except.ok (List.replicate n false, { s with resetDelay := s.resetDelay - n })) := by
  intro n
  induction n with
  | zero =>
    intro s _
    simp [updateTimes]
  | succ n ih =>
    intro s h
    simp only [Nat.cast_add, Nat.cast_one] at h
    rw [updateTimes, update_countdown fuel s (by omega)]
    simp only
    rw [ih _ (by simp only; omega)]
    simp only [List.replicate_succ, Nat.cast_add, Nat.cast_one]
    congr 4
    omega

/-- When the countdown stands at 1, `update` re-initialises and, if `init` returns normally,
redraws and returns `true`. -/
theorem update_reinit (fuel : Nat) (s : State) (h : s.resetDelay = 1) :
    update fuel s =
      (match init fuel { s with resetDelay := 0 } with
        | none => none
        | some (Except.error s') => some (Except.error s')
        | some (Except.ok s') => some (Except.ok (true, drawMaze s'))) := by
  unfold update
  rw [if_pos (by omega), if_pos (by omega), h]
  rfl

end Orchestrator

section OrchestratorClaims

theorem drawMaze_out (s : State) :
    ∃ draws, (drawMaze s).out = s.out ++ draws ∧ ∀ e ∈ draws, ∀ c, e ≠ Event.setStatus c := by
  refine ⟨((List.range s.height.toNat).map (fun y => drawRow s (Int.ofNat y))).flatten
      ++ [Event.drawPixel s.exitLoc.x s.exitLoc.y s.exitColor,
          Event.drawPixel s.runnerLoc.x s.runnerLoc.y s.runnerColor,
          Event.drawPixel s.sentryLoc.x s.sentryLoc.y s.sentryColor], ?_, ?_⟩
  · simp [drawMaze]
  · intro e he c
    simp only [List.mem_append, List.mem_flatten, List.mem_map, List.mem_range, drawRow,
      List.mem_cons, List.mem_singleton, List.not_mem_nil, or_false] at he
    rcases he with ⟨l, ⟨y, _, rfl⟩, he⟩ | he | he | he
    · simp only [List.mem_map, List.mem_range] at he
      obtain ⟨x, _, rfl⟩ := he
      simp
    · simp [he]
    · simp [he]
    · simp [he]

/-- Claim C8, amended. For every Running state with a status sink the runner's move returns,
and when `update` then finds the runner on the exit: the call signals Goal (the runner colour)
exactly once, redraws, sets the reset countdown to `GoalDelay` and returns `true`; the next
`GoalDelay - 1 = 9` calls each return `false` and change nothing but the countdown (no sink call);
the call after those, the `GoalDelay`-th one, performs `init()` with the countdown at 0 and,
when `init()` returns normally, redraws and returns `true`. -/
theorem update_goal_then_countdown (fuel : Nat) (s : State)
    (hrun : ¬ s.resetDelay > 0) (hstatus : s.hasSetStatus = true) :
    (searchFuel s.toGrid ≤ fuel → ∃ res, moveRunner fuel s = some res)
      ∧ ∀ moved s1, moveRunner fuel s = some (moved, s1) → s1.runnerLoc = s1.exitLoc →
        ∃ sg draws,
          update fuel s = some (Except.ok (true, sg))
            ∧ sg.out = s.out ++ Event.setStatus s.runnerColor :: draws
            ∧ (∀ e ∈ draws, ∀ c, e ≠ Event.setStatus c)
            ∧ sg.resetDelay = GoalDelay
            ∧ updateTimes fuel 9 sg
                = some (Except.ok (List.replicate 9 false, { sg with resetDelay := 1 }))
            ∧ update fuel { sg with resetDelay := 1 } =
                (match init fuel { sg with resetDelay := 0 } with
                  | none => none
                  | some (Except.error s') => some (Except.error s')
                  | some (Except.ok s') => some (Except.ok (true, drawMaze s'))) := by
  refine ⟨moveRunner_terminates fuel s, ?_⟩
  intro moved s1 hmove hgoal
  have hf := moveRunner_frame hmove
  have hout : s1.out = s.out := by rw [hf]
  have hcol : s1.runnerColor = s.runnerColor := by rw [hf]
  have hst : s1.hasSetStatus = true := by rw [hf]; exact hstatus
  obtain ⟨draws, hdraws, hnostatus⟩ :=
    drawMaze_out { s1 with out := s1.out ++ [Event.setStatus s1.runnerColor] }
  refine ⟨{ drawMaze { s1 with out := s1.out ++ [Event.setStatus s1.runnerColor] } with
      resetDelay := GoalDelay }, draws, ?_, ?_, hnostatus, rfl, ?_, ?_⟩
  · unfold update
    rw [if_neg hrun, hmove]
    simp only [hgoal, if_true, setStatus, hst]
  · show (drawMaze { s1 with out := s1.out ++ [Event.setStatus s1.runnerColor] }).out = _
    rw [hdraws, hout, hcol]
    simp
  · exact updateTimes_countdown fuel 9 _ (by show ((9 : Nat) : Int) < GoalDelay; decide)
  · exact update_reinit fuel _ rfl

set_option maxRecDepth 1000000 in
/-- Witness for the amended C8: the fifth `update` of the 2x2 runner `fresh2x2` after `init()`
moves the runner onto the exit. -/
theorem update_goal_then_countdown_witness :
    (¬ (stateAfter 200 4 (afterInit 200 fresh2x2)).resetDelay > 0
        ∧ (stateAfter 200 4 (afterInit 200 fresh2x2)).hasSetStatus = true)
      ∧ ∃ moved s1,
        moveRunner 200 (stateAfter 200 4 (afterInit 200 fresh2x2)) = some (moved, s1)
          ∧ s1.runnerLoc = s1.exitLoc
          ∧ ∃ sg draws,
            update 200 (stateAfter 200 4 (afterInit 200 fresh2x2)) = some (Except.ok (true, sg))
              ∧ sg.out = (stateAfter 200 4 (afterInit 200 fresh2x2)).out
                  ++ Event.setStatus (stateAfter 200 4 (afterInit 200 fresh2x2)).runnerColor
                    :: draws
              ∧ (∀ e ∈ draws, ∀ c, e ≠ Event.setStatus c)
              ∧ sg.resetDelay = GoalDelay
              ∧ updateTimes 200 9 sg
                  = some (Except.ok (List.replicate 9 false, { sg with resetDelay := 1 }))
              ∧ update 200 { sg with resetDelay := 1 } =
                  (match init 200 { sg with resetDelay := 0 } with
                    | none => none
                    | some (Except.error s') => some (Except.error s')
                    | some (Except.ok s') => some (Except.ok (true, drawMaze s'))) :=
  ⟨⟨by decide, by decide⟩, _, _, rfl, by decide,
    (update_goal_then_countdown 200 (stateAfter 200 4 (afterInit 200 fresh2x2))
      (by decide) (by decide)).2 _ _ rfl (by decide)⟩

set_option maxRecDepth 1000000 in
/-- Claim C8, counterexample. The 2x2 runner `fresh2x2`: after `init()` and four calls the state
is Running; the fifth call finds the runner on the exit, signals Goal and sets the countdown to
`GoalDelay = 10`.  Of the calls that follow only nine return `false`: the tenth performs
`init()` and returns `true`. -/
theorem update_reinitialises_on_tenth_call_after_goal :
    threw (init 200 fresh2x2) = false
      ∧ returned (updateTimes 200 5 (afterInit 200 fresh2x2))
          = some [true, false, false, false, true]
      ∧ (stateAfter 200 4 (afterInit 200 fresh2x2)).resetDelay = -1
      ∧ (stateAfter 200 5 (afterInit 200 fresh2x2)).runnerLoc
          = (stateAfter 200 5 (afterInit 200 fresh2x2)).exitLoc
      ∧ (stateAfter 200 5 (afterInit 200 fresh2x2)).resetDelay = GoalDelay
      ∧ returned (updateTimes 200 10 (stateAfter 200 5 (afterInit 200 fresh2x2)))
          = some (List.replicate 9 false ++ [true])
      ∧ returned (updateTimes 200 10 (stateAfter 200 5 (afterInit 200 fresh2x2)))
          ≠ some (List.replicate 10 false) := by
  refine ⟨by decide, by decide, by decide, by decide, by decide, by decide, by decide⟩

/-- Claim C9. For every Running state with a status sink the runner's and the sentry's moves
return, and when after them the sentry's location equals the runner's (and the runner is not on
the exit): `update` sends the sentry colour to the status sink, sets the reset countdown to
`CatchDelay = 30` and returns `true`; the only sink call of that call is the status signal, so
no draw call paints the shared cell (or any cell) with the sentry colour. -/
theorem update_caught (fuel : Nat) (s : State)
    (hrun : ¬ s.resetDelay > 0) (hstatus : s.hasSetStatus = true) :
    (searchFuel s.toGrid ≤ fuel →
        ∃ res, moveRunner fuel s = some res ∧ ∃ res', moveSentry fuel res.2 = some res')
      ∧ ∀ s1 s2 moved moved', moveRunner fuel s = some (moved, s1) →
        s1.runnerLoc ≠ s1.exitLoc → moveSentry fuel s1 = some (moved', s2) →
        s2.sentryLoc = s2.runnerLoc →
        update fuel s = some (Except.ok (true,
            { s2 with out := s.out ++ [Event.setStatus s.sentryColor]
                      resetDelay := CatchDelay }))
          ∧ CatchDelay = 30
          ∧ ∀ x y c, Event.drawPixel x y c ∉ [Event.setStatus s.sentryColor] := by
  constructor
  · intro hfuel
    obtain ⟨⟨moved, s1⟩, h1⟩ := moveRunner_terminates fuel s hfuel
    have hgrid : s1.toGrid = s.toGrid := by rw [moveRunner_frame h1]
    obtain ⟨res', h2⟩ := moveSentry_terminates fuel s1 (by rw [hgrid]; exact hfuel)
    exact ⟨_, h1, res', h2⟩
  · intro s1 s2 moved moved' hrunner hgoal hsentry hcaught
    have hf1 := moveRunner_frame hrunner
    have hf2 := moveSentry_frame hsentry
    have hout : s2.out = s.out := by rw [hf2, hf1]
    have hcol : s2.sentryColor = s.sentryColor := by rw [hf2, hf1]
    have hst : s2.hasSetStatus = true := by rw [hf2, hf1]; exact hstatus
    refine ⟨?_, rfl, by simp⟩
    unfold update
    rw [if_neg hrun, hrunner]
    simp only [hgoal, if_false, hsentry, hcaught, if_true, setStatus, hst, hout, hcol]

set_option maxRecDepth 100000 in
/-- Witness for C9: in `sentryNextToRunner` the sentry steps onto the resting runner. -/
theorem update_caught_witness :
    (¬ sentryNextToRunner.resetDelay > 0 ∧ sentryNextToRunner.hasSetStatus = true)
      ∧ ∃ s1 s2 moved moved',
        moveRunner 50 sentryNextToRunner = some (moved, s1) ∧ s1.runnerLoc ≠ s1.exitLoc
          ∧ moveSentry 50 s1 = some (moved', s2) ∧ s2.sentryLoc = s2.runnerLoc
          ∧ update 50 sentryNextToRunner = some (Except.ok (true,
              { s2 with out := sentryNextToRunner.out
                          ++ [Event.setStatus sentryNextToRunner.sentryColor]
                        resetDelay := CatchDelay }))
          ∧ CatchDelay = 30
          ∧ ∀ x y c, Event.drawPixel x y c ∉ [Event.setStatus sentryNextToRunner.sentryColor] :=
  ⟨⟨by decide, by decide⟩, _, _, _, _, rfl, by decide, rfl, by decide,
    (update_caught 50 sentryNextToRunner (by decide) (by decide)).2 _ _ _ _ rfl (by decide) rfl
      (by decide)⟩

set_option maxRecDepth 1000000 in
/-- Claim C10, evaluated at the failing input. The 2x2 runner constructed without a status
sink: `init()` returns normally and so do the first four calls of `update`; the fifth call moves
the runner onto the exit, `_setStatus(_runnerColor)` throws `std::bad_function_call`, the
handler of `update` calls `_setStatus(_exitColor)`, which throws again, and the exception leaves
`update`. -/
theorem update_throws_without_status_sink :
    threw (init 200 fresh2x2NoStatus) = false
      ∧ (init 200 fresh2x2NoStatus).isSome = true
      ∧ returned (updateTimes 200 4 (afterInit 200 fresh2x2NoStatus))
          = some [true, false, false, false]
      ∧ threw (update 200 (stateAfter 200 4 (afterInit 200 fresh2x2NoStatus))) = true := by
  refine ⟨by decide, by decide, by decide, by decide⟩

end OrchestratorClaims

section Placement

theorem random_pos (r : Rng) (n : Int) (h : 0 < n) : (random r n).2.pos = r.pos + 1 := by
  unfold random
  rw [if_neg (by omega)]

/-- The placement loop of the sentry, entered with the sentry unplaced on a grid with at least
one cell: it accepts the cell drawn at some attempt `k`, having consumed two random values per
attempt, and changes nothing but the sentry's location and the random source. -/
theorem placeSentryLoop_spec :
    ∀ (fuel attempts : Nat) (s s2 : State), s.sentryLoc.x = -1 → 0 < s.width → 0 < s.height →
      placeSentryLoop fuel attempts s = some s2 →
      ∃ k, attempts ≤ k ∧ s2.rng.pos = s.rng.pos + 2 * (k - attempts + 1)
        ∧ isOpen s.toGrid s2.sentryLoc = true
        ∧ (manhattanDistance s2.sentryLoc s.runnerLoc : Int) > minDistance s.toGrid k
        ∧ s2 = { s with sentryLoc := s2.sentryLoc, rng := s2.rng } := by
  intro fuel
  induction fuel with
  | zero =>
    intro attempts s s2 hx _ _ h
    simp [placeSentryLoop, hx] at h
  | succ fuel ih =>
    intro attempts s s2 hx hw hh h
    rw [placeSentryLoop, if_pos hx] at h
    have hrx := random_lt s.rng s.width hw
    have hry := random_lt (random s.rng s.width).2 s.height hh
    have hpos : (random (random s.rng s.width).2 s.height).2.pos = s.rng.pos + 2 := by
      rw [random_pos _ _ hh, random_pos _ _ hw]
    split at h
    · rename_i hacc
      simp only [Bool.and_eq_true, Bool.not_eq_true', decide_eq_true_eq] at hacc
      have hdone : s2 = { s with
            sentryLoc := ⟨(random s.rng s.width).1, (random (random s.rng s.width).2 s.height).1⟩
            rng := (random (random s.rng s.width).2 s.height).2 } := by
        cases fuel with
        | zero =>
          rw [placeSentryLoop, if_neg (by simp only; omega)] at h
          exact (Option.some.inj h).symm
        | succ fuel =>
          rw [placeSentryLoop, if_neg (by simp only; omega)] at h
          exact (Option.some.inj h).symm
      subst hdone
      refine ⟨attempts, le_refl _, ?_, ?_, hacc.2, rfl⟩
      · simp only [hpos]; omega
      · simp only [isOpen, isInMazeBounds, isInMazeBoundsAt, isWall, Bool.and_eq_true,
          decide_eq_true_eq, Bool.not_eq_true']
        exact ⟨⟨⟨⟨hrx.1, hrx.2⟩, hry.1⟩, hry.2⟩, hacc.1⟩
    · obtain ⟨k, hk, hp, ho, hd, he⟩ := ih (attempts + 1)
        { s with rng := (random (random s.rng s.width).2 s.height).2 } s2 hx hw hh h
      refine ⟨k, by omega, ?_, ho, hd, ?_⟩
      · rw [hp]
        show (random (random s.rng s.width).2 s.height).2.pos + _ = _
        rw [hpos]; omega
      · rw [he]

theorem carveLoop_size :
    ∀ (n : Nat) (g : Grid) (stack : List Location) (r : Rng),
      (carveLoop n g stack r).1.width = g.width ∧ (carveLoop n g stack r).1.height = g.height := by
  intro n
  induction n with
  | zero =>
    intro g stack r
    cases stack <;> simp [carveLoop]
  | succ n ih =>
    intro g stack r
    cases stack with
    | nil => simp [carveLoop]
    | cons cur rest =>
      simp only [carveLoop]
      split
      · exact ih _ _ _
      · exact ih _ _ _

theorem removeWallsLoop_size :
    ∀ (n : Nat) (g : Grid) (removed extra : Int) (r : Rng),
      (removeWallsLoop n g removed extra r).1.width = g.width
        ∧ (removeWallsLoop n g removed extra r).1.height = g.height := by
  intro n
  induction n with
  | zero =>
    intro g removed extra r
    simp [removeWallsLoop]
  | succ n ih =>
    intro g removed extra r
    simp only [removeWallsLoop]
    split
    · split
      · exact ih _ _ _ _
      · exact ih _ _ _ _
    · exact ⟨rfl, rfl⟩

/-- The generated grid has the size of the grid it replaces. -/
theorem generateMaze_size (s : State) :
    (generateMaze s).width = s.width ∧ (generateMaze s).height = s.height := by
  have h1 := removeWallsLoop_size 1000 (generateMazeCarve s).1 0 s.mazeExtraWallsToRemove
    (generateMazeCarve s).2.2
  have h2 := carveLoop_size 1000
    (setWall (fillWalls s.toGrid) (chooseStart s).1.x (chooseStart s).1.y false)
    [(chooseStart s).1] (chooseStart s).2
  exact ⟨h1.1.trans h2.1, h1.2.trans h2.2⟩

/-- The placement loop of the runner changes nothing but the runner's location and the random
source, and when it ends the runner's coordinates are not negative. -/
theorem placeRunnerLoop_spec :
    ∀ (fuel : Nat) (s s1 : State), placeRunnerLoop fuel s = some s1 →
      s1 = { s with runnerLoc := s1.runnerLoc, rng := s1.rng }
        ∧ 0 ≤ s1.runnerLoc.x ∧ 0 ≤ s1.runnerLoc.y := by
  intro fuel
  induction fuel with
  | zero =>
    intro s s1 h
    rw [placeRunnerLoop] at h
    split at h
    · exact absurd h (by simp)
    · rename_i hpos
      have := Option.some.inj h
      subst this
      exact ⟨rfl, by omega, by omega⟩
  | succ fuel ih =>
    intro s s1 h
    rw [placeRunnerLoop] at h
    split at h
    · split at h
      · obtain ⟨he, hx, hy⟩ := ih _ _ h
        refine ⟨?_, hx, hy⟩
        rw [he]
      · obtain ⟨he, hx, hy⟩ := ih _ _ h
        refine ⟨?_, hx, hy⟩
        rw [he]
    · rename_i hpos
      have := Option.some.inj h
      subst this
      exact ⟨rfl, by omega, by omega⟩

/-- What `placeRunner` changes: the plan, the remembered sentry location and the cooldown are
reset, and the runner ends on non-negative coordinates. -/
theorem placeRunner_spec {fuel : Nat} {s s1 : State} (h : placeRunner fuel s = some s1) :
    s1 = { s with runnerLoc := s1.runnerLoc, rng := s1.rng, runnerPath := []
                  runnerSentryKnownLoc := NullLocation, runnerCooldown := 0 }
      ∧ 0 ≤ s1.runnerLoc.x ∧ 0 ≤ s1.runnerLoc.y := by
  unfold placeRunner at h
  split at h
  · rename_i hpos
    have := Option.some.inj h
    subst this
    exact ⟨rfl, by simp only; omega, by simp only; omega⟩
  · obtain ⟨he, hx, hy⟩ := placeRunnerLoop_spec _ _ _ h
    refine ⟨?_, hx, hy⟩
    rw [he]

/-- What `placeExit` changes: the exit, the random source and, when it fails, the status trace
and the reset countdown. -/
theorem placeExit_frame {fuel : Nat} {s s3 : State} {res : Except State State}
    (h : placeExit fuel s = some res) (hres : res = Except.ok s3 ∨ res = Except.error s3) :
    s3 = { s with exitLoc := s3.exitLoc, rng := s3.rng, out := s3.out
                  resetDelay := s3.resetDelay } := by
  unfold placeExit at h
  split at h
  · exact absurd h (by simp)
  · split at h
    · unfold setStatus at h
      split at h
      · rename_i heq
        split at heq
        · have h1 := Except.ok.inj heq
          have h2 := Option.some.inj h
          subst h1
          subst h2
          rcases hres with hres | hres
          · have := Except.ok.inj hres
            subst this
            rfl
          · exact absurd hres (by simp)
        · exact absurd heq (by simp)
      · rename_i heq
        split at heq
        · exact absurd heq (by simp)
        · have h1 := Except.error.inj heq
          have h2 := Option.some.inj h
          subst h1
          subst h2
          rcases hres with hres | hres
          · exact absurd hres (by simp)
          · have := Except.error.inj hres
            subst this
            rfl
    · have h2 := Option.some.inj h
      subst h2
      rcases hres with hres | hres
      · have := Except.ok.inj hres
        subst this
        rfl
      · exact absurd hres (by simp)


/-- What `placeSentry` does with the sentry enabled, on a grid with at least one cell: the cell
accepted at attempt `k` (two random values per attempt) is open and lies farther from the runner
than the threshold of that attempt. -/
theorem placeSentry_spec {fuel : Nat} {s s2 : State} (henabled : s.sentryColor ≠ s.pathColor)
    (hw : 0 < s.width) (hh : 0 < s.height) (h : placeSentry fuel s = some s2) :
    ∃ k, s2.rng.pos = s.rng.pos + 2 * (k + 1)
      ∧ isOpen s.toGrid s2.sentryLoc = true
      ∧ (manhattanDistance s2.sentryLoc s.runnerLoc : Int) > minDistance s.toGrid k
      ∧ s2 = { s with sentryLoc := s2.sentryLoc, rng := s2.rng, sentryPath := []
                      sentryCooldown := SentrySpeed } := by
  unfold placeSentry at h
  rw [if_neg henabled] at h
  obtain ⟨k, _, hp, ho, hd, he⟩ := placeSentryLoop_spec fuel 0
    { s with sentryLoc := NullLocation, sentryPath := [], sentryCooldown := SentrySpeed } s2
    rfl hw hh h
  refine ⟨k, hp, ho, hd, ?_⟩
  rw [he]

/-- When `init` returns normally, it returns the state `afterInit` names. -/
theorem init_eq_afterInit {fuel : Nat} {s : State}
    (h : (init fuel s).isSome = true ∧ threw (init fuel s) = false) :
    init fuel s = some (Except.ok (afterInit fuel s)) := by
  unfold afterInit
  cases hi : init fuel s with
  | none => rw [hi] at h; exact absurd h.1 (by simp)
  | some res =>
    cases res with
    | error s' => rw [hi] at h; exact absurd h.2 (by simp [threw])
    | ok s' => rfl

/-- Claim C11, amended. For a 7x7 grid with the sentry enabled and every random source for which
`init()` returns or throws: the sentry's cell is in bounds and not a wall of the generated grid,
and its Manhattan distance from the runner's cell is greater than the threshold of the attempt
`k` at which the cell was accepted, `max(0, (7+7)/2 - k/10)` (`k` attempts failed before it, two
random values drawn per attempt).  So the distance is at least 1, and at least 7 when fewer than
20 attempts failed. -/
theorem init_places_sentry_beyond_attempt_threshold (fuel : Nat) (s s3 : State)
    (res : Except State State) (hw : s.width = 7) (hh : s.height = 7)
    (henabled : s.sentryColor ≠ s.pathColor) (hinit : init fuel s = some res)
    (hres : res = Except.ok s3 ∨ res = Except.error s3) :
    ∃ s1 s2 k, placeRunner fuel (generateMaze s) = some s1 ∧ placeSentry fuel s1 = some s2
      ∧ s2.rng.pos = s1.rng.pos + 2 * (k + 1)
      ∧ s3.toGrid = s2.toGrid ∧ s3.sentryLoc = s2.sentryLoc ∧ s3.runnerLoc = s2.runnerLoc
      ∧ isOpen s3.toGrid s3.sentryLoc = true
      ∧ minDistance s3.toGrid k = max 0 (7 - ((k / 10 : Nat) : Int))
      ∧ (manhattanDistance s3.sentryLoc s3.runnerLoc : Int) > minDistance s3.toGrid k
      ∧ 1 ≤ manhattanDistance s3.sentryLoc s3.runnerLoc
      ∧ (k < 20 → 7 ≤ manhattanDistance s3.sentryLoc s3.runnerLoc) := by
  unfold init at hinit
  split at hinit
  · exact absurd hinit (by simp)
  · rename_i s1 h1
    split at hinit
    · exact absurd hinit (by simp)
    · rename_i s2 h2
      obtain ⟨he1, _, _⟩ := placeRunner_spec h1
      have hsize := generateMaze_size s
      have hw1 : s1.width = 7 := by rw [he1]; exact hsize.1.trans hw
      have hh1 : s1.height = 7 := by rw [he1]; exact hsize.2.trans hh
      have hen1 : s1.sentryColor ≠ s1.pathColor := by rw [he1]; exact henabled
      obtain ⟨k, hp, ho, hd, he2⟩ := placeSentry_spec hen1 (by omega) (by omega) h2
      have he3 := placeExit_frame hinit hres
      have hg2 : s2.toGrid = s1.toGrid := by rw [he2]
      have hr2 : s2.runnerLoc = s1.runnerLoc := by rw [he2]
      have hg3 : s3.toGrid = s2.toGrid := by rw [he3]
      have hs3 : s3.sentryLoc = s2.sentryLoc := by rw [he3]
      have hr3 : s3.runnerLoc = s2.runnerLoc := by rw [he3]
      have hmin : minDistance s3.toGrid k = max 0 (7 - ((k / 10 : Nat) : Int)) := by
        unfold minDistance
        rw [hg3, hg2, hw1, hh1]
        rfl
      have hd3 : (manhattanDistance s3.sentryLoc s3.runnerLoc : Int) > minDistance s3.toGrid k := by
        rw [hs3, hr3, hr2, hg3, hg2]
        exact hd
      refine ⟨s1, s2, k, h1, h2, hp, hg3, hs3, hr3, ?_, hmin, hd3, ?_, ?_⟩
      · rw [hg3, hg2, hs3]
        exact ho
      · rw [hmin] at hd3
        omega
      · intro hk
        rw [hmin] at hd3
        omega

set_option maxRecDepth 1000000 in
/-- The first `init()` of the 7x7 runner `fresh7x7` returns normally. -/
theorem init_fresh7x7_returns :
    (init 100 fresh7x7).isSome = true ∧ threw (init 100 fresh7x7) = false := by
  decide

set_option maxRecDepth 1000000 in
/-- Witness for the amended C11: the first `init()` of the 7x7 runner `fresh7x7`. -/
theorem init_places_sentry_beyond_attempt_threshold_witness :
    fresh7x7.width = 7 ∧ fresh7x7.height = 7 ∧ fresh7x7.sentryColor ≠ fresh7x7.pathColor
      ∧ init 100 fresh7x7 = some (Except.ok (afterInit 100 fresh7x7))
      ∧ ∃ s1 s2 k, placeRunner 100 (generateMaze fresh7x7) = some s1
        ∧ placeSentry 100 s1 = some s2
        ∧ s2.rng.pos = s1.rng.pos + 2 * (k + 1)
        ∧ (afterInit 100 fresh7x7).toGrid = s2.toGrid
        ∧ (afterInit 100 fresh7x7).sentryLoc = s2.sentryLoc
        ∧ (afterInit 100 fresh7x7).runnerLoc = s2.runnerLoc
        ∧ isOpen (afterInit 100 fresh7x7).toGrid (afterInit 100 fresh7x7).sentryLoc = true
        ∧ minDistance (afterInit 100 fresh7x7).toGrid k = max 0 (7 - ((k / 10 : Nat) : Int))
        ∧ (manhattanDistance (afterInit 100 fresh7x7).sentryLoc
              (afterInit 100 fresh7x7).runnerLoc : Int)
            > minDistance (afterInit 100 fresh7x7).toGrid k
        ∧ 1 ≤ manhattanDistance (afterInit 100 fresh7x7).sentryLoc
              (afterInit 100 fresh7x7).runnerLoc
        ∧ (k < 20 → 7 ≤ manhattanDistance (afterInit 100 fresh7x7).sentryLoc
              (afterInit 100 fresh7x7).runnerLoc) :=
  ⟨rfl, rfl, by decide, init_eq_afterInit init_fresh7x7_returns,
    init_places_sentry_beyond_attempt_threshold 100 fresh7x7 (afterInit 100 fresh7x7) _ rfl rfl
      (by decide) (init_eq_afterInit init_fresh7x7_returns) (Or.inl rfl)⟩

set_option maxRecDepth 1000000 in
/-- Claim C11, counterexample. The first `init()` of the 7x7 runner `fresh7x7` (sentry enabled)
returns normally with the runner on `(2, 4)` and the sentry on the open cell `(0, 0)`: the
twenty attempts before the accepted one drew `(0, 0)` too and failed while the threshold was
still 7 or 6; the Manhattan distance is 6, below the threshold 7 of attempt 0. -/
theorem init_places_sentry_nearer_than_first_threshold :
    fresh7x7.width = 7 ∧ fresh7x7.height = 7 ∧ fresh7x7.sentryColor ≠ fresh7x7.pathColor
      ∧ (init 100 fresh7x7).isSome = true ∧ threw (init 100 fresh7x7) = false
      ∧ (afterInit 100 fresh7x7).runnerLoc = ⟨2, 4⟩
      ∧ (afterInit 100 fresh7x7).sentryLoc = ⟨0, 0⟩
      ∧ manhattanDistance (afterInit 100 fresh7x7).sentryLoc (afterInit 100 fresh7x7).runnerLoc = 6
      ∧ minDistance (afterInit 100 fresh7x7).toGrid 0 = 7
      ∧ ¬ ((manhattanDistance (afterInit 100 fresh7x7).sentryLoc
              (afterInit 100 fresh7x7).runnerLoc : Int)
            ≥ minDistance (afterInit 100 fresh7x7).toGrid 0) := by
  decide

end Placement

section Reinitialisation

set_option maxRecDepth 1000000 in
/-- Claim C12, evaluated at the failing input. The 3x3 runner `faulting3x3`: the first `init()`
returns with the runner placed on `(0, 2)`, a cell the extra-wall removal opened with no open
neighbour, so `placeExit` finds no path, signals the fault and starts the countdown at
`ErrorDelay = 100` with the exit left at `NullLocation`.  The next 99 calls of `update` count
down; the 100th re-initialises: because the exit is `NullLocation`, `generateMaze` seeds the new
grid at a random cell, here `(0, 1)`, while `placeRunner` keeps the runner on `(0, 2)`, which is
a wall of the new grid. -/
theorem init_after_fault_leaves_runner_on_wall :
    (init 200 faulting3x3).isSome = true ∧ threw (init 200 faulting3x3) = false
      ∧ (afterInit 200 faulting3x3).runnerLoc = ⟨0, 2⟩
      ∧ isOpen (afterInit 200 faulting3x3).toGrid ⟨0, 2⟩ = true
      ∧ (afterInit 200 faulting3x3).exitLoc = NullLocation
      ∧ (afterInit 200 faulting3x3).out = [Event.setStatus 4]
      ∧ (afterInit 200 faulting3x3).resetDelay = ErrorDelay
      ∧ returned (updateTimes 200 100 (afterInit 200 faulting3x3))
          = some (List.replicate 99 false ++ [true])
      ∧ (stateAfter 200 99 (afterInit 200 faulting3x3)).resetDelay = 1
      ∧ (chooseStart (stateAfter 200 99 (afterInit 200 faulting3x3))).1 = ⟨0, 1⟩
      ∧ (stateAfter 200 100 (afterInit 200 faulting3x3)).runnerLoc = ⟨0, 2⟩
      ∧ isInMazeBounds (stateAfter 200 100 (afterInit 200 faulting3x3)).toGrid ⟨0, 2⟩ = true
      ∧ isWall (stateAfter 200 100 (afterInit 200 faulting3x3)).toGrid
          (stateAfter 200 100 (afterInit 200 faulting3x3)).runnerLoc = true := by
  decide

end Reinitialisation

section GoalBranch

/-- Claim C13. For every Running state with a status sink the runner's move returns, and when
after it the runner's location equals the exit: `update` signals Goal with the runner colour,
then redraws the whole maze (`drawMaze`), sets the reset countdown to `GoalDelay` and returns
`true`; the sentry's location, planned path and cooldown are those from before the call (the
sentry is not moved in such a call). -/
theorem update_goal_leaves_sentry (fuel : Nat) (s : State)
    (hrun : ¬ s.resetDelay > 0) (hstatus : s.hasSetStatus = true) :
    (searchFuel s.toGrid ≤ fuel → ∃ res, moveRunner fuel s = some res)
      ∧ ∀ moved s1, moveRunner fuel s = some (moved, s1) → s1.runnerLoc = s1.exitLoc →
        ∃ sg,
          update fuel s = some (Except.ok (true, sg))
            ∧ sg = { drawMaze { s1 with out := s.out ++ [Event.setStatus s.runnerColor] } with
                      resetDelay := GoalDelay }
            ∧ sg.resetDelay = GoalDelay
            ∧ sg.sentryLoc = s.sentryLoc ∧ sg.sentryPath = s.sentryPath
            ∧ sg.sentryCooldown = s.sentryCooldown := by
  refine ⟨moveRunner_terminates fuel s, ?_⟩
  intro moved s1 hmove hgoal
  have hf := moveRunner_frame hmove
  have hout : s1.out = s.out := by rw [hf]
  have hcol : s1.runnerColor = s.runnerColor := by rw [hf]
  have hst : s1.hasSetStatus = true := by rw [hf]; exact hstatus
  have hloc : s1.sentryLoc = s.sentryLoc := by rw [hf]
  have hpath : s1.sentryPath = s.sentryPath := by rw [hf]
  have hcool : s1.sentryCooldown = s.sentryCooldown := by rw [hf]
  refine ⟨_, ?_, rfl, rfl, hloc, hpath, hcool⟩
  unfold update
  rw [if_neg hrun, hmove]
  simp only [hgoal, if_true, setStatus, hst, hout, hcol]

set_option maxRecDepth 1000000 in
/-- Witness for C13: in `sentryPatrolling` the runner steps onto the exit while the sentry,
ready to move along its plan, stays where it is. -/
theorem update_goal_leaves_sentry_witness :
    (¬ sentryPatrolling.resetDelay > 0 ∧ sentryPatrolling.hasSetStatus = true)
      ∧ ∃ moved s1,
        moveRunner 50 sentryPatrolling = some (moved, s1) ∧ s1.runnerLoc = s1.exitLoc
          ∧ ∃ sg,
            update 50 sentryPatrolling = some (Except.ok (true, sg))
              ∧ sg = { drawMaze { s1 with
                          out := sentryPatrolling.out
                            ++ [Event.setStatus sentryPatrolling.runnerColor] } with
                        resetDelay := GoalDelay }
              ∧ sg.resetDelay = GoalDelay
              ∧ sg.sentryLoc = sentryPatrolling.sentryLoc
              ∧ sg.sentryPath = sentryPatrolling.sentryPath
              ∧ sg.sentryCooldown = sentryPatrolling.sentryCooldown :=
  ⟨⟨by decide, by decide⟩, _, _, rfl, by decide,
    (update_goal_leaves_sentry 50 sentryPatrolling (by decide) (by decide)).2 _ _ rfl
      (by decide)⟩

end GoalBranch

section SentryMove

/-- For every state in which the sentry is enabled, its cooldown is 0 and sensing the runner
returns a result of length zero, `moveSentry` skips the detection block and runs its move block
on the plan the sentry holds: with a non-empty plan the sentry moves to the first cell of the
plan, the cooldown becomes `SentrySpeed = 5` and the call reports "moved"; with an empty plan
the sentry's location and cooldown stay as they were and the call reports "did not move". -/
theorem moveSentry_nothing_sensed (fuel : Nat) (s : State) (sensed : List Location) (r1 : Rng)
    (henabled : s.sentryColor ≠ s.pathColor) (hcool : s.sentryCooldown = 0)
    (hsense : findPathDfs fuel s.toGrid s.sentryLoc NullLocation s.runnerLoc SentrySense s.rng
      = some (sensed, r1))
    (hlen : sensed.length = 0) :
    moveSentry fuel s = some (sentryAdvance { s with rng := r1 })
      ∧ (∀ front remaining, s.sentryPath = front :: remaining →
          moveSentry fuel s = some (true,
            { s with sentryLoc := front, sentryPath := remaining, sentryCooldown := SentrySpeed
                     rng := r1 }))
      ∧ (s.sentryPath = [] → moveSentry fuel s = some (false, { s with rng := r1 }))
      ∧ SentrySpeed = 5 := by
  have hmove : moveSentry fuel s = some (sentryAdvance { s with rng := r1 }) := by
    unfold moveSentry
    rw [if_neg henabled, if_neg (by omega), hsense]
    simp only
    rw [if_neg (by omega)]
  refine ⟨hmove, ?_, ?_, rfl⟩
  · intro front remaining hpath
    rw [hmove]
    simp only [sentryAdvance, hpath]
  · intro hpath
    rw [hmove]
    simp only [sentryAdvance, hpath]

/-- For every state in which the sentry is enabled, its cooldown is 0 and sensing the runner
returns a non-empty path, `moveSentry` adopts that path as the plan and runs its move block at
once: the sentry moves to the first cell of the path, the cooldown becomes `SentrySpeed` and
the call reports "moved".  The branch that would set the cooldown to `SentrySpeed / 2` is not
taken. -/
theorem moveSentry_sensed (fuel : Nat) (s : State) (front : Location) (rest : List Location)
    (r1 : Rng) (henabled : s.sentryColor ≠ s.pathColor) (hcool : s.sentryCooldown = 0)
    (hsense : findPathDfs fuel s.toGrid s.sentryLoc NullLocation s.runnerLoc SentrySense s.rng
      = some (front :: rest, r1)) :
    moveSentry fuel s = some (true,
      { s with sentryLoc := front, sentryPath := rest, sentryCooldown := SentrySpeed
               rng := r1 }) := by
  unfold moveSentry
  rw [if_neg henabled, if_neg (by omega), hsense]
  simp only [List.length_cons]
  rw [if_pos (by omega), if_neg (by omega)]
  rfl

/-- Whatever sensing returns, a call of `moveSentry` made with cooldown 0 leaves the cooldown
at 0 or at `SentrySpeed = 5`, never at `SentrySpeed / 2 = 2`. -/
theorem moveSentry_never_warms_up (fuel : Nat) (s s2 : State) (moved : Bool)
    (hcool : s.sentryCooldown = 0) (h : moveSentry fuel s = some (moved, s2)) :
    (s2.sentryCooldown = 0 ∨ s2.sentryCooldown = SentrySpeed)
      ∧ s2.sentryCooldown ≠ SentrySpeed / 2 := by
  have hadv : ∀ t : State, t.sentryCooldown = 0 →
      (sentryAdvance t).2.sentryCooldown = 0
        ∨ (sentryAdvance t).2.sentryCooldown = SentrySpeed := by
    intro t ht
    unfold sentryAdvance
    split
    · exact Or.inl ht
    · exact Or.inr rfl
  have hor : s2.sentryCooldown = 0 ∨ s2.sentryCooldown = SentrySpeed := by
    unfold moveSentry at h
    split at h
    · rw [← (Prod.mk.inj (Option.some.inj h)).2]
      exact Or.inl hcool
    · split at h
      · rename_i hpos
        omega
      · split at h
        · exact absurd h (by simp)
        · rename_i sensed r1 hsense
          split at h
          · split at h
            · rename_i hpos hzero
              omega
            · have hs := congrArg Prod.snd (Option.some.inj h)
              simp only at hs
              rw [← hs]
              exact hadv _ hcool
          · have hs := congrArg Prod.snd (Option.some.inj h)
            simp only at hs
            rw [← hs]
            exact hadv _ hcool
  refine ⟨hor, ?_⟩
  rcases hor with h0 | h5
  · rw [h0]; decide
  · rw [h5]; decide

set_option maxRecDepth 1000000 in
/-- Claim C15, evaluated at the failing input. The 3x3 runner `chase3x3` (sentry enabled):
after `init()` and five calls of `update()` the sentry stands on `(2, 2)` with cooldown 0 and
no plan, and the runner stands two steps away on `(1, 1)`.  In the sixth call the sentry senses
the runner for the first time: sensing returns a path of length 2.  The code reaches the test
`_sentryPath.size() == 0` only after `_sentryPath = sensedPathToRunner`, so the branch that sets
the cooldown to `SentrySpeed / 2 = 2` and reports "did not move" is skipped: the sentry moves at
once to `(2, 1)`, its cooldown becomes `SentrySpeed = 5` and the call reports "moved".  When
sensing returns a result of length zero (the state `sentryPatrolling`, runner three steps away)
the whole block is skipped: the sentry follows the plan it holds to `(2, 0)`, again with
cooldown 5. -/
theorem moveSentry_skips_warm_up :
    (init 200 chase3x3).isSome = true ∧ threw (init 200 chase3x3) = false
      ∧ returned (updateTimes 200 6 (afterInit 200 chase3x3))
          = some [true, false, false, false, true, true]
      ∧ (stateAfter 200 5 chased3x3).sentryColor ≠ (stateAfter 200 5 chased3x3).pathColor
      ∧ (stateAfter 200 5 chased3x3).resetDelay = -1
      ∧ (stateAfter 200 5 chased3x3).sentryCooldown = 0
      ∧ (stateAfter 200 5 chased3x3).sentryPath = []
      ∧ (stateAfter 200 5 chased3x3).sentryLoc = ⟨2, 2⟩
      ∧ (stateAfter 200 5 chased3x3).runnerLoc = ⟨1, 1⟩
      ∧ (findPathDfs 200 (stateAfter 200 5 chased3x3).toGrid
            (stateAfter 200 5 chased3x3).sentryLoc NullLocation
            (stateAfter 200 5 chased3x3).runnerLoc SentrySense
            (stateAfter 200 5 chased3x3).rng).map (fun res => res.1)
          = some [⟨2, 1⟩, ⟨1, 1⟩]
      ∧ (moveSentry 200 (stateAfter 200 5 chased3x3)).map
          (fun res => (res.1, res.2.sentryLoc, res.2.sentryCooldown, res.2.sentryPath))
          = some (true, ⟨2, 1⟩, 5, [⟨1, 1⟩])
      ∧ (stateAfter 200 6 chased3x3).sentryLoc = ⟨2, 1⟩
      ∧ (stateAfter 200 6 chased3x3).sentryCooldown = 5
      ∧ (stateAfter 200 6 chased3x3).sentryCooldown ≠ SentrySpeed / 2
      ∧ SentrySpeed / 2 = 2
      ∧ sentryPatrolling.sentryColor ≠ sentryPatrolling.pathColor
      ∧ sentryPatrolling.sentryCooldown = 0
      ∧ (findPathDfs 50 sentryPatrolling.toGrid sentryPatrolling.sentryLoc NullLocation
            sentryPatrolling.runnerLoc SentrySense sentryPatrolling.rng).map
          (fun res => res.1.length) = some 0
      ∧ sentryPatrolling.sentryLoc = ⟨3, 0⟩
      ∧ (moveSentry 50 sentryPatrolling).map
          (fun res => (res.1, res.2.sentryLoc, res.2.sentryCooldown)) = some (true, ⟨2, 0⟩, 5) := by
  decide

end SentryMove

section RunnerFlees

/-- Claim C16. For every state with runner cooldown 0 in which sensing the sentry returns a
non-empty path: the search for the flight path returns (with fuel `searchFuel`), and
`moveRunner` stores the sentry's location as the remembered one and replaces the plan by the
`findLongestPathBfs` result (avoiding the sentry, bound `RunnerSense + RunnerFear = 12`) cut to
its first `RunnerSense = 2` cells, all of them open and neither equal nor adjacent to the
sentry; the move block then steps onto the first of them (if there is one), so that at most
`RunnerSense - 1 = 1` cell remains planned. -/
theorem moveRunner_flees (fuel : Nat) (s : State) (sensed : List Location) (r1 : Rng)
    (hcool : s.runnerCooldown = 0)
    (hsense : findPathDfs fuel s.toGrid s.runnerLoc NullLocation s.sentryLoc RunnerSense s.rng
      = some (sensed, r1))
    (hne : sensed ≠ []) :
    (searchFuel s.toGrid ≤ fuel →
        ∃ res, findLongestPathBfs fuel s.toGrid s.runnerLoc s.sentryLoc 12 r1 = some res)
      ∧ ∀ path r2,
        findLongestPathBfs fuel s.toGrid s.runnerLoc s.sentryLoc 12 r1 = some (path, r2) →
        moveRunner fuel s = some (runnerAdvance
            { s with runnerSentryKnownLoc := s.sentryLoc, runnerPath := path.take RunnerSense
                     rng := r2 })
          ∧ (path.take RunnerSense).length ≤ 2
          ∧ path.take RunnerSense = path.take 2
          ∧ (∀ c ∈ path.take RunnerSense,
              isOpen s.toGrid c = true ∧ c ≠ s.sentryLoc ∧ isAdjacent c s.sentryLoc = false)
          ∧ ∀ moved s1, moveRunner fuel s = some (moved, s1) →
              s1.runnerSentryKnownLoc = s.sentryLoc
                ∧ s1.runnerPath = (path.take RunnerSense).tail
                ∧ s1.runnerPath.length ≤ RunnerSense - 1
                ∧ RunnerSense - 1 = 1
                ∧ (path = [] → moved = false ∧ s1.runnerLoc = s.runnerLoc)
                ∧ (∀ front rest, path = front :: rest →
                    moved = true ∧ s1.runnerLoc = front) := by
  refine ⟨fun hfuel => findLongestPathBfs_terminates s.toGrid s.runnerLoc s.sentryLoc 12 r1 fuel
    hfuel, ?_⟩
  intro path r2 hbfs
  have hmove : moveRunner fuel s = some (runnerAdvance
      { s with runnerSentryKnownLoc := s.sentryLoc, runnerPath := path.take RunnerSense
               rng := r2 }) := by
    have hbfs' : findLongestPathBfs fuel s.toGrid s.runnerLoc s.sentryLoc
        ((RunnerSense : Int) + RunnerFear) r1 = some (path, r2) := hbfs
    have hpos : sensed.length > 0 := List.length_pos.2 hne
    unfold moveRunner
    rw [if_neg (by omega), hsense]
    simp only
    rw [if_pos hpos, hbfs']
  have hclear : ∀ c ∈ path.take RunnerSense,
      isOpen s.toGrid c = true ∧ c ≠ s.sentryLoc ∧ isAdjacent c s.sentryLoc = false := by
    intro c hc
    have hc' : c ∈ path := List.mem_of_mem_take hc
    have hpass := (findLongestPathBfs_spec hbfs).1.forall_ok c hc'
    rw [isPassable_eq_isClearOf] at hpass
    simp only [isClearOf, Bool.and_eq_true, decide_eq_true_eq, Bool.not_eq_true'] at hpass
    exact ⟨hpass.1.1, hpass.1.2, hpass.2⟩
  refine ⟨hmove, ?_, rfl, hclear, ?_⟩
  · rw [List.length_take]
    exact Nat.min_le_left _ _
  · intro moved s1 hres
    rw [hmove] at hres
    have hres' := Option.some.inj hres
    cases path with
    | nil =>
      simp only [runnerAdvance, List.take_nil, Prod.mk.injEq] at hres'
      obtain ⟨hm, hs⟩ := hres'
      subst hs
      refine ⟨rfl, rfl, by simp, rfl, fun _ => ⟨hm.symm, rfl⟩, ?_⟩
      intro front rest h
      exact absurd h (by simp)
    | cons front rest =>
      simp only [runnerAdvance, RunnerSense, List.take_succ_cons, Prod.mk.injEq] at hres'
      obtain ⟨hm, hs⟩ := hres'
      subst hs
      refine ⟨rfl, rfl, ?_, rfl, ?_, ?_⟩
      · simp only [List.length_take]
        exact Nat.min_le_left _ _
      · intro h
        exact absurd h (by simp)
      · intro front' rest' h
        simp only [List.cons.injEq] at h
        exact ⟨hm.symm, h.1⟩

set_option maxRecDepth 1000000 in
/-- Witness for C16: in `runnerSensesSentry` the runner senses the sentry two steps away and
flees along `[(2, 1), (1, 1)]`. -/
theorem moveRunner_flees_witness :
    runnerSensesSentry.runnerCooldown = 0
      ∧ ∃ sensed r1,
        findPathDfs 50 runnerSensesSentry.toGrid runnerSensesSentry.runnerLoc NullLocation
            runnerSensesSentry.sentryLoc RunnerSense runnerSensesSentry.rng = some (sensed, r1)
          ∧ sensed ≠ []
          ∧ ∃ path r2,
            findLongestPathBfs 50 runnerSensesSentry.toGrid runnerSensesSentry.runnerLoc
                runnerSensesSentry.sentryLoc 12 r1 = some (path, r2)
              ∧ path = [⟨2, 1⟩, ⟨1, 1⟩]
              ∧ moveRunner 50 runnerSensesSentry = some (runnerAdvance
                  { runnerSensesSentry with
                    runnerSentryKnownLoc := runnerSensesSentry.sentryLoc
                    runnerPath := path.take RunnerSense, rng := r2 })
              ∧ (path.take RunnerSense).length ≤ 2
              ∧ path.take RunnerSense = path.take 2
              ∧ (∀ c ∈ path.take RunnerSense,
                  isOpen runnerSensesSentry.toGrid c = true ∧ c ≠ runnerSensesSentry.sentryLoc
                    ∧ isAdjacent c runnerSensesSentry.sentryLoc = false)
              ∧ ∀ moved s1, moveRunner 50 runnerSensesSentry = some (moved, s1) →
                  s1.runnerSentryKnownLoc = runnerSensesSentry.sentryLoc
                    ∧ s1.runnerPath = (path.take RunnerSense).tail
                    ∧ s1.runnerPath.length ≤ RunnerSense - 1
                    ∧ RunnerSense - 1 = 1
                    ∧ (path = [] → moved = false ∧ s1.runnerLoc = runnerSensesSentry.runnerLoc)
                    ∧ (∀ front rest, path = front :: rest →
                        moved = true ∧ s1.runnerLoc = front) :=
  ⟨by decide, _, _, rfl, by decide, _, _, rfl, by decide,
    (moveRunner_flees 50 runnerSensesSentry _ _ (by decide) rfl (by decide)).2 _ _ rfl⟩

end RunnerFlees

section ShortestRoutes

theorem isAdjacent_ne {a b : Location} (h : isAdjacent a b = true) : a ≠ b := by
  intro hab
  subst hab
  simp [isAdjacent] at h

/-- A shortest route to its last cell visits no cell twice and never returns to its start. -/
theorem IsRoute.nodup_of_shortest {ok : Location → Bool} :
    ∀ (p : List Location) (a : Location), IsRoute ok a p →
      (∀ route, IsRoute ok a route → routeEnd a route = routeEnd a p →
        p.length ≤ route.length) →
      a ∉ p ∧ p.Nodup := by
  intro p
  induction p with
  | nil => intro a _ _; exact ⟨by simp, List.nodup_nil⟩
  | cons b rest ih =>
    intro a h hshort
    rw [isRoute_cons] at h
    obtain ⟨hadj, hok, hrest⟩ := h
    have hrec := ih b hrest (by
      intro route hroute hend
      have := hshort (b :: route) (isRoute_cons.2 ⟨hadj, hok, hroute⟩) (by simpa [routeEnd] using hend)
      simpa using this)
    refine ⟨?_, List.nodup_cons.2 hrec⟩
    intro hmem
    rcases List.mem_cons.1 hmem with hab | hmem
    · exact isAdjacent_ne hadj hab
    · obtain ⟨l1, l2, hl⟩ := List.append_of_mem hmem
      rw [hl, isRoute_append, isRoute_cons] at hrest
      have := hshort l2 hrest.2.2.2 (by
        rw [hl]
        simp [routeEnd, routeEnd_append])
      rw [hl] at this
      simp only [List.length_cons, List.length_append] at this
      omega

/-- Claim C19. `findLongestPathBfs` returns (its loops, the walk back along the predecessor map
included, end within the fuel `searchFuel`), and whenever the path it returns is not empty, the
path is a forward-ordered route that excludes the start: its first cell is orthogonally adjacent
to the start and every later cell to the one before it, no cell occurs twice, every cell is in
bounds, not a wall and neither equal nor adjacent to `avoid`, and no route through such cells
from the start to the path's last cell is shorter. -/
theorem findLongestPathBfs_returns_shortest_route (g : Grid) (startLoc avoid : Location)
    (maxSearchDistance : Int) (r : Rng) :
    (∀ fuel, searchFuel g ≤ fuel →
        ∃ res, findLongestPathBfs fuel g startLoc avoid maxSearchDistance r = some res)
      ∧ ∀ fuel p r',
          findLongestPathBfs fuel g startLoc avoid maxSearchDistance r = some (p, r') →
          p ≠ [] →
          IsRoute (isClearOf g avoid) startLoc p
            ∧ startLoc ∉ p ∧ p.Nodup
            ∧ (∀ c ∈ p, isInMazeBounds g c = true ∧ isWall g c = false ∧ c ≠ avoid
                ∧ isAdjacent c avoid = false)
            ∧ ∀ route, IsRoute (isClearOf g avoid) startLoc route →
                routeEnd startLoc route = routeEnd startLoc p → p.length ≤ route.length := by
  refine ⟨fun fuel hfuel => findLongestPathBfs_terminates g _ _ _ r fuel hfuel, ?_⟩
  intro fuel p r' h _
  obtain ⟨hroute, hdist, _, _⟩ := findLongestPathBfs_spec h
  have hfun : isPassable g avoid = isClearOf g avoid :=
    funext (isPassable_eq_isClearOf g avoid)
  rw [hfun] at hroute hdist
  have hshort : ∀ route, IsRoute (isClearOf g avoid) startLoc route →
      routeEnd startLoc route = routeEnd startLoc p → p.length ≤ route.length := by
    intro route hr hend
    have := reach_of_isRoute hr
    rw [hend] at this
    exact hdist.2 _ this
  obtain ⟨hstart, hnodup⟩ := IsRoute.nodup_of_shortest p startLoc hroute hshort
  refine ⟨hroute, hstart, hnodup, ?_, hshort⟩
  intro c hc
  have hclear := hroute.forall_ok c hc
  simp only [isClearOf, isOpen, Bool.and_eq_true, decide_eq_true_eq, Bool.not_eq_true'] at hclear
  exact ⟨hclear.1.1.1, hclear.1.1.2, hclear.1.2, hclear.2⟩

set_option maxRecDepth 1000000 in
/-- Witness for C19: on `grid4x2`, searching from `(2, 0)` while avoiding `(0, 0)`. -/
theorem findLongestPathBfs_returns_shortest_route_witness :
    findLongestPathBfs 50 grid4x2 ⟨2, 0⟩ ⟨0, 0⟩ 12 (rngOfList [3])
        = some ([⟨2, 1⟩, ⟨1, 1⟩], ⟨fun i => ([3] : List Nat).getD i 0, 16⟩)
      ∧ ([⟨2, 1⟩, ⟨1, 1⟩] : List Location) ≠ []
      ∧ IsRoute (isClearOf grid4x2 ⟨0, 0⟩) ⟨2, 0⟩ [⟨2, 1⟩, ⟨1, 1⟩]
      ∧ (⟨2, 0⟩ : Location) ∉ ([⟨2, 1⟩, ⟨1, 1⟩] : List Location)
      ∧ ([⟨2, 1⟩, ⟨1, 1⟩] : List Location).Nodup
      ∧ (∀ c ∈ ([⟨2, 1⟩, ⟨1, 1⟩] : List Location),
          isInMazeBounds grid4x2 c = true ∧ isWall grid4x2 c = false ∧ c ≠ ⟨0, 0⟩
            ∧ isAdjacent c ⟨0, 0⟩ = false)
      ∧ ∀ route, IsRoute (isClearOf grid4x2 ⟨0, 0⟩) ⟨2, 0⟩ route →
          routeEnd ⟨2, 0⟩ route = routeEnd ⟨2, 0⟩ [⟨2, 1⟩, ⟨1, 1⟩] →
          ([⟨2, 1⟩, ⟨1, 1⟩] : List Location).length ≤ route.length :=
  ⟨rfl, by decide,
    (findLongestPathBfs_returns_shortest_route grid4x2 ⟨2, 0⟩ ⟨0, 0⟩ 12 (rngOfList [3])).2
      50 _ _ rfl (by decide)⟩

end ShortestRoutes

section CarvingTree

theorem foldl_count (P : Direction → Prop) [DecidablePred P] :
    ∀ (l : List Direction) (n : Nat),
      l.foldl (fun count d => if P d then count + 1 else count) n
        = n + (l.filter (fun d => decide (P d))).length := by
  intro l
  induction l with
  | nil => intro n; simp
  | cons d l ih =>
    intro n
    simp only [List.foldl_cons, List.filter_cons]
    rw [ih]
    by_cases h : P d
    · simp only [h, if_true, decide_True, List.length_cons]
      omega
    · simp [h]

/-- The count of `getAdjacentWallAndBorderCount` is the number of directions in which the
neighbour is not an open cell. -/
theorem getAdjacentWallAndBorderCount_eq (g : Grid) (c : Location) :
    getAdjacentWallAndBorderCount g c
      = ([Left, Right, Up, Down].filter (fun d => !isOpen g (stepFrom c d))).length := by
  unfold getAdjacentWallAndBorderCount getAdjacentWallAndBorderCountAt Directions
  rw [foldl_count]
  simp only [Nat.zero_add]
  congr 1
  apply List.filter_congr
  intro d _
  simp only [isOpen, isInMazeBounds, isInMazeBoundsAt, isWall, isWallAt, stepFrom,
    Bool.and_eq_true, decide_eq_true_eq, Bool.not_eq_true', Bool.not_and, Bool.not_not]
  by_cases hw : g.mazeWalls (c.y + d.y) (c.x + d.x) = true
  · simp [hw]
  · have hw' : g.mazeWalls (c.y + d.y) (c.x + d.x) = false := by simpa using hw
    simp only [hw', Bool.false_eq_true, or_false, Bool.or_false]
    rw [Bool.eq_iff_iff]
    simp only [decide_eq_true_eq, Bool.or_eq_true, Bool.not_eq_true', decide_eq_false_iff_not]
    constructor <;> intro h <;> omega

/-- A cell with at least three wall-or-border neighbours has at most one open neighbour. -/
theorem open_neighbour_unique {g : Grid} {n u w : Location}
    (hcount : getAdjacentWallAndBorderCount g n ≥ 3)
    (hu : isAdjacent n u = true) (hw : isAdjacent n w = true)
    (hou : isOpen g u = true) (how : isOpen g w = true) : u = w := by
  obtain ⟨d1, hd1, rfl⟩ := exists_step_of_isAdjacent n u hu
  obtain ⟨d2, hd2, rfl⟩ := exists_step_of_isAdjacent n w hw
  rw [getAdjacentWallAndBorderCount_eq] at hcount
  simp only [List.mem_cons, List.mem_singleton, List.not_mem_nil, or_false] at hd1 hd2
  have hlen : ∀ (b1 b2 b3 b4 : Bool), (b1 = false ∧ b2 = false) ∨ (b1 = false ∧ b3 = false)
      ∨ (b1 = false ∧ b4 = false) ∨ (b2 = false ∧ b3 = false) ∨ (b2 = false ∧ b4 = false)
      ∨ (b3 = false ∧ b4 = false) →
      ((if b1 then 1 else 0) + (if b2 then 1 else 0) + (if b3 then 1 else 0)
        + (if b4 then 1 else 0) : Nat) ≤ 2 := by
    decide
  have hfilter : ([Left, Right, Up, Down].filter (fun d => !isOpen g (stepFrom n d))).length
      = (if (!isOpen g (stepFrom n Left)) then 1 else 0)
        + (if (!isOpen g (stepFrom n Right)) then 1 else 0)
        + (if (!isOpen g (stepFrom n Up)) then 1 else 0)
        + (if (!isOpen g (stepFrom n Down)) then 1 else 0) := by
    simp only [List.filter_cons, List.filter_nil]
    cases isOpen g (stepFrom n Left) <;> cases isOpen g (stepFrom n Right)
      <;> cases isOpen g (stepFrom n Up) <;> cases isOpen g (stepFrom n Down) <;> rfl
  rw [hfilter] at hcount
  rcases hd1 with rfl | rfl | rfl | rfl <;> rcases hd2 with rfl | rfl | rfl | rfl
    <;> first
      | rfl
      | (exfalso
         have := hlen (!isOpen g (stepFrom n Left)) (!isOpen g (stepFrom n Right))
           (!isOpen g (stepFrom n Up)) (!isOpen g (stepFrom n Down)) (by simp [hou, how])
         omega)

/-- The cell the loop carves has exactly one open neighbour, the cell on top of the stack. -/
theorem canCarve_open_neighbour {g : Grid} {cur : Location} {step : Direction} {m : Location}
    (hstep : step ∈ [Left, Right, Up, Down]) (hcur : isOpen g cur = true)
    (hcan : canCarve g (stepFrom cur step) = true)
    (hadj : isAdjacent (stepFrom cur step) m = true) :
    isOpen g m = true ↔ m = cur := by
  have hcount : getAdjacentWallAndBorderCount g (stepFrom cur step) ≥ 3 := by
    simp only [canCarve, Bool.and_eq_true, decide_eq_true_eq] at hcan
    exact hcan.2
  have hadj' : isAdjacent (stepFrom cur step) cur = true := by
    rw [isAdjacent_comm]
    exact isAdjacent_stepFrom cur step hstep
  constructor
  · intro hm
    exact open_neighbour_unique hcount hadj hadj' hm hcur
  · intro hm
    rw [hm]
    exact hcur

theorem IsRoute.imp_mem {ok ok' : Location → Bool} {p : List Location} {a : Location}
    (h : ∀ c ∈ p, ok c = true → ok' c = true) (hr : IsRoute ok a p) : IsRoute ok' a p := by
  induction p generalizing a with
  | nil => trivial
  | cons x p ih =>
    rw [isRoute_cons] at hr ⊢
    exact ⟨hr.1, h x (by simp) hr.2.1,
      ih (fun c hc => h c (List.mem_cons_of_mem _ hc)) hr.2.2⟩

theorem routeEnd_eq_or_mem (a : Location) (p : List Location) :
    routeEnd a p = a ∨ routeEnd a p ∈ p := by
  cases p with
  | nil => exact Or.inl rfl
  | cons b rest => exact Or.inr (routeEnd_mem (by simp))

/-- Every cell of a cycle has two different open neighbours. -/
theorem IsCycle.two_neighbours {g : Grid} {cycle : List Location} (h : IsCycle g cycle)
    {v : Location} (hv : v ∈ cycle) :
    ∃ u w, u ≠ w ∧ isOpen g u = true ∧ isOpen g w = true
      ∧ isAdjacent v u = true ∧ isAdjacent v w = true := by
  cases cycle with
  | nil => exact absurd hv (by simp)
  | cons a rest =>
    obtain ⟨hlen, hnodup, hopen, hroute, hclose⟩ := h
    have hanot : a ∉ rest := (List.nodup_cons.1 hnodup).1
    have hrestnd : rest.Nodup := (List.nodup_cons.1 hnodup).2
    rcases List.mem_cons.1 hv with rfl | hv
    · -- the first cell: its successor and the last cell
      cases rest with
      | nil => simp at hlen
      | cons b rest' =>
        have hne : rest' ≠ [] := by
          intro h0
          simp [h0] at hlen
        rw [isRoute_cons] at hroute
        have hend : routeEnd v (b :: rest') ∈ rest' := routeEnd_mem (a := b) hne
        refine ⟨b, routeEnd v (b :: rest'), ?_, hroute.2.1, ?_, hroute.1, ?_⟩
        · intro hb
          rw [← hb] at hend
          exact (List.nodup_cons.1 hrestnd).1 hend
        · exact hroute.2.2.forall_ok _ hend
        · rw [isAdjacent_comm]
          exact hclose
    · obtain ⟨l1, l2, hl⟩ := List.append_of_mem hv
      subst hl
      rw [isRoute_append, isRoute_cons] at hroute
      obtain ⟨hr1, hadj1, hokv, hr2⟩ := hroute
      have hu : isOpen g (routeEnd a l1) = true := by
        rcases routeEnd_eq_or_mem a l1 with h | h
        · rw [h]; exact hopen
        · exact hr1.forall_ok _ h
      have hadjv : isAdjacent v (routeEnd a l1) = true := by
        rw [isAdjacent_comm]
        exact hadj1
      have hdisj : ∀ x, x ∈ l1 → x ∈ l2 → False := by
        intro x h1 h2
        have := (List.nodup_append.1 hrestnd).2.2
        exact this h1 (List.mem_cons_of_mem _ h2)
      cases l2 with
      | nil =>
        have hend : routeEnd a (l1 ++ [v]) = v := by simp [routeEnd_append, routeEnd]
        rw [hend] at hclose
        refine ⟨routeEnd a l1, a, ?_, hu, hopen, hadjv, hclose⟩
        intro heq
        rcases routeEnd_eq_or_mem a l1 with h | h
        · cases l1 with
          | nil => simp at hlen
          | cons x l1' =>
            have hmem : routeEnd a (x :: l1') ∈ x :: l1' := routeEnd_mem (by simp)
            rw [heq] at hmem
            exact hanot (List.mem_append_left _ hmem)
        · rw [heq] at h
          exact hanot (List.mem_append_left _ h)
      | cons c l2' =>
        rw [isRoute_cons] at hr2
        refine ⟨routeEnd a l1, c, ?_, hu, hr2.2.1, hadjv, hr2.1⟩
        intro heq
        rcases routeEnd_eq_or_mem a l1 with h | h
        · rw [h] at heq
          apply hanot
          rw [heq]
          simp
        · rw [heq] at h
          exact hdisj c h (by simp)

/-- Carving a cell that passes the test of the loop creates no cycle. -/
theorem Acyclic.afterCarve {g : Grid} {n : Location} (h : Acyclic g) (hcan : canCarve g n = true) :
    Acyclic (setWall g n.x n.y false) := by
  intro cycle hcyc
  have hcount : getAdjacentWallAndBorderCount g n ≥ 3 := by
    simp only [canCarve, Bool.and_eq_true, decide_eq_true_eq] at hcan
    exact hcan.2
  by_cases hn : n ∈ cycle
  · obtain ⟨u, w, hne, hu, hw, hau, haw⟩ := hcyc.two_neighbours hn
    have hu' : isOpen g u = true := by
      rcases isOpen_of_isOpen_setWall g n u hu with h | h
      · exact h
      · exact absurd h.symm (isAdjacent_ne hau)
    have hw' : isOpen g w = true := by
      rcases isOpen_of_isOpen_setWall g n w hw with h | h
      · exact h
      · exact absurd h.symm (isAdjacent_ne haw)
    exact hne (open_neighbour_unique hcount hau haw hu' hw')
  · apply h cycle
    have hback : ∀ c ∈ cycle, isOpen (setWall g n.x n.y false) c = true → isOpen g c = true := by
      intro c hc hopen
      rcases isOpen_of_isOpen_setWall g n c hopen with h | h
      · exact h
      · rw [h] at hc
        exact absurd hc hn
    cases cycle with
    | nil => exact hcyc
    | cons a rest =>
      obtain ⟨hlen, hnodup, hopen, hroute, hclose⟩ := hcyc
      exact ⟨hlen, hnodup, hback a (by simp) hopen,
        hroute.imp_mem (fun c hc => hback c (List.mem_cons_of_mem _ hc)), hclose⟩

/-- A maze with a single open cell has no cycle. -/
theorem acyclic_of_single {g : Grid} {seed : Location}
    (h : ∀ c, isOpen g c = true → c = seed) : Acyclic g := by
  intro cycle hcyc
  cases cycle with
  | nil => exact hcyc
  | cons a rest =>
    obtain ⟨hlen, hnodup, hopen, hroute, _⟩ := hcyc
    cases rest with
    | nil => simp at hlen
    | cons b rest' =>
      rw [isRoute_cons] at hroute
      have ha := h a hopen
      have hb := h b hroute.2.1
      rw [← hb] at ha
      exact isAdjacent_ne hroute.1 ha

theorem isOpen_initial {g : Grid} {seed c : Location}
    (hc : isOpen (setWall (fillWalls g) seed.x seed.y false) c = true) : c = seed := by
  rcases isOpen_of_isOpen_setWall (fillWalls g) seed c hc with hc' | h
  · exfalso
    simp only [isOpen, isInMazeBounds, isWall, isWallAt, fillWalls, Bool.and_eq_true,
      Bool.not_eq_true'] at hc'
    obtain ⟨h1, h2⟩ := hc'
    have h1' : isInMazeBoundsAt g c.x c.y = true := h1
    rw [if_pos h1'] at h2
    exact Bool.noConfusion h2
  · exact h

theorem carveLoop_acyclic :
    ∀ (n : Nat) (g : Grid) (stack : List Location) (r : Rng), Acyclic g →
      Acyclic (carveLoop n g stack r).1 := by
  intro n
  induction n with
  | zero =>
    intro g stack r h
    cases stack <;> simpa [carveLoop] using h
  | succ n ih =>
    intro g stack r h
    cases stack with
    | nil => simpa [carveLoop] using h
    | cons cur rest =>
      simp only [carveLoop]
      split
      · rename_i step hfind
        have hcan : canCarve g (stepFrom cur step) = true :=
          List.find?_some (p := fun step => canCarve g (stepFrom cur step)) hfind
        exact ih _ _ _ (h.afterCarve hcan)
      · exact ih _ _ _ h

/-- At every carving the carved cell is a neighbour of the stack top and has no other open
neighbour. -/
theorem carveSteps_spec :
    ∀ (n : Nat) (g : Grid) (stack : List Location) (r : Rng),
      (∀ c ∈ stack, isOpen g c = true) →
      ∀ e ∈ carveSteps n g stack r,
        isOpen e.1 e.2.1 = true ∧ isAdjacent e.2.2 e.2.1 = true
          ∧ ∀ m, isAdjacent e.2.2 m = true → (isOpen e.1 m = true ↔ m = e.2.1) := by
  intro n
  induction n with
  | zero =>
    intro g stack r _ e he
    cases stack <;> simp [carveSteps] at he
  | succ n ih =>
    intro g stack r hstack e he
    cases stack with
    | nil => simp [carveSteps] at he
    | cons cur rest =>
      simp only [carveSteps] at he
      split at he
      · rename_i step hfind
        have hmem := (mem_shuffleDirections r step).1 (List.mem_of_find?_eq_some hfind)
        have hcan : canCarve g (stepFrom cur step) = true :=
          List.find?_some (p := fun step => canCarve g (stepFrom cur step)) hfind
        have hcur := hstack cur (by simp)
        rcases List.mem_cons.1 he with rfl | he
        · refine ⟨hcur, ?_, ?_⟩
          · rw [isAdjacent_comm]
            exact isAdjacent_stepFrom cur step hmem
          · intro m hm
            exact canCarve_open_neighbour hmem hcur hcan hm
        · apply ih _ _ _ _ e he
          intro c hc
          have hin : isInMazeBounds g (stepFrom cur step) = true := by
            simp only [canCarve, Bool.and_eq_true] at hcan
            exact hcan.1.1
          rcases List.mem_cons.1 hc with rfl | hc
          · exact isOpen_setWall_self g _ hin
          · exact isOpen_setWall_of_isOpen g _ c (hstack c hc)
      · exact ih _ _ _ (fun c hc => hstack c (List.mem_cons_of_mem _ hc)) e he

/-- The grid the loop returns is the grid it started from with the recorded cells opened. -/
theorem carveLoop_eq_foldl_carveSteps :
    ∀ (n : Nat) (g : Grid) (stack : List Location) (r : Rng),
      (carveLoop n g stack r).1
        = (carveSteps n g stack r).foldl (fun g' e => setWall g' e.2.2.x e.2.2.y false) g := by
  intro n
  induction n with
  | zero =>
    intro g stack r
    cases stack <;> simp [carveLoop, carveSteps]
  | succ n ih =>
    intro g stack r
    cases stack with
    | nil => simp [carveLoop, carveSteps]
    | cons cur rest =>
      simp only [carveLoop, carveSteps]
      split
      · rw [ih]
        rfl
      · exact ih _ _ _

/-- Claim C17. For every width and height of at least 1, every random source and every seed
cell inside the grid: the grid after the carving phase of `generateMaze` is the grid with only
the seed open in which the carved cells have been opened one by one; each carving opens a
neighbour of the cell on top of the traversal stack, and at that moment the carved cell has
exactly one open orthogonal neighbour, that stack top; immediately after the carving phase the
open cells form a tree under orthogonal adjacency (connected and without a cycle). -/
theorem generateMaze_carving_tree (s : State) (hw : 1 ≤ s.width) (hh : 1 ≤ s.height)
    (hrunner : s.exitLoc ≠ NullLocation → isInMazeBounds s.toGrid s.runnerLoc = true) :
    (generateMazeCarve s).1
        = (generateMazeSteps s).foldl (fun g' e => setWall g' e.2.2.x e.2.2.y false)
            (setWall (fillWalls s.toGrid) (chooseStart s).1.x (chooseStart s).1.y false)
      ∧ (∀ e ∈ generateMazeSteps s,
          isOpen e.1 e.2.1 = true ∧ isAdjacent e.2.2 e.2.1 = true
            ∧ ∀ m, isAdjacent e.2.2 m = true → (isOpen e.1 m = true ↔ m = e.2.1))
      ∧ IsTree (generateMazeCarve s).1 := by
  have hin := chooseStart_inBounds s hw hh hrunner
  have hin' : isInMazeBounds (fillWalls s.toGrid) (chooseStart s).1 = true := hin
  refine ⟨carveLoop_eq_foldl_carveSteps 1000 _ _ _, ?_,
    (generateMazeCarve_inv s hw hh hrunner).connected, ?_⟩
  · apply carveSteps_spec
    intro c hc
    rw [List.mem_singleton] at hc
    rw [hc]
    exact isOpen_setWall_self _ _ hin'
  · exact carveLoop_acyclic 1000 _ _ _ (acyclic_of_single (fun c hc => isOpen_initial hc))

set_option maxRecDepth 100000 in
/-- Witness for C17: the freshly constructed 3x3 runner, whose carving phase makes four
carvings. -/
theorem generateMaze_carving_tree_witness :
    (1 ≤ fresh3x3.width ∧ 1 ≤ fresh3x3.height ∧ (generateMazeSteps fresh3x3).length = 4)
      ∧ (generateMazeCarve fresh3x3).1
          = (generateMazeSteps fresh3x3).foldl (fun g' e => setWall g' e.2.2.x e.2.2.y false)
              (setWall (fillWalls fresh3x3.toGrid) (chooseStart fresh3x3).1.x
                (chooseStart fresh3x3).1.y false)
      ∧ (∀ e ∈ generateMazeSteps fresh3x3,
          isOpen e.1 e.2.1 = true ∧ isAdjacent e.2.2 e.2.1 = true
            ∧ ∀ m, isAdjacent e.2.2 m = true → (isOpen e.1 m = true ↔ m = e.2.1))
      ∧ IsTree (generateMazeCarve fresh3x3).1 :=
  ⟨⟨by decide, by decide, by decide⟩,
    generateMaze_carving_tree fresh3x3 (by decide) (by decide) (fun h => absurd rfl h)⟩

end CarvingTree

section CarvingBudget

theorem isWall_of_isWall_setWall {g : Grid} {n m : Location}
    (h : isWall (setWall g n.x n.y false) m = true) : isWall g m = true ∧ m ≠ n := by
  simp only [isWall, isWallAt, setWall] at h ⊢
  split at h
  · exact absurd h (by simp)
  · rename_i hne
    refine ⟨h, ?_⟩
    intro hmn
    apply hne
    rw [hmn]
    exact ⟨rfl, rfl⟩

/-- Carving never makes a cell carvable: the test only becomes harder to pass. -/
theorem canCarve_of_canCarve_setWall {g : Grid} {n m : Location}
    (h : canCarve (setWall g n.x n.y false) m = true) : canCarve g m = true := by
  simp only [canCarve, Bool.and_eq_true, decide_eq_true_eq] at h ⊢
  obtain ⟨⟨hin, hwall⟩, hcount⟩ := h
  refine ⟨⟨hin, (isWall_of_isWall_setWall hwall).1⟩, ?_⟩
  rw [getAdjacentWallAndBorderCount_eq] at hcount ⊢
  refine Nat.le_trans hcount (List.Sublist.length_le (List.monotone_filter_right _ ?_))
  intro d hd
  simp only [Bool.not_eq_true', ← Bool.not_eq_true] at hd ⊢
  intro hopen
  exact hd (isOpen_setWall_of_isOpen g n _ hopen)

theorem GrownInv.grownCarve {g : Grid} {cur n : Location} {rest : List Location}
    (h : GrownInv g (cur :: rest)) :
    GrownInv (setWall g n.x n.y false) (n :: cur :: rest) := by
  intro c hc
  rcases isOpen_of_isOpen_setWall g n c hc with hc' | rfl
  · rcases h c hc' with hmem | hdone
    · exact Or.inl (List.mem_cons_of_mem _ hmem)
    · right
      intro d hd
      cases hcan : canCarve (setWall g n.x n.y false) (stepFrom c d) with
      | false => rfl
      | true =>
        have := canCarve_of_canCarve_setWall hcan
        rw [hdone d hd] at this
        exact absurd this (by simp)
  · exact Or.inl (by simp)

theorem carveLoop_grown :
    ∀ (n : Nat) (g : Grid) (stack : List Location) (r : Rng), GrownInv g stack →
      GrownInv (carveLoop n g stack r).1 (carveLoop n g stack r).2.1 := by
  intro n
  induction n with
  | zero =>
    intro g stack r h
    cases stack <;> simpa [carveLoop] using h
  | succ n ih =>
    intro g stack r h
    cases stack with
    | nil => simpa [carveLoop] using h
    | cons cur rest =>
      simp only [carveLoop]
      split
      · exact ih _ _ _ h.grownCarve
      · rename_i hfind
        apply ih
        intro c hc
        rcases h c hc with hmem | hdone
        · rcases List.mem_cons.1 hmem with rfl | hmem
          · right
            intro d hd
            have hd' := (mem_shuffleDirections r d).2 hd
            have := List.find?_eq_none.1 hfind d hd'
            simpa using this
          · exact Or.inl hmem
        · exact Or.inr hdone

theorem filter_length_lt_of_imp {P Q : Location → Bool} {n : Location} :
    ∀ (l : List Location), (∀ c, P c = true → Q c = true) → n ∈ l → Q n = true → P n = false →
      (l.filter P).length < (l.filter Q).length := by
  intro l
  induction l with
  | nil => intro _ hn; exact absurd hn (by simp)
  | cons x l ih =>
    intro himp hn hq hp
    have hle : (l.filter P).length ≤ (l.filter Q).length :=
      List.Sublist.length_le (List.monotone_filter_right _ (fun c hc => himp c hc))
    rcases List.mem_cons.1 hn with rfl | hn
    · simp only [List.filter_cons, hp, hq, if_true, List.length_cons]
      simp only [Bool.false_eq_true, if_false]
      omega
    · have := ih himp hn hq hp
      simp only [List.filter_cons]
      cases hpx : P x with
      | false =>
        cases hqx : Q x with
        | false => simpa using this
        | true => simp only [Bool.false_eq_true, if_false, if_true, List.length_cons]; omega
      | true =>
        rw [himp x hpx]
        simpa using this

/-- Carving a wall inside the grid lowers the number of walls. -/
theorem wallCount_setWall_lt {g : Grid} {n : Location} (hin : isInMazeBounds g n = true)
    (hwall : isWall g n = true) : wallCount (setWall g n.x n.y false) < wallCount g := by
  unfold wallCount
  have hcells : gridCells (setWall g n.x n.y false) = gridCells g := rfl
  rw [hcells]
  apply filter_length_lt_of_imp (n := n)
  · intro c hc
    exact (isWall_of_isWall_setWall hc).1
  · exact mem_gridCells.2 hin
  · exact hwall
  · simp [isWall, isWallAt, setWall]

/-- The loop empties its stack within `2 * walls + stack size` iterations. -/
theorem carveLoop_stack_empty :
    ∀ (n : Nat) (g : Grid) (stack : List Location) (r : Rng),
      2 * wallCount g + stack.length ≤ n → (carveLoop n g stack r).2.1 = [] := by
  intro n
  induction n with
  | zero =>
    intro g stack r h
    cases stack with
    | nil => simp [carveLoop]
    | cons c rest => simp at h
  | succ n ih =>
    intro g stack r h
    cases stack with
    | nil => simp [carveLoop]
    | cons cur rest =>
      simp only [carveLoop]
      split
      · rename_i step hfind
        have hcan : canCarve g (stepFrom cur step) = true :=
          List.find?_some (p := fun step => canCarve g (stepFrom cur step)) hfind
        simp only [canCarve, Bool.and_eq_true] at hcan
        have := wallCount_setWall_lt hcan.1.1 hcan.1.2
        apply ih
        simp only [List.length_cons] at h ⊢
        omega
      · apply ih
        simp only [List.length_cons] at h
        omega

theorem flatMap_length_const (f : Nat → List Location) (w : Nat)
    (hf : ∀ y, (f y).length = w) :
    ∀ l : List Nat, (l.flatMap f).length = l.length * w := by
  intro l
  induction l with
  | nil => simp
  | cons y l ih =>
    rw [List.flatMap_cons, List.length_append, ih, hf, List.length_cons, Nat.succ_mul]
    omega

theorem gridCells_length (g : Grid) :
    (gridCells g).length = g.height.toNat * g.width.toNat := by
  unfold gridCells
  rw [flatMap_length_const _ g.width.toNat (fun y => by simp), List.length_range]

/-- Once the budget covers `2 * walls + stack size`, a larger budget changes nothing. -/
theorem carveLoop_budget_irrelevant :
    ∀ (n : Nat) (g : Grid) (stack : List Location) (r : Rng),
      2 * wallCount g + stack.length ≤ n → ∀ m, n ≤ m →
      carveLoop m g stack r = carveLoop n g stack r := by
  intro n
  induction n with
  | zero =>
    intro g stack r h m _
    cases stack with
    | nil => cases m <;> simp [carveLoop]
    | cons c rest => simp at h
  | succ n ih =>
    intro g stack r h m hm
    cases stack with
    | nil => cases m <;> simp [carveLoop]
    | cons cur rest =>
      cases m with
      | zero => omega
      | succ m =>
        simp only [carveLoop]
        split
        · rename_i step hfind
          have hcan : canCarve g (stepFrom cur step) = true :=
            List.find?_some (p := fun step => canCarve g (stepFrom cur step)) hfind
          simp only [canCarve, Bool.and_eq_true] at hcan
          have := wallCount_setWall_lt hcan.1.1 hcan.1.2
          apply ih
          · simp only [List.length_cons] at h ⊢
            omega
          · omega
        · apply ih
          · simp only [List.length_cons] at h
            omega
          · omega

/-- The measure of the carving loop when it starts: one open cell, one stack entry. -/
theorem carve_measure_initial (g : Grid) (seed : Location)
    (hin : isInMazeBounds g seed = true) :
    2 * wallCount (setWall (fillWalls g) seed.x seed.y false) + [seed].length
      ≤ 2 * (g.height.toNat * g.width.toNat) - 1 := by
  have hcells : gridCells (setWall (fillWalls g) seed.x seed.y false) = gridCells g := rfl
  have hlt : wallCount (setWall (fillWalls g) seed.x seed.y false) < (gridCells g).length := by
    unfold wallCount
    rw [hcells]
    have := filter_length_lt_of_imp (P := fun c => isWall (setWall (fillWalls g) seed.x seed.y
      false) c) (Q := fun _ => true) (n := seed) (gridCells g) (fun _ _ => rfl)
      (mem_gridCells.2 hin) rfl (by simp [isWall, isWallAt, setWall])
    simpa using this
  rw [gridCells_length] at hlt
  simp only [List.length_singleton]
  omega

/-- Claim C20. For every grid with `2 * width * height ≤ 1000` (width and height at least 1),
every seed cell inside the grid and every random source, the carving loop of `generateMaze`
ends with its traversal stack empty, and a larger iteration budget than 1000 would give the same
result; when it ends, no open cell has an in-bounds wall neighbour that still has at least
three wall-or-border neighbours. -/
theorem generateMaze_carving_fully_grown (s : State) (hw : 1 ≤ s.width) (hh : 1 ≤ s.height)
    (hsize : 2 * s.width * s.height ≤ 1000)
    (hrunner : s.exitLoc ≠ NullLocation → isInMazeBounds s.toGrid s.runnerLoc = true) :
    (generateMazeCarve s).2.1 = []
      ∧ (∀ budget, 1000 ≤ budget →
          carveLoop budget
            (setWall (fillWalls s.toGrid) (chooseStart s).1.x (chooseStart s).1.y false)
            [(chooseStart s).1] (chooseStart s).2 = generateMazeCarve s)
      ∧ ∀ c, isOpen (generateMazeCarve s).1 c = true → ∀ m, isAdjacent c m = true →
          ¬ (isInMazeBounds (generateMazeCarve s).1 m = true
              ∧ isWall (generateMazeCarve s).1 m = true
              ∧ getAdjacentWallAndBorderCount (generateMazeCarve s).1 m ≥ 3) := by
  have hin := chooseStart_inBounds s hw hh hrunner
  have hmeasure := carve_measure_initial s.toGrid (chooseStart s).1 hin
  have hcells : s.height.toNat * s.width.toNat ≤ 500 := by
    have h1 : (s.width.toNat : Int) = s.width := Int.toNat_of_nonneg (by omega)
    have h2 : (s.height.toNat : Int) = s.height := Int.toNat_of_nonneg (by omega)
    rw [← h1, ← h2] at hsize
    have h3 : 2 * s.width.toNat * s.height.toNat ≤ 1000 := by exact_mod_cast hsize
    calc s.height.toNat * s.width.toNat = s.width.toNat * s.height.toNat := Nat.mul_comm _ _
      _ ≤ 500 := by
        have : 2 * (s.width.toNat * s.height.toNat) ≤ 1000 := by
          rw [← Nat.mul_assoc]
          exact h3
        omega
  have hbudget : 2 * wallCount (setWall (fillWalls s.toGrid) (chooseStart s).1.x
      (chooseStart s).1.y false) + [(chooseStart s).1].length ≤ 1000 := by omega
  have hempty : (generateMazeCarve s).2.1 = [] := carveLoop_stack_empty 1000 _ _ _ hbudget
  refine ⟨hempty, fun budget hb => carveLoop_budget_irrelevant 1000 _ _ _ hbudget budget hb, ?_⟩
  have hgrown : GrownInv (generateMazeCarve s).1 (generateMazeCarve s).2.1 := by
    apply carveLoop_grown
    intro c hc
    left
    rw [isOpen_initial hc]
    simp
  intro c hc m hm hcarvable
  rcases hgrown c hc with hmem | hdone
  · rw [hempty] at hmem
    exact absurd hmem (by simp)
  · obtain ⟨d, hd, rfl⟩ := exists_step_of_isAdjacent c m hm
    have := hdone d hd
    simp only [canCarve, hcarvable.1, hcarvable.2.1, Bool.and_self, Bool.true_and,
      decide_eq_false_iff_not] at this
    exact this hcarvable.2.2

set_option maxRecDepth 100000 in
/-- Witness for C20: the freshly constructed 3x3 runner. -/
theorem generateMaze_carving_fully_grown_witness :
    (1 ≤ fresh3x3.width ∧ 1 ≤ fresh3x3.height ∧ 2 * fresh3x3.width * fresh3x3.height ≤ 1000)
      ∧ (generateMazeCarve fresh3x3).2.1 = []
      ∧ (∀ budget, 1000 ≤ budget →
          carveLoop budget
            (setWall (fillWalls fresh3x3.toGrid) (chooseStart fresh3x3).1.x
              (chooseStart fresh3x3).1.y false)
            [(chooseStart fresh3x3).1] (chooseStart fresh3x3).2 = generateMazeCarve fresh3x3)
      ∧ ∀ c, isOpen (generateMazeCarve fresh3x3).1 c = true → ∀ m, isAdjacent c m = true →
          ¬ (isInMazeBounds (generateMazeCarve fresh3x3).1 m = true
              ∧ isWall (generateMazeCarve fresh3x3).1 m = true
              ∧ getAdjacentWallAndBorderCount (generateMazeCarve fresh3x3).1 m ≥ 3) :=
  ⟨⟨by decide, by decide, by decide⟩,
    generateMaze_carving_fully_grown fresh3x3 (by decide) (by decide) (by decide)
      (fun h => absurd rfl h)⟩

end CarvingBudget

section Reachability

theorem IsRoute.take {ok : Location → Bool} {p : List Location} {a : Location} (k : Nat)
    (h : IsRoute ok a p) : IsRoute ok a (p.take k) := by
  induction k generalizing a p with
  | zero => simp [isRoute_nil]
  | succ k ih =>
    cases p with
    | nil => simp [isRoute_nil]
    | cons b rest =>
      rw [isRoute_cons] at h
      rw [List.take_succ_cons, isRoute_cons]
      exact ⟨h.1, h.2.1, ih h.2.2⟩

/-- The paths `findPathDfs` returns are walkable from the start, the empty one included. -/
theorem findPathDfs_isRoute {fuel : Nat} {g : Grid} {startLoc sentryLoc endLoc : Location}
    {maxSearchDistance : Int} {r r' : Rng} {p : List Location}
    (h : findPathDfs fuel g startLoc sentryLoc endLoc maxSearchDistance r = some (p, r')) :
    IsRoute (isOpen g) startLoc p := by
  by_cases hp : p = []
  · rw [hp]
    exact isRoute_nil
  · exact (findPathDfs_sound h hp).1.imp (fun _ hc => isPassable_isOpen hc)

/-- The paths `findLongestPathBfs` returns are walkable from the start. -/
theorem findLongestPathBfs_isRoute {fuel : Nat} {g : Grid} {startLoc sentryLoc : Location}
    {maxSearchDistance : Int} {r r' : Rng} {p : List Location}
    (h : findLongestPathBfs fuel g startLoc sentryLoc maxSearchDistance r = some (p, r')) :
    IsRoute (isOpen g) startLoc p :=
  (findLongestPathBfs_spec h).1.imp (fun _ hc => isPassable_isOpen hc)

theorem isOpen_nonneg {g : Grid} {c : Location} (h : isOpen g c = true) : 0 ≤ c.x ∧ 0 ≤ c.y := by
  simp only [isOpen, isInMazeBounds, isInMazeBoundsAt, Bool.and_eq_true, decide_eq_true_eq] at h
  exact ⟨h.1.1.1.1, h.1.1.2⟩

/-- The move block of the runner keeps a walkable plan walkable and makes a legal move. -/
theorem runnerAdvance_spec (t : State) (h : IsRoute (isOpen t.toGrid) t.runnerLoc t.runnerPath) :
    IsLegalMove t.toGrid t.runnerLoc (runnerAdvance t).2.runnerLoc
      ∧ IsRoute (isOpen t.toGrid) (runnerAdvance t).2.runnerLoc (runnerAdvance t).2.runnerPath
      ∧ (runnerAdvance t).2
          = { t with runnerLoc := (runnerAdvance t).2.runnerLoc
                     runnerPath := (runnerAdvance t).2.runnerPath
                     runnerCooldown := (runnerAdvance t).2.runnerCooldown } := by
  unfold runnerAdvance
  split
  · rename_i hpath
    exact ⟨Or.inl rfl, by rw [hpath]; exact isRoute_nil, rfl⟩
  · rename_i front remaining hpath
    rw [hpath, isRoute_cons] at h
    exact ⟨Or.inr ⟨exists_step_of_isAdjacent _ _ h.1, h.2.1⟩, h.2.2, rfl⟩

/-- The move block of the sentry keeps a walkable plan walkable and makes a legal move. -/
theorem sentryAdvance_spec (t : State) (h : IsRoute (isOpen t.toGrid) t.sentryLoc t.sentryPath) :
    IsLegalMove t.toGrid t.sentryLoc (sentryAdvance t).2.sentryLoc
      ∧ IsRoute (isOpen t.toGrid) (sentryAdvance t).2.sentryLoc (sentryAdvance t).2.sentryPath
      ∧ (sentryAdvance t).2
          = { t with sentryLoc := (sentryAdvance t).2.sentryLoc
                     sentryPath := (sentryAdvance t).2.sentryPath
                     sentryCooldown := (sentryAdvance t).2.sentryCooldown } := by
  unfold sentryAdvance
  split
  · rename_i hpath
    exact ⟨Or.inl rfl, by rw [hpath]; exact isRoute_nil, rfl⟩
  · rename_i front remaining hpath
    rw [hpath, isRoute_cons] at h
    exact ⟨Or.inr ⟨exists_step_of_isAdjacent _ _ h.1, h.2.1⟩, h.2.2, rfl⟩

/-- A call of `moveRunner` moves the runner legally and leaves it a walkable plan. -/
theorem moveRunner_legal {fuel : Nat} {s s1 : State} {moved : Bool}
    (hplan : IsRoute (isOpen s.toGrid) s.runnerLoc s.runnerPath)
    (h : moveRunner fuel s = some (moved, s1)) :
    IsLegalMove s.toGrid s.runnerLoc s1.runnerLoc
      ∧ IsRoute (isOpen s.toGrid) s1.runnerLoc s1.runnerPath := by
  unfold moveRunner at h
  split at h
  · simp only [Option.some.injEq, Prod.mk.injEq] at h
    rw [← h.2]
    exact ⟨Or.inl rfl, hplan⟩
  · split at h
    · exact absurd h (by simp)
    · rename_i sensed r1 hsense
      split at h
      · split at h
        · exact absurd h (by simp)
        · rename_i path r2 hbfs
          have hs := congrArg Prod.snd (Option.some.inj h)
          simp only at hs
          rw [← hs]
          have := runnerAdvance_spec
            { s with runnerSentryKnownLoc := s.sentryLoc, runnerPath := path.take RunnerSense
                     rng := r2 } ((findLongestPathBfs_isRoute hbfs).take RunnerSense)
          exact ⟨this.1, this.2.1⟩
      · split at h
        · split at h
          · exact absurd h (by simp)
          · split at h
            · exact absurd h (by simp)
            · rename_i path r3 hdfs
              have hs := congrArg Prod.snd (Option.some.inj h)
              simp only at hs
              rw [← hs]
              have := runnerAdvance_spec
                { s with runnerSentryKnownLoc := NullLocation, runnerPath := path, rng := r3 }
                (findPathDfs_isRoute hdfs)
              exact ⟨this.1, this.2.1⟩
        · have hs := congrArg Prod.snd (Option.some.inj h)
          simp only at hs
          rw [← hs]
          have := runnerAdvance_spec { s with rng := r1 } hplan
          exact ⟨this.1, this.2.1⟩

/-- A call of `moveSentry` moves the sentry legally and leaves it a walkable plan. -/
theorem moveSentry_legal {fuel : Nat} {s s2 : State} {moved : Bool}
    (hplan : IsRoute (isOpen s.toGrid) s.sentryLoc s.sentryPath)
    (h : moveSentry fuel s = some (moved, s2)) :
    IsLegalMove s.toGrid s.sentryLoc s2.sentryLoc
      ∧ IsRoute (isOpen s.toGrid) s2.sentryLoc s2.sentryPath := by
  unfold moveSentry at h
  split at h
  · simp only [Option.some.injEq, Prod.mk.injEq] at h
    rw [← h.2]
    exact ⟨Or.inl rfl, hplan⟩
  · split at h
    · simp only [Option.some.injEq, Prod.mk.injEq] at h
      rw [← h.2]
      exact ⟨Or.inl rfl, hplan⟩
    · split at h
      · exact absurd h (by simp)
      · rename_i sensed r1 hsense
        split at h
        · split at h
          · rename_i hpos hzero
            omega
          · have hs := congrArg Prod.snd (Option.some.inj h)
            simp only at hs
            rw [← hs]
            have := sentryAdvance_spec { s with sentryPath := sensed, rng := r1 }
              (findPathDfs_isRoute hsense)
            exact ⟨this.1, this.2.1⟩
        · have hs := congrArg Prod.snd (Option.some.inj h)
          simp only at hs
          rw [← hs]
          have := sentryAdvance_spec { s with rng := r1 } hplan
          exact ⟨this.1, this.2.1⟩

theorem reachInv_construct (width height : Int)
    (pathColor wallColor runnerColor sentryColor exitColor : Nat) (setStatus : Bool)
    (walls : Int → Int → Bool) (rng : Rng) :
    ReachInv (construct width height pathColor wallColor runnerColor sentryColor exitColor
      setStatus walls rng) :=
  ⟨⟨isRoute_nil, isRoute_nil⟩, fun _ => ⟨rfl, rfl⟩, Or.inr ⟨rfl, rfl⟩⟩

theorem reachInv_moveRunner {fuel : Nat} {s s1 : State} {moved : Bool} (hinv : ReachInv s)
    (h : moveRunner fuel s = some (moved, s1)) : ReachInv s1 := by
  obtain ⟨⟨hrp, hsp⟩, hdis, hpos⟩ := hinv
  obtain ⟨hlegal, hroute⟩ := moveRunner_legal hrp h
  have hf := moveRunner_frame h
  have hgrid : s1.toGrid = s.toGrid := by rw [hf]
  have hsl : s1.sentryLoc = s.sentryLoc := by rw [hf]
  have hspath : s1.sentryPath = s.sentryPath := by rw [hf]
  have hsc : s1.sentryColor = s.sentryColor := by rw [hf]
  have hpc : s1.pathColor = s.pathColor := by rw [hf]
  have hex : s1.exitLoc = s.exitLoc := by rw [hf]
  refine ⟨⟨?_, ?_⟩, ?_, ?_⟩
  · rw [hgrid]; exact hroute
  · rw [hgrid, hsl, hspath]; exact hsp
  · rw [hsc, hpc, hsl, hspath]; exact hdis
  · rcases hlegal with hsame | ⟨_, hopen⟩
    · rw [hsame, hex]; exact hpos
    · exact Or.inl (isOpen_nonneg hopen)

theorem reachInv_moveSentry {fuel : Nat} {s s2 : State} {moved : Bool} (hinv : ReachInv s)
    (h : moveSentry fuel s = some (moved, s2)) : ReachInv s2 := by
  obtain ⟨⟨hrp, hsp⟩, hdis, hpos⟩ := hinv
  obtain ⟨_, hroute⟩ := moveSentry_legal hsp h
  have hf := moveSentry_frame h
  have hgrid : s2.toGrid = s.toGrid := by rw [hf]
  have hrl : s2.runnerLoc = s.runnerLoc := by rw [hf]
  have hrpath : s2.runnerPath = s.runnerPath := by rw [hf]
  have hsc : s2.sentryColor = s.sentryColor := by rw [hf]
  have hpc : s2.pathColor = s.pathColor := by rw [hf]
  have hex : s2.exitLoc = s.exitLoc := by rw [hf]
  refine ⟨⟨?_, ?_⟩, ?_, ?_⟩
  · rw [hgrid, hrl, hrpath]; exact hrp
  · rw [hgrid]; exact hroute
  · intro hcol
    rw [hsc, hpc] at hcol
    have hs2 : s2 = s := by
      unfold moveSentry at h
      rw [if_pos hcol] at h
      exact (congrArg Prod.snd (Option.some.inj h)).symm
    rw [hs2]
    exact hdis hcol
  · rw [hrl, hex]; exact hpos

theorem placeSentryLoop_frame :
    ∀ (fuel attempts : Nat) (s s2 : State), placeSentryLoop fuel attempts s = some s2 →
      s2 = { s with sentryLoc := s2.sentryLoc, rng := s2.rng } := by
  intro fuel
  induction fuel with
  | zero =>
    intro attempts s s2 h
    rw [placeSentryLoop] at h
    split at h
    · exact absurd h (by simp)
    · rw [← Option.some.inj h]
  | succ fuel ih =>
    intro attempts s s2 h
    rw [placeSentryLoop] at h
    split at h
    · split at h
      · rw [ih _ _ _ h]
      · rw [ih _ _ _ h]
    · rw [← Option.some.inj h]

/-- What `placeSentry` changes: nothing when the sentry is disabled; else the sentry's location
and the random source, with the plan emptied and the cooldown reset. -/
theorem placeSentry_frame {fuel : Nat} {s s2 : State} (h : placeSentry fuel s = some s2) :
    (s.sentryColor = s.pathColor → s2 = s)
      ∧ (s.sentryColor ≠ s.pathColor →
          s2 = { s with sentryLoc := s2.sentryLoc, rng := s2.rng, sentryPath := []
                        sentryCooldown := SentrySpeed }) := by
  unfold placeSentry at h
  constructor
  · intro hcol
    rw [if_pos hcol] at h
    exact (Option.some.inj h).symm
  · intro hcol
    rw [if_neg hcol] at h
    rw [placeSentryLoop_frame _ _ _ _ h]

theorem reachInv_init {fuel : Nat} {s : State} {res : Except State State} (hinv : ReachInv s)
    (h : init fuel s = some res) : ReachInv (initOutcome res) := by
  obtain ⟨_, hdis, _⟩ := hinv
  unfold init at h
  split at h
  · exact absurd h (by simp)
  · rename_i s1 h1
    split at h
    · exact absurd h (by simp)
    · rename_i s2 h2
      obtain ⟨he1, hx, hy⟩ := placeRunner_spec h1
      obtain ⟨hoff, hon⟩ := placeSentry_frame h2
      have he3 : initOutcome res =
          { s2 with
            exitLoc := (initOutcome res).exitLoc
            rng := (initOutcome res).rng
            out := (initOutcome res).out
            resetDelay := (initOutcome res).resetDelay } := by
        cases res with
        | ok s3 => exact placeExit_frame h (Or.inl rfl)
        | error s3 => exact placeExit_frame h (Or.inr rfl)
      have hcol1 : s1.sentryColor = s.sentryColor ∧ s1.pathColor = s.pathColor := by
        rw [he1]; exact ⟨rfl, rfl⟩
      have hs1 : s1.sentryLoc = s.sentryLoc ∧ s1.sentryPath = s.sentryPath := by
        rw [he1]; exact ⟨rfl, rfl⟩
      have hr1 : s1.runnerPath = [] := by rw [he1]
      by_cases hcol : s.sentryColor = s.pathColor
      · have hs2 : s2 = s1 := hoff (by rw [hcol1.1, hcol1.2]; exact hcol)
        obtain ⟨hnull, hnil⟩ := hdis hcol
        rw [he3, hs2]
        refine ⟨⟨?_, ?_⟩, ?_, Or.inl ⟨hx, hy⟩⟩
        · show IsRoute _ _ s1.runnerPath
          rw [hr1]; exact isRoute_nil
        · show IsRoute _ _ s1.sentryPath
          rw [hs1.2, hnil]; exact isRoute_nil
        · intro _
          show s1.sentryLoc = NullLocation ∧ s1.sentryPath = []
          rw [hs1.1, hs1.2]
          exact ⟨hnull, hnil⟩
      · have hs2 := hon (by rw [hcol1.1, hcol1.2]; exact hcol)
        have hr2 : s2.runnerPath = [] := by rw [hs2]; exact hr1
        have hsp2 : s2.sentryPath = [] := by rw [hs2]
        have hrl2 : s2.runnerLoc = s1.runnerLoc := by rw [hs2]
        have hcol2 : s2.sentryColor = s.sentryColor ∧ s2.pathColor = s.pathColor := by
          rw [hs2]; exact hcol1
        rw [he3]
        refine ⟨⟨?_, ?_⟩, ?_, Or.inl ?_⟩
        · show IsRoute _ _ s2.runnerPath
          rw [hr2]; exact isRoute_nil
        · show IsRoute _ _ s2.sentryPath
          rw [hsp2]; exact isRoute_nil
        · intro hc
          have hc' : s2.sentryColor = s2.pathColor := hc
          rw [hcol2.1, hcol2.2] at hc'
          exact absurd hc' hcol
        · show 0 ≤ s2.runnerLoc.x ∧ 0 ≤ s2.runnerLoc.y
          rw [hrl2]
          exact ⟨hx, hy⟩

theorem setStatus_ok {s s' : State} {color : Nat} (h : setStatus s color = Except.ok s') :
    s' = { s with out := s'.out } := by
  unfold setStatus at h
  split at h
  · rw [← Except.ok.inj h]
  · exact absurd h (by simp)

theorem setStatus_error {s s' : State} {color : Nat} (h : setStatus s color = Except.error s') :
    s' = s := by
  unfold setStatus at h
  split at h
  · exact absurd h (by simp)
  · exact (Except.error.inj h).symm

/-- The handler of `update` changes the status trace and the reset countdown only, and the
countdown, if it changes, becomes `ErrorDelay`. -/
theorem updateCatch_outcome (s : State) :
    updateOutcome (updateCatch s)
        = { s with out := (updateOutcome (updateCatch s)).out
                   resetDelay := (updateOutcome (updateCatch s)).resetDelay }
      ∧ ((updateOutcome (updateCatch s)).resetDelay = ErrorDelay
          ∨ (updateOutcome (updateCatch s)).resetDelay = s.resetDelay) := by
  unfold updateCatch setStatus
  split
  · rename_i s' heq
    split at heq
    · rw [← Except.ok.inj heq]
      exact ⟨rfl, Or.inl rfl⟩
    · exact absurd heq (by simp)
  · rename_i s' heq
    split at heq
    · exact absurd heq (by simp)
    · rw [← Except.error.inj heq]
      exact ⟨rfl, Or.inr rfl⟩

/-- The anatomy of a call of `update` in the Running state: the runner moves; on the exit the
call ends there (Goal); otherwise the sentry moves, and either it stands on the runner (Caught)
or the countdown is left alone.  Apart from the moves, only the trace and the countdown
change. -/
theorem update_running_outcome {fuel : Nat} {s : State} {res : Except State (Bool × State)}
    (hrun : ¬ s.resetDelay > 0) (h : update fuel s = some res) :
    ∃ moved s1, moveRunner fuel s = some (moved, s1)
      ∧ ((s1.runnerLoc = s1.exitLoc
            ∧ updateOutcome res
                = { s1 with out := (updateOutcome res).out
                            resetDelay := (updateOutcome res).resetDelay }
            ∧ ((updateOutcome res).resetDelay = GoalDelay
                ∨ (updateOutcome res).resetDelay = ErrorDelay
                ∨ (updateOutcome res).resetDelay = s1.resetDelay))
        ∨ (s1.runnerLoc ≠ s1.exitLoc
            ∧ ∃ moved' s2, moveSentry fuel s1 = some (moved', s2)
              ∧ updateOutcome res
                  = { s2 with out := (updateOutcome res).out
                              resetDelay := (updateOutcome res).resetDelay }
              ∧ (s2.sentryLoc = s2.runnerLoc
                  ∨ (updateOutcome res).resetDelay = s2.resetDelay))) := by
  unfold update at h
  rw [if_neg hrun] at h
  split at h
  · exact absurd h (by simp)
  · rename_i moved s1 hmove
    refine ⟨moved, s1, hmove, ?_⟩
    split at h
    · rename_i hgoal
      left
      refine ⟨hgoal, ?_⟩
      split at h
      · rename_i s2 hst
        rw [← Option.some.inj h]
        have := setStatus_ok hst
        refine ⟨?_, Or.inl rfl⟩
        show ({ drawMaze s2 with resetDelay := GoalDelay } : State) = _
        rw [this]
        rfl
      · rename_i s2 hst
        rw [← Option.some.inj h, setStatus_error hst]
        obtain ⟨h1, h2⟩ := updateCatch_outcome s1
        exact ⟨h1, Or.inr h2⟩
    · rename_i hgoal
      right
      refine ⟨hgoal, ?_⟩
      split at h
      · exact absurd h (by simp)
      · rename_i moved' s2 hsentry
        refine ⟨moved', s2, hsentry, ?_⟩
        split at h
        · rename_i hcaught
          split at h
          · rename_i s3 hst
            rw [← Option.some.inj h]
            have := setStatus_ok hst
            refine ⟨?_, Or.inl hcaught⟩
            show ({ s3 with resetDelay := CatchDelay } : State) = _
            rw [this]
            rfl
          · rename_i s3 hst
            rw [← Option.some.inj h, setStatus_error hst]
            exact ⟨(updateCatch_outcome s2).1, Or.inl hcaught⟩
        · split at h
          · rw [← Option.some.inj h]
            exact ⟨rfl, Or.inr rfl⟩
          · rw [← Option.some.inj h]
            exact ⟨rfl, Or.inr rfl⟩

/-- The invariant reads only the grid, the locations, the plans and the two colours. -/
theorem reachInv_of_fields {s t : State} (h : ReachInv s) (hg : t.toGrid = s.toGrid)
    (hrl : t.runnerLoc = s.runnerLoc) (hrp : t.runnerPath = s.runnerPath)
    (hsl : t.sentryLoc = s.sentryLoc) (hsp : t.sentryPath = s.sentryPath)
    (hsc : t.sentryColor = s.sentryColor) (hpc : t.pathColor = s.pathColor)
    (hex : t.exitLoc = s.exitLoc) : ReachInv t := by
  unfold ReachInv PlansOk at h ⊢
  rw [hg, hrl, hrp, hsl, hsp, hsc, hpc, hex]
  exact h

theorem reachInv_update {fuel : Nat} {s : State} {res : Except State (Bool × State)}
    (hinv : ReachInv s) (h : update fuel s = some res) : ReachInv (updateOutcome res) := by
  by_cases hrun : s.resetDelay > 0
  · have hinv' : ReachInv { s with resetDelay := s.resetDelay - 1 } :=
      reachInv_of_fields hinv rfl rfl rfl rfl rfl rfl rfl rfl
    unfold update at h
    rw [if_pos hrun] at h
    split at h
    · split at h
      · exact absurd h (by simp)
      · rename_i s' hinit
        rw [← Option.some.inj h]
        have := reachInv_init hinv' hinit
        exact reachInv_of_fields this rfl rfl rfl rfl rfl rfl rfl rfl
      · rename_i s' hinit
        rw [← Option.some.inj h]
        have := reachInv_init hinv' hinit
        exact reachInv_of_fields this rfl rfl rfl rfl rfl rfl rfl rfl
    · rw [← Option.some.inj h]
      exact hinv'
  · obtain ⟨moved, s1, hmove, hcase⟩ := update_running_outcome hrun h
    have h1 := reachInv_moveRunner hinv hmove
    rcases hcase with ⟨_, heq, _⟩ | ⟨_, moved', s2, hsentry, heq, _⟩
    · rw [heq]
      exact reachInv_of_fields h1 rfl rfl rfl rfl rfl rfl rfl rfl
    · rw [heq]
      exact reachInv_of_fields (reachInv_moveSentry h1 hsentry) rfl rfl rfl rfl rfl rfl rfl rfl

/-- Every reachable state satisfies the invariant. -/
theorem reachable_inv {s : State} (h : Reachable s) : ReachInv s := by
  induction h with
  | constructed => exact reachInv_construct _ _ _ _ _ _ _ _ _ _
  | initialised fuel res _ hinit ih => exact reachInv_init ih hinit
  | updated fuel res _ hupdate ih => exact reachInv_update ih hupdate

/-- In the Running state `update` returns, given fuel for the searches. -/
theorem update_running_terminates (fuel : Nat) (s : State) (hrun : ¬ s.resetDelay > 0)
    (hfuel : searchFuel s.toGrid ≤ fuel) : ∃ res, update fuel s = some res := by
  obtain ⟨⟨moved, s1⟩, h1⟩ := moveRunner_terminates fuel s hfuel
  have hgrid : s1.toGrid = s.toGrid := by rw [moveRunner_frame h1]
  obtain ⟨⟨moved', s2⟩, h2⟩ := moveSentry_terminates fuel s1 (by rw [hgrid]; exact hfuel)
  unfold update
  rw [if_neg hrun, h1]
  simp only
  split
  · split <;> exact ⟨_, rfl⟩
  · rw [h2]
    simp only
    split
    · split <;> exact ⟨_, rfl⟩
    · split <;> exact ⟨_, rfl⟩

/-- Claim C14. In every state reachable from construction by calls of `init()` and `update()`
the plans the runner and the sentry hold are walkable: each starts at a cell orthogonally
adjacent to its agent and continues through pairwise adjacent in-bounds non-wall cells.  A call
of `update()` in the Running state returns (given fuel for the searches), leaves the grid as it
is, and changes the runner's location, and the sentry's, either not at all or by exactly one of
the four orthogonal unit deltas onto an in-bounds non-wall cell. -/
theorem update_moves_agents_legally (s : State) (hreach : Reachable s) :
    PlansOk s
      ∧ ∀ fuel, ¬ s.resetDelay > 0 →
          (searchFuel s.toGrid ≤ fuel → ∃ res, update fuel s = some res)
          ∧ ∀ res, update fuel s = some res →
              (updateOutcome res).toGrid = s.toGrid
                ∧ IsLegalMove s.toGrid s.runnerLoc (updateOutcome res).runnerLoc
                ∧ IsLegalMove s.toGrid s.sentryLoc (updateOutcome res).sentryLoc
                ∧ PlansOk (updateOutcome res) := by
  have hinv := reachable_inv hreach
  refine ⟨hinv.1, ?_⟩
  intro fuel hrun
  refine ⟨update_running_terminates fuel s hrun, ?_⟩
  intro res hupdate
  have hafter := (reachInv_update hinv hupdate).1
  obtain ⟨moved, s1, hmove, hcase⟩ := update_running_outcome hrun hupdate
  obtain ⟨hlegal1, _⟩ := moveRunner_legal hinv.1.1 hmove
  have hf1 := moveRunner_frame hmove
  have hgrid1 : s1.toGrid = s.toGrid := by rw [hf1]
  have hsl1 : s1.sentryLoc = s.sentryLoc := by rw [hf1]
  rcases hcase with ⟨_, heq, _⟩ | ⟨_, moved', s2, hsentry, heq, _⟩
  · have hg : (updateOutcome res).toGrid = s1.toGrid := by rw [heq]
    have hr : (updateOutcome res).runnerLoc = s1.runnerLoc := by rw [heq]
    have hs : (updateOutcome res).sentryLoc = s1.sentryLoc := by rw [heq]
    refine ⟨hg.trans hgrid1, ?_, ?_, hafter⟩
    · rw [hr]; exact hlegal1
    · rw [hs, hsl1]; exact Or.inl rfl
  · have h1 := reachInv_moveRunner hinv hmove
    obtain ⟨hlegal2, _⟩ := moveSentry_legal h1.1.2 hsentry
    have hf2 := moveSentry_frame hsentry
    have hgrid2 : s2.toGrid = s1.toGrid := by rw [hf2]
    have hrl2 : s2.runnerLoc = s1.runnerLoc := by rw [hf2]
    have hg : (updateOutcome res).toGrid = s2.toGrid := by rw [heq]
    have hr : (updateOutcome res).runnerLoc = s2.runnerLoc := by rw [heq]
    have hs : (updateOutcome res).sentryLoc = s2.sentryLoc := by rw [heq]
    refine ⟨(hg.trans hgrid2).trans hgrid1, ?_, ?_, hafter⟩
    · rw [hr, hrl2]; exact hlegal1
    · rw [hs, ← hgrid1, ← hsl1]; exact hlegal2

theorem reachable_afterInit {fuel : Nat} {s : State} (hs : Reachable s)
    (h : (init fuel s).isSome = true ∧ threw (init fuel s) = false) :
    Reachable (afterInit fuel s) :=
  Reachable.initialised fuel (Except.ok (afterInit fuel s)) hs (init_eq_afterInit h)

set_option maxRecDepth 1000000 in
/-- Witness for C14: the 3x3 runner `chase3x3` after `init()`; the first `update()` moves the
runner from `(0, 0)` to `(1, 0)` and leaves the sentry, still cooling down, on `(2, 2)`. -/
theorem update_moves_agents_legally_witness :
    Reachable (afterInit 200 chase3x3)
      ∧ ¬ (afterInit 200 chase3x3).resetDelay > 0
      ∧ (afterInit 200 chase3x3).runnerLoc = ⟨0, 0⟩
      ∧ (afterInit 200 chase3x3).sentryLoc = ⟨2, 2⟩
      ∧ returned (updateTimes 200 1 (afterInit 200 chase3x3)) = some [true]
      ∧ (stateAfter 200 1 (afterInit 200 chase3x3)).runnerLoc = ⟨1, 0⟩
      ∧ (stateAfter 200 1 (afterInit 200 chase3x3)).sentryLoc = ⟨2, 2⟩
      ∧ PlansOk (afterInit 200 chase3x3)
      ∧ ∀ fuel, ¬ (afterInit 200 chase3x3).resetDelay > 0 →
          (searchFuel (afterInit 200 chase3x3).toGrid ≤ fuel →
            ∃ res, update fuel (afterInit 200 chase3x3) = some res)
          ∧ ∀ res, update fuel (afterInit 200 chase3x3) = some res →
              (updateOutcome res).toGrid = (afterInit 200 chase3x3).toGrid
                ∧ IsLegalMove (afterInit 200 chase3x3).toGrid (afterInit 200 chase3x3).runnerLoc
                    (updateOutcome res).runnerLoc
                ∧ IsLegalMove (afterInit 200 chase3x3).toGrid (afterInit 200 chase3x3).sentryLoc
                    (updateOutcome res).sentryLoc
                ∧ PlansOk (updateOutcome res) :=
  ⟨reachable_afterInit (Reachable.constructed _ _ _ _ _ _ _ _ _ _) (by decide),
    by decide, by decide, by decide, by decide, by decide, by decide,
    update_moves_agents_legally (afterInit 200 chase3x3)
      (reachable_afterInit (Reachable.constructed _ _ _ _ _ _ _ _ _ _) (by decide))⟩

end Reachability

section DisabledSentry

theorem placeExit_resetDelay {fuel : Nat} {s : State} {res : Except State State}
    (h : placeExit fuel s = some res) :
    (initOutcome res).resetDelay = s.resetDelay
      ∨ (initOutcome res).resetDelay = ErrorDelay := by
  unfold placeExit at h
  split at h
  · exact absurd h (by simp)
  · split at h
    · unfold setStatus at h
      split at h
      · rw [← Option.some.inj h]
        exact Or.inr rfl
      · rename_i heq
        split at heq
        · exact absurd heq (by simp)
        · rw [← Option.some.inj h, ← Except.error.inj heq]
          exact Or.inl rfl
    · rw [← Option.some.inj h]
      exact Or.inl rfl

/-- A call of `init` leaves the reset countdown alone or sets it to `ErrorDelay`. -/
theorem init_resetDelay {fuel : Nat} {s : State} {res : Except State State}
    (h : init fuel s = some res) :
    (initOutcome res).resetDelay = s.resetDelay
      ∨ (initOutcome res).resetDelay = ErrorDelay := by
  unfold init at h
  split at h
  · exact absurd h (by simp)
  · rename_i s1 h1
    split at h
    · exact absurd h (by simp)
    · rename_i s2 h2
      have he1 := (placeRunner_spec h1).1
      have hd1 : s1.resetDelay = s.resetDelay := by rw [he1]; rfl
      have hd2 : s2.resetDelay = s1.resetDelay := by
        obtain ⟨hoff, hon⟩ := placeSentry_frame h2
        by_cases hcol : s1.sentryColor = s1.pathColor
        · rw [hoff hcol]
        · rw [hon hcol]
      rcases placeExit_resetDelay h with hd | hd
      · exact Or.inl (hd.trans (hd2.trans hd1))
      · exact Or.inr hd

/-- Claim C18. If the sentry colour equals the path colour then, in every state reachable from
construction by calls of `init()` and `update()`: the sentry's location is `NullLocation`;
`placeSentry` and `moveSentry` return at once and change nothing, `moveSentry` reporting "did
not move"; and `update()` never takes the Caught branch: in the Running state the sentry's
location never equals the runner's when the branch is tested and the call does not leave the
reset countdown at `CatchDelay`; a call in the countdown state leaves it at `CatchDelay` only
by decrementing it from `CatchDelay + 1`. -/
theorem disabled_sentry_never_catches (s : State) (hreach : Reachable s)
    (hdisabled : s.sentryColor = s.pathColor) :
    s.sentryLoc = NullLocation
      ∧ (∀ fuel, placeSentry fuel s = some s)
      ∧ (∀ fuel, moveSentry fuel s = some (false, s))
      ∧ (∀ fuel, ¬ s.resetDelay > 0 →
          (searchFuel s.toGrid ≤ fuel → ∃ res, update fuel s = some res)
          ∧ (∀ moved s1 moved' s2, moveRunner fuel s = some (moved, s1) →
              s1.runnerLoc ≠ s1.exitLoc → moveSentry fuel s1 = some (moved', s2) →
              s2.sentryLoc ≠ s2.runnerLoc)
          ∧ ∀ res, update fuel s = some res → (updateOutcome res).resetDelay ≠ CatchDelay)
      ∧ ∀ fuel res, update fuel s = some res → (updateOutcome res).resetDelay = CatchDelay →
          s.resetDelay = CatchDelay + 1 := by
  have hinv := reachable_inv hreach
  have hnocatch : ∀ fuel moved s1 moved' s2, moveRunner fuel s = some (moved, s1) →
      s1.runnerLoc ≠ s1.exitLoc → moveSentry fuel s1 = some (moved', s2) →
      s2.sentryLoc ≠ s2.runnerLoc := by
    intro fuel moved s1 moved' s2 hmove hgoal hsentry hcaught
    have h2 := reachInv_moveSentry (reachInv_moveRunner hinv hmove) hsentry
    have hf1 := moveRunner_frame hmove
    have hf2 := moveSentry_frame hsentry
    have hcol : s2.sentryColor = s2.pathColor := by
      have h1 : s2.sentryColor = s.sentryColor := by rw [hf2, hf1]
      have h3 : s2.pathColor = s.pathColor := by rw [hf2, hf1]
      rw [h1, h3]
      exact hdisabled
    have hnull := (h2.2.1 hcol).1
    have hrl : s2.runnerLoc = s1.runnerLoc := by rw [hf2]
    have hex : s2.exitLoc = s1.exitLoc := by rw [hf2]
    rcases h2.2.2 with ⟨hx, _⟩ | ⟨hr, he⟩
    · rw [← hcaught, hnull] at hx
      exact absurd hx (by decide)
    · apply hgoal
      rw [← hrl, ← hex, hr, he]
  have hrunning : ∀ fuel res, ¬ s.resetDelay > 0 → update fuel s = some res →
      (updateOutcome res).resetDelay ≠ CatchDelay := by
    intro fuel res hrun hupdate
    obtain ⟨moved, s1, hmove, hcase⟩ := update_running_outcome hrun hupdate
    have hd1 : s1.resetDelay = s.resetDelay := by rw [moveRunner_frame hmove]
    rcases hcase with ⟨_, _, hd⟩ | ⟨hgoal, moved', s2, hsentry, _, hd⟩
    · rcases hd with hd | hd | hd
      · rw [hd]; decide
      · rw [hd]; decide
      · rw [hd, hd1]
        intro h30
        rw [h30] at hrun
        exact hrun (by decide)
    · have hd2 : s2.resetDelay = s1.resetDelay := by rw [moveSentry_frame hsentry]
      rcases hd with hd | hd
      · exact absurd hd (hnocatch fuel moved s1 moved' s2 hmove hgoal hsentry)
      · rw [hd, hd2, hd1]
        intro h30
        rw [h30] at hrun
        exact hrun (by decide)
  refine ⟨(hinv.2.1 hdisabled).1, ?_, ?_, ?_, ?_⟩
  · intro fuel
    unfold placeSentry
    rw [if_pos hdisabled]
  · intro fuel
    unfold moveSentry
    rw [if_pos hdisabled]
  · intro fuel hrun
    exact ⟨update_running_terminates fuel s hrun, hnocatch fuel,
      fun res hupdate => hrunning fuel res hrun hupdate⟩
  · intro fuel res hupdate h30
    by_cases hrun : s.resetDelay > 0
    · unfold update at hupdate
      rw [if_pos hrun] at hupdate
      split at hupdate
      · rename_i hzero
        have hinit : ∀ r, init fuel { s with resetDelay := s.resetDelay - 1 } = some r →
            (initOutcome r).resetDelay ≠ CatchDelay := by
          intro r hr
          rcases init_resetDelay hr with hd | hd
          · rw [hd]
            intro h
            have h' : s.resetDelay - 1 = CatchDelay := h
            rw [h'] at hzero
            exact absurd hzero (by decide)
          · rw [hd]; decide
        split at hupdate
        · exact absurd hupdate (by simp)
        · rename_i s' hi
          rw [← Option.some.inj hupdate] at h30
          exact absurd h30 (hinit _ hi)
        · rename_i s' hi
          rw [← Option.some.inj hupdate] at h30
          exact absurd h30 (hinit _ hi)
      · rw [← Option.some.inj hupdate] at h30
        have h' : s.resetDelay - 1 = CatchDelay := h30
        omega
    · exact absurd h30 (hrunning fuel res hrun hupdate)

set_option maxRecDepth 1000000 in
/-- Witness for C18: the 2x2 runner `fresh2x2`, whose sentry colour is the path colour, after
`init()`. -/
theorem disabled_sentry_never_catches_witness :
    Reachable (afterInit 200 fresh2x2)
      ∧ (afterInit 200 fresh2x2).sentryColor = (afterInit 200 fresh2x2).pathColor
      ∧ (afterInit 200 fresh2x2).sentryLoc = NullLocation
      ∧ (∀ fuel, placeSentry fuel (afterInit 200 fresh2x2) = some (afterInit 200 fresh2x2))
      ∧ (∀ fuel, moveSentry fuel (afterInit 200 fresh2x2)
          = some (false, afterInit 200 fresh2x2))
      ∧ (∀ fuel, ¬ (afterInit 200 fresh2x2).resetDelay > 0 →
          (searchFuel (afterInit 200 fresh2x2).toGrid ≤ fuel →
            ∃ res, update fuel (afterInit 200 fresh2x2) = some res)
          ∧ (∀ moved s1 moved' s2, moveRunner fuel (afterInit 200 fresh2x2) = some (moved, s1) →
              s1.runnerLoc ≠ s1.exitLoc → moveSentry fuel s1 = some (moved', s2) →
              s2.sentryLoc ≠ s2.runnerLoc)
          ∧ ∀ res, update fuel (afterInit 200 fresh2x2) = some res →
              (updateOutcome res).resetDelay ≠ CatchDelay)
      ∧ ∀ fuel res, update fuel (afterInit 200 fresh2x2) = some res →
          (updateOutcome res).resetDelay = CatchDelay →
          (afterInit 200 fresh2x2).resetDelay = CatchDelay + 1 :=
  ⟨reachable_afterInit (Reachable.constructed _ _ _ _ _ _ _ _ _ _) (by decide), by decide,
    disabled_sentry_never_catches (afterInit 200 fresh2x2)
      (reachable_afterInit (Reachable.constructed _ _ _ _ _ _ _ _ _ _) (by decide))
      (by decide)⟩

end DisabledSentry

section Drawing

/-- The calls `drawMaze` makes in its loop over the cells stay inside the grid. -/
theorem drawRow_inGrid (s : State) (y : Nat) (hy : y < s.height.toNat) :
    ∀ e ∈ drawRow s (Int.ofNat y), drawInGrid s.toGrid e = true := by
  intro e he
  simp only [drawRow, List.mem_map, List.mem_range] at he
  obtain ⟨x, hx, rfl⟩ := he
  simp only [drawInGrid, isInMazeBoundsAt, Bool.and_eq_true, decide_eq_true_eq,
    Int.ofNat_eq_coe]
  omega

/-- After its loop over the cells `drawMaze` draws the exit, the runner and the sentry at
their locations, whatever these are. -/
theorem drawMaze_draws_agents (s : State) :
    ∃ cells, (∀ e ∈ cells, drawInGrid s.toGrid e = true)
      ∧ (drawMaze s).out = s.out ++ cells
          ++ [Event.drawPixel s.exitLoc.x s.exitLoc.y s.exitColor,
              Event.drawPixel s.runnerLoc.x s.runnerLoc.y s.runnerColor,
              Event.drawPixel s.sentryLoc.x s.sentryLoc.y s.sentryColor] := by
  refine ⟨((List.range s.height.toNat).map (fun y => drawRow s (Int.ofNat y))).flatten, ?_, rfl⟩
  intro e he
  simp only [List.mem_flatten, List.mem_map, List.mem_range] at he
  obtain ⟨l, ⟨y, hy, rfl⟩, he⟩ := he
  exact drawRow_inGrid s y hy e he

/-- With the sentry disabled every redraw of a reachable state ends with a draw call at
`(-1, -1)`, outside the grid. -/
theorem drawMaze_draws_disabled_sentry (s : State) (hreach : Reachable s)
    (hdisabled : s.sentryColor = s.pathColor) :
    Event.drawPixel (-1) (-1) s.sentryColor ∈ (drawMaze s).out
      ∧ drawInGrid s.toGrid (Event.drawPixel (-1) (-1) s.sentryColor) = false := by
  have hnull := ((reachable_inv hreach).2.1 hdisabled).1
  obtain ⟨cells, _, hout⟩ := drawMaze_draws_agents s
  constructor
  · rw [hout, hnull]
    simp [NullLocation]
  · simp [drawInGrid, isInMazeBoundsAt]

set_option maxRecDepth 1000000 in
/-- Claim C21, evaluated at the failing inputs. The 2x2 runner `fresh2x2`, whose sentry is
disabled: `init()` returns, and the first `update()` moves the runner and redraws; the redraw
paints the four cells, the exit and the runner, and then calls the draw sink for the sentry at
its location `NullLocation`, that is at `(-1, -1)`, outside the grid.  The 3x3 runner
`fresh3x3`, whose sentry is enabled, when `update()` is called before any `init()`: the runner
and the exit are both `NullLocation`, the call takes the Goal branch, and its redraw calls the
draw sink at `(-1, -1)` for the exit, the runner and the sentry. -/
theorem update_draws_outside_grid :
    (init 200 fresh2x2).isSome = true ∧ threw (init 200 fresh2x2) = false
      ∧ (afterInit 200 fresh2x2).sentryColor = (afterInit 200 fresh2x2).pathColor
      ∧ (afterInit 200 fresh2x2).out = []
      ∧ returned (updateTimes 200 1 (afterInit 200 fresh2x2)) = some [true]
      ∧ (stateAfter 200 1 (afterInit 200 fresh2x2)).out
          = [Event.drawPixel 0 0 0, Event.drawPixel 1 0 0, Event.drawPixel 0 1 0,
             Event.drawPixel 1 1 0, Event.drawPixel 1 0 4, Event.drawPixel 0 0 2,
             Event.drawPixel (-1) (-1) 0]
      ∧ (stateAfter 200 1 (afterInit 200 fresh2x2)).out.map
            (drawInGrid (stateAfter 200 1 (afterInit 200 fresh2x2)).toGrid)
          = [true, true, true, true, true, true, false]
      ∧ returned (updateTimes 200 1 fresh3x3) = some [true]
      ∧ (stateAfter 200 1 fresh3x3).out.drop 10
          = [Event.drawPixel (-1) (-1) 4, Event.drawPixel (-1) (-1) 2,
             Event.drawPixel (-1) (-1) 3]
      ∧ (stateAfter 200 1 fresh3x3).out.map (drawInGrid (stateAfter 200 1 fresh3x3).toGrid)
          = [true, true, true, true, true, true, true, true, true, true, false, false, false] := by
  decide

end Drawing

section RunnerAvoidsSentry

theorem isPassable_null (g : Grid) (c : Location) :
    isPassable g NullLocation c = isOpen g c := by
  simp [isPassable, isOpen]

theorem isOpen_ne_null {g : Grid} {c : Location} (h : isOpen g c = true) :
    c ≠ NullLocation := by
  intro hc
  have := (isOpen_nonneg h).1
  rw [hc] at this
  exact absurd this (by decide)

/-- A call of `moveSentry` that reports "did not move" leaves the sentry where it was. -/
theorem moveSentry_not_moved {fuel : Nat} {s s2 : State}
    (h : moveSentry fuel s = some (false, s2)) : s2.sentryLoc = s.sentryLoc := by
  have hadv : ∀ t : State, (sentryAdvance t).1 = false →
      (sentryAdvance t).2.sentryLoc = t.sentryLoc := by
    intro t ht
    unfold sentryAdvance at ht ⊢
    split
    · rfl
    · rename_i hpath
      rw [hpath] at ht
      exact absurd ht (by simp)
  unfold moveSentry at h
  split at h
  · rw [← (Prod.mk.inj (Option.some.inj h)).2]
  · split at h
    · rw [← (Prod.mk.inj (Option.some.inj h)).2]
    · split at h
      · exact absurd h (by simp)
      · rename_i sensed r1 hsense
        split at h
        · split at h
          · rw [← (Prod.mk.inj (Option.some.inj h)).2]
          · have h1 := congrArg Prod.fst (Option.some.inj h)
            have h2 := congrArg Prod.snd (Option.some.inj h)
            simp only at h1 h2
            rw [← h2]
            exact hadv _ h1
        · have h1 := congrArg Prod.fst (Option.some.inj h)
          have h2 := congrArg Prod.snd (Option.some.inj h)
          simp only at h1 h2
          rw [← h2]
          exact hadv _ h1

/-- Sensing with bound `RunnerSense = 2` succeeds exactly when the goal lies within two steps
through open cells. -/
theorem sense_iff_within_two {fuel : Nat} {g : Grid} {a b : Location} {r r1 : Rng}
    {sensed : List Location} (hne : a ≠ b)
    (h : findPathDfs fuel g a NullLocation b RunnerSense r = some (sensed, r1)) :
    sensed ≠ [] ↔ ∃ route, IsRoute (isOpen g) a route ∧ route.length ≤ RunnerSense
      ∧ routeEnd a route = b := by
  have hfun : isPassable g NullLocation = isOpen g := funext (isPassable_null g)
  constructor
  · intro hs
    obtain ⟨h1, h2, h3⟩ := findPathDfs_sound h hs
    rw [hfun] at h1
    refine ⟨sensed, h1, ?_, h2⟩
    have := h3 (by decide)
    exact_mod_cast this
  · rintro ⟨route, hroute, hlen, hend⟩
    have hreach := reach_of_isRoute hroute
    rw [hend, ← hfun] at hreach
    exact findPathDfs_complete_small hne (by decide) (by decide) h (by exact_mod_cast hlen) hreach

/-- The three ways a call of `moveRunner` can go when the sentry stands on an open cell other
than the runner's: the runner cools down; or it senses the sentry and adopts a flight plan whose
cells are neither the sentry's cell nor next to it; or it senses nothing, and then the sentry
is not on a neighbouring cell. -/
theorem moveRunner_cases {fuel : Nat} {s s1 : State} {moved : Bool}
    (hdiff : s.runnerLoc ≠ s.sentryLoc) (hsentry : isOpen s.toGrid s.sentryLoc = true)
    (h : moveRunner fuel s = some (moved, s1)) :
    (0 < s.runnerCooldown ∧ s1.runnerLoc = s.runnerLoc)
      ∨ ∃ sensed r1,
          findPathDfs fuel s.toGrid s.runnerLoc NullLocation s.sentryLoc RunnerSense s.rng
            = some (sensed, r1)
          ∧ ((sensed ≠ []
                ∧ ∃ path r2,
                  findLongestPathBfs fuel s.toGrid s.runnerLoc s.sentryLoc
                      ((RunnerSense : Int) + RunnerFear) r1 = some (path, r2)
                  ∧ (moved, s1) = runnerAdvance
                      { s with runnerSentryKnownLoc := s.sentryLoc
                               runnerPath := path.take RunnerSense, rng := r2 }
                  ∧ ∀ c ∈ path.take RunnerSense,
                      c ≠ s.sentryLoc ∧ isAdjacent c s.sentryLoc = false)
              ∨ (sensed = [] ∧ isAdjacent s.runnerLoc s.sentryLoc = false)) := by
  unfold moveRunner at h
  split at h
  · rename_i hcool
    left
    refine ⟨hcool, ?_⟩
    rw [← (Prod.mk.inj (Option.some.inj h)).2]
  · right
    split at h
    · exact absurd h (by simp)
    · rename_i sensed r1 hsense
      refine ⟨sensed, r1, hsense, ?_⟩
      by_cases hs : sensed = []
      · right
        refine ⟨hs, ?_⟩
        cases hadj : isAdjacent s.runnerLoc s.sentryLoc with
        | false => rfl
        | true =>
          exfalso
          have := (sense_iff_within_two hdiff hsense).2
            ⟨[s.sentryLoc], isRoute_cons.2 ⟨hadj, hsentry, isRoute_nil⟩,
              by simp [RunnerSense], rfl⟩
          exact this hs
      · left
        refine ⟨hs, ?_⟩
        rw [if_pos (List.length_pos.2 hs)] at h
        split at h
        · exact absurd h (by simp)
        · rename_i path r2 hbfs
          refine ⟨path, r2, hbfs, (Option.some.inj h).symm, ?_⟩
          intro c hc
          have hpass := (findLongestPathBfs_spec hbfs).1.forall_ok c (List.mem_of_mem_take hc)
          rw [isPassable_eq_isClearOf] at hpass
          simp only [isClearOf, Bool.and_eq_true, decide_eq_true_eq, Bool.not_eq_true'] at hpass
          exact ⟨hpass.1.2, hpass.2⟩

/-- When the sentry stands on an open cell other than the runner's and the runner's plan is
walkable, `moveRunner` does not put the runner on the sentry's cell. -/
theorem moveRunner_ne_sentry {fuel : Nat} {s s1 : State} {moved : Bool}
    (hplan : IsRoute (isOpen s.toGrid) s.runnerLoc s.runnerPath)
    (hdiff : s.runnerLoc ≠ s.sentryLoc) (hsentry : isOpen s.toGrid s.sentryLoc = true)
    (h : moveRunner fuel s = some (moved, s1)) : s1.runnerLoc ≠ s.sentryLoc := by
  rcases moveRunner_cases hdiff hsentry h with ⟨_, hsame⟩ | ⟨sensed, r1, _, hcase⟩
  · rw [hsame]
    exact hdiff
  · rcases hcase with ⟨_, path, r2, _, hadv, hclear⟩ | ⟨_, hfar⟩
    · have hs1 := congrArg Prod.snd hadv
      simp only at hs1
      rw [hs1]
      unfold runnerAdvance
      split
      · exact hdiff
      · rename_i front remaining hpath
        have hpath' : path.take RunnerSense = front :: remaining := hpath
        exact (hclear front (by rw [hpath']; simp)).1
    · rcases (moveRunner_legal hplan h).1 with hsame | ⟨⟨d, hd, hstep⟩, _⟩
      · rw [hsame]
        exact hdiff
      · intro hhit
        rw [hhit] at hstep
        have := isAdjacent_stepFrom s.runnerLoc d hd
        rw [← hstep, hfar] at this
        exact absurd this (by simp)

/-- Claim C22. In every Running state reachable from construction in which the sentry stands
on an open cell other than the runner's (so that the sentry is enabled): `moveRunner` returns
and never moves the runner onto the sentry's cell.  Sensing succeeds exactly when the sentry is
within `RunnerSense = 2` steps through open cells; then the runner's step is the head of a
flight plan whose cells are neither the sentry's cell nor next to it; otherwise the sentry is
not on a neighbouring cell, while the runner stays or steps onto a neighbouring cell.  Hence
when the sentry's location equals the runner's after `moveSentry`, the sentry has moved in that
call, and a call of `update` that starts the `CatchDelay` countdown has moved the sentry. -/
theorem moveRunner_never_steps_onto_sentry (s : State) (hreach : Reachable s)
    (hrun : ¬ s.resetDelay > 0) (hdiff : s.runnerLoc ≠ s.sentryLoc)
    (hsentry : isOpen s.toGrid s.sentryLoc = true) (fuel : Nat) :
    s.sentryColor ≠ s.pathColor
      ∧ (searchFuel s.toGrid ≤ fuel → ∃ res, moveRunner fuel s = some res)
      ∧ (∀ sensed r1,
          findPathDfs fuel s.toGrid s.runnerLoc NullLocation s.sentryLoc
            RunnerSense s.rng = some (sensed, r1) →
          (sensed ≠ [] ↔ ∃ route, IsRoute (isOpen s.toGrid) s.runnerLoc route
            ∧ route.length ≤ RunnerSense
            ∧ routeEnd s.runnerLoc route = s.sentryLoc))
      ∧ (∀ moved s1, moveRunner fuel s = some (moved, s1) →
          s1.sentryLoc = s.sentryLoc ∧ s1.runnerLoc ≠ s1.sentryLoc
            ∧ IsLegalMove s.toGrid s.runnerLoc s1.runnerLoc
            ∧ ((0 < s.runnerCooldown ∧ s1.runnerLoc = s.runnerLoc)
                ∨ ∃ sensed r1,
                    findPathDfs fuel s.toGrid s.runnerLoc NullLocation
                        s.sentryLoc RunnerSense s.rng = some (sensed, r1)
                    ∧ ((sensed ≠ []
                          ∧ ∃ path r2,
                            findLongestPathBfs fuel s.toGrid s.runnerLoc
                                s.sentryLoc ((RunnerSense : Int) + RunnerFear) r1
                              = some (path, r2)
                            ∧ (moved, s1) = runnerAdvance
                                { s with
                                  runnerSentryKnownLoc := s.sentryLoc
                                  runnerPath := path.take RunnerSense
                                  rng := r2 }
                            ∧ ∀ c ∈ path.take RunnerSense,
                                c ≠ s.sentryLoc ∧ isAdjacent c s.sentryLoc = false)
                        ∨ (sensed = []
                            ∧ isAdjacent s.runnerLoc s.sentryLoc = false)))
            ∧ ∀ moved' s2, moveSentry fuel s1 = some (moved', s2) →
                s2.sentryLoc = s2.runnerLoc →
                moved' = true ∧ s2.sentryLoc ≠ s.sentryLoc)
      ∧ ∀ res, update fuel s = some res →
          (updateOutcome res).resetDelay = CatchDelay →
          (updateOutcome res).sentryLoc ≠ s.sentryLoc := by
  have hinv := reachable_inv hreach
  have hstep : ∀ moved s1, moveRunner fuel s = some (moved, s1) →
      s1.sentryLoc = s.sentryLoc ∧ s1.runnerLoc ≠ s.sentryLoc := by
    intro moved s1 hmove
    have hf := moveRunner_frame hmove
    exact ⟨by rw [hf], moveRunner_ne_sentry hinv.1.1 hdiff hsentry hmove⟩
  refine ⟨?_, moveRunner_terminates fuel s, ?_, ?_, ?_⟩
  · intro hdisabled
    exact isOpen_ne_null hsentry (hinv.2.1 hdisabled).1
  · intro sensed r1 hsense
    exact sense_iff_within_two hdiff hsense
  · intro moved s1 hmove
    obtain ⟨hsl, hne⟩ := hstep moved s1 hmove
    refine ⟨hsl, by rw [hsl]; exact hne, (moveRunner_legal hinv.1.1 hmove).1,
      moveRunner_cases hdiff hsentry hmove, ?_⟩
    intro moved' s2 hsentry2 hcaught
    have hrl : s2.runnerLoc = s1.runnerLoc := by rw [moveSentry_frame hsentry2]
    have hmoved : s2.sentryLoc ≠ s.sentryLoc := by
      rw [hcaught, hrl]
      exact hne
    refine ⟨?_, hmoved⟩
    cases moved' with
    | true => rfl
    | false =>
      exfalso
      apply hmoved
      rw [moveSentry_not_moved hsentry2, hsl]
  · intro res hupdate h30
    obtain ⟨moved, s1, hmove, hcase⟩ := update_running_outcome hrun hupdate
    obtain ⟨hsl, hne⟩ := hstep moved s1 hmove
    have hd1 : s1.resetDelay = s.resetDelay := by rw [moveRunner_frame hmove]
    have hnot30 : s.resetDelay ≠ CatchDelay := by
      intro h
      rw [h] at hrun
      exact hrun (by decide)
    rcases hcase with ⟨_, _, hd⟩ | ⟨_, moved', s2, hsentry2, heq, hd⟩
    · exfalso
      rw [h30] at hd
      rcases hd with hd | hd | hd
      · exact absurd hd (by decide)
      · exact absurd hd (by decide)
      · exact hnot30 (hd1 ▸ hd.symm)
    · have hrl : s2.runnerLoc = s1.runnerLoc := by rw [moveSentry_frame hsentry2]
      have hd2 : s2.resetDelay = s1.resetDelay := by rw [moveSentry_frame hsentry2]
      have hs : (updateOutcome res).sentryLoc = s2.sentryLoc := by rw [heq]
      rcases hd with hd | hd
      · rw [hs, hd, hrl]
        exact hne
      · exfalso
        rw [h30, hd2, hd1] at hd
        exact hnot30 hd.symm

set_option maxRecDepth 1000000 in
/-- Witness for C22: the state `chased3x3`, with the runner on `(0, 0)` and the sentry on
`(2, 2)`. -/
theorem moveRunner_never_steps_onto_sentry_witness :
    Reachable chased3x3 ∧ ¬ chased3x3.resetDelay > 0
      ∧ chased3x3.runnerLoc ≠ chased3x3.sentryLoc
      ∧ isOpen chased3x3.toGrid chased3x3.sentryLoc = true
      ∧ chased3x3.sentryColor ≠ chased3x3.pathColor
      ∧ (searchFuel chased3x3.toGrid ≤ 200 → ∃ res, moveRunner 200 chased3x3 = some res)
      ∧ (∀ sensed r1,
          findPathDfs 200 chased3x3.toGrid chased3x3.runnerLoc NullLocation chased3x3.sentryLoc
            RunnerSense chased3x3.rng = some (sensed, r1) →
          (sensed ≠ [] ↔ ∃ route, IsRoute (isOpen chased3x3.toGrid) chased3x3.runnerLoc route
            ∧ route.length ≤ RunnerSense
            ∧ routeEnd chased3x3.runnerLoc route = chased3x3.sentryLoc))
      ∧ (∀ moved s1, moveRunner 200 chased3x3 = some (moved, s1) →
          s1.sentryLoc = chased3x3.sentryLoc ∧ s1.runnerLoc ≠ s1.sentryLoc
            ∧ IsLegalMove chased3x3.toGrid chased3x3.runnerLoc s1.runnerLoc
            ∧ ((0 < chased3x3.runnerCooldown ∧ s1.runnerLoc = chased3x3.runnerLoc)
                ∨ ∃ sensed r1,
                    findPathDfs 200 chased3x3.toGrid chased3x3.runnerLoc NullLocation
                        chased3x3.sentryLoc RunnerSense chased3x3.rng = some (sensed, r1)
                    ∧ ((sensed ≠ []
                          ∧ ∃ path r2,
                            findLongestPathBfs 200 chased3x3.toGrid chased3x3.runnerLoc
                                chased3x3.sentryLoc ((RunnerSense : Int) + RunnerFear) r1
                              = some (path, r2)
                            ∧ (moved, s1) = runnerAdvance
                                { chased3x3 with
                                  runnerSentryKnownLoc := chased3x3.sentryLoc
                                  runnerPath := path.take RunnerSense
                                  rng := r2 }
                            ∧ ∀ c ∈ path.take RunnerSense,
                                c ≠ chased3x3.sentryLoc
                                  ∧ isAdjacent c chased3x3.sentryLoc = false)
                        ∨ (sensed = []
                            ∧ isAdjacent chased3x3.runnerLoc chased3x3.sentryLoc = false)))
            ∧ ∀ moved' s2, moveSentry 200 s1 = some (moved', s2) →
                s2.sentryLoc = s2.runnerLoc →
                moved' = true ∧ s2.sentryLoc ≠ chased3x3.sentryLoc)
      ∧ ∀ res, update 200 chased3x3 = some res →
          (updateOutcome res).resetDelay = CatchDelay →
          (updateOutcome res).sentryLoc ≠ chased3x3.sentryLoc :=
  ⟨reachable_afterInit (Reachable.constructed _ _ _ _ _ _ _ _ _ _) (by decide),
    by decide, by decide, by decide,
    moveRunner_never_steps_onto_sentry chased3x3
      (reachable_afterInit (Reachable.constructed _ _ _ _ _ _ _ _ _ _) (by decide))
      (by decide) (by decide) (by decide) 200⟩

end RunnerAvoidsSentry

end MazeRunner
